import Mathlib

/-!
# EAN/UPC decoder of the Zebra barcode library (`zebra/decoder/ean.c`)

A shallow embedding of the partial integrator, the checksum, the output
formatter, the pass state machine and the per-edge entry point
`zebra_decode_ean`, followed by theorems about them.

Conventions of the embedding:
* `unsigned char` values are `Nat` reduced `% 256`, `signed char` values are
  `Int` in `-128..127`, `unsigned` values are `Nat` reduced `% 2 ^ 32`;
* arrays are total functions from the index; accesses whose index is not bounded
  by the surrounding control flow are checked and yield `fault.bounds`;
* a failing `assert` yields a `fault` naming the function it belongs to;
* the contents of `decoder.h`, `ean.h` and `zebra.h` that the file uses but does
  not define are taken as parameters (`decoder_h`) or, where the specification
  pins them down, as constants.
-/

namespace Ean

/-! ## Machine integers -/

/-- Conversion of an integer value to `unsigned char`. -/
def u8 (x : Int) : Nat := (x % 256).toNat

/-- Conversion of an 8-bit pattern to `signed char` (two's complement). -/
def s8 (n : Nat) : Int := if n % 256 < 128 then ((n % 256 : Nat) : Int) else ((n % 256 : Nat) : Int) - 256

/-- Conversion of an integer value to `unsigned` (32 bits). -/
def u32 (x : Int) : Nat := (x % 4294967296).toNat

/-- Reduction of an `unsigned` result. -/
def w32 (n : Nat) : Nat := n % 4294967296

/-! ## Constants -/

/-- Modelled from the spec: the symbol type tags of `zebra.h` (section 6, "bit-exact"). -/
def ZEBRA_NONE : Nat := 0

/-- Modelled from the spec: the symbol type tags of `zebra.h` (section 6). -/
def ZEBRA_PARTIAL : Nat := 1

/-- Modelled from the spec: the symbol type tags of `zebra.h` (section 6). -/
def ZEBRA_EAN8 : Nat := 8

/-- Modelled from the spec: the symbol type tags of `zebra.h` (section 6). -/
def ZEBRA_UPCE : Nat := 9

/-- Modelled from the spec: the symbol type tags of `zebra.h` (section 6). -/
def ZEBRA_EAN13 : Nat := 13

/-- Modelled from the spec: the add-on flag of `zebra.h` (section 6). -/
def ZEBRA_ADDON2 : Nat := 0x20

/-- Modelled from the spec: the add-on flag of `zebra.h` (section 6). -/
def ZEBRA_ADDON5 : Nat := 0x50

/-- The source's `symbol_partial_t`: `EAN_LEFT = 0x0000`. -/
def EAN_LEFT : Nat := 0x0000

/-- The source's `symbol_partial_t`: `EAN_RIGHT = 0x1000`. -/
def EAN_RIGHT : Nat := 0x1000

/-- The parts of the headers that neither the source file nor the specification
fixes: the two masks of `zebra.h`, the two state constants of `ean.h`, and the
ratio decoder `decode_e` and width sum `calc_s` of `decoder.h`. -/
structure decoder_h where
  ZEBRA_SYMBOL : Nat
  ZEBRA_ADDON : Nat
  STATE_IDX : Nat
  STATE_ADDON : Int
  decode_e : Nat → Nat → Nat → Int
  calc_s : (Nat → Nat) → Nat → Nat → Nat

/-- The source's `digits[]` table. -/
def digits : List Nat :=
  [0x06, 0x10, 0x04, 0x13,
   0x19, 0x08, 0x11, 0x05,
   0x09, 0x12, 0x07, 0x15,
   0x16, 0x00, 0x14, 0x03,
   0x18, 0x01, 0x02, 0x17]

/-- The source's `parity_decode[]` table. -/
def parity_decode : List Nat :=
  [0xf0,
   0xff, 0xff, 0x0f, 0xff, 0x1f, 0x2f, 0xf3, 0xff,
   0x4f, 0x7f, 0xf8, 0x5f, 0xf9, 0xf6, 0xff,
   0xff, 0x6f, 0x9f, 0xf5, 0x8f, 0xf7, 0xf4, 0xff,
   0x3f, 0xf2, 0xf1, 0xff, 0xff, 0xff, 0xff, 0x0f]

/-! ## Data model -/

/-- Ways in which the C code can stop without returning. -/
inductive fault where
  | assert_check_parity
  | assert_decode4
  | bounds
  deriving DecidableEq, Repr

/-- The two run colours (`zebra_color_t`). -/
inductive zebra_color_t where
  | ZEBRA_SPACE
  | ZEBRA_BAR
  deriving DecidableEq, Repr

/-- The record `ean_pass_t`: `signed char state; unsigned char raw[7]`. -/
structure ean_pass_t where
  state : Int
  raw : Nat → Nat

/-- The record `ean_decoder_t`: `pass[4]`, the three labels, `s4`, and
`signed char buf[18]`. -/
structure ean_decoder_t where
  pass : Nat → ean_pass_t
  left : Nat
  right : Nat
  addon : Nat
  s4 : Nat
  buf : Nat → Int

/-- Modelled from the spec: the host decoder `zebra_decoder_t` of `decoder.h`,
through the contract of section 6: `width k` is the `k`-th most recent width
(`get_width`), `color` the current colour (`get_color`), `lock` the output lock
(`get_lock`), `buf` the output buffer, `idx` the rotating edge index. -/
structure zebra_decoder_t where
  idx : Nat
  width : Nat → Nat
  color : zebra_color_t
  lock : Bool
  buf : Nat → Nat
  ean : ean_decoder_t

/-- Array store `a[j] = v`. -/
def store {α : Type} (a : Nat → α) (j : Nat) (v : α) : Nat → α :=
  fun k => if k = j then v else a k

/-- Modelled from the spec: `get_width(dcode, k)`, an `unsigned`. -/
def get_width (dcode : zebra_decoder_t) (k : Nat) : Nat := w32 (dcode.width k)

/-- Modelled from the spec: `get_color(dcode)`. -/
def get_color (dcode : zebra_decoder_t) : zebra_color_t := dcode.color

/-- Modelled from the spec: `get_lock(dcode)`. -/
def get_lock (dcode : zebra_decoder_t) : Bool := dcode.lock

/-! ## Checksum -/

/-- The `for` loop of `ean_check_parity`: `k` iterations remain, `i` is the loop
counter and `chk` the 8-bit accumulator.  (The counter is an `unsigned char`
compared with the `int` n; it does not wrap for `n ≤ 255`.) -/
def ean_check_parity_loop (ean : ean_decoder_t) (n : Nat) : Nat → Nat → Nat → Except fault Nat
  | 0, _, chk => .ok chk
  | k + 1, i, chk =>
    let d := u8 (ean.buf i)
    if d < 10 then
      let chk := (chk + d) % 256
      let chk :=
        if (i ^^^ n) &&& 1 ≠ 0 then
          let chk := (chk + (d <<< 1)) % 256
          if chk ≥ 20 then chk - 20 else chk
        else chk
      let chk := if chk ≥ 10 then chk - 10 else chk
      ean_check_parity_loop ean n k (i + 1) chk
    else .error fault.assert_check_parity

/-- The source's `ean_check_parity(ean, n)`: `0` when `buf[n]` is the check
digit of `buf[0..n-1]`, `-1` otherwise. -/
def ean_check_parity (ean : ean_decoder_t) (n : Nat) : Except fault Int :=
  match ean_check_parity_loop ean n n 0 0 with
  | .error f => .error f
  | .ok chk =>
    if chk < 10 then
      let chk := if chk ≠ 0 then 10 - chk else chk
      let d := u8 (ean.buf n)
      if d < 10 then
        if chk ≠ d then .ok (-1) else .ok 0
      else .error fault.assert_check_parity
    else .error fault.assert_check_parity

/-- Specification side: the weight of position `i` of an `n`-digit payload,
`3` if `i xor n` is odd and `1` otherwise. -/
def spec_weight (i n : Nat) : Int := if (i ^^^ n) % 2 = 1 then 3 else 1

/-- Specification side: the exact weighted sum of `buf[0..n-1]`. -/
def spec_weighted_sum (buf : Nat → Int) (n : Nat) : Int :=
  ∑ i in Finset.range n, spec_weight i n * buf i

/-- Specification side: the check digit `(10 - sum mod 10) mod 10`. -/
def spec_check_digit (buf : Nat → Int) (n : Nat) : Int :=
  (10 - spec_weighted_sum buf n % 10) % 10

/-! ## Guard recognizer and character decoder -/

/-- The loop of `aux_end`, `for(i = 0; i < n - 1; i++)`: the first argument is
the number of iterations left, `s` the reference width, `code` the accumulated
`signed char`; a negative code leaves the function with `-1`. -/
def aux_end_loop (H : decoder_h) (dcode : zebra_decoder_t) (s : Nat) : Nat → Nat → Int → Int
  | 0, _, code => code
  | k + 1, i, code =>
    let e := w32 (get_width dcode i + get_width dcode (i + 1))
    let code := s8 (w32 (u32 code <<< 2) ||| u32 (H.decode_e e s 7))
    if code < 0 then -1 else aux_end_loop H dcode s k (i + 1) code

/-- The source's `aux_end(dcode, n)`. -/
def aux_end (H : decoder_h) (dcode : zebra_decoder_t) (n : Nat) : Int :=
  let s := H.calc_s (get_width dcode) n 4
  aux_end_loop H dcode s (n - 1) 0 0

/-- The source's `aux_start(dcode)`; it is only called with `s4` non-zero. -/
def aux_start (H : decoder_h) (dcode : zebra_decoder_t) : Int :=
  let e2 := w32 (get_width dcode 5 + get_width dcode 6)
  if H.decode_e e2 dcode.ean.s4 7 ≠ 0 then -1
  else
    let e1 := w32 (get_width dcode 4 + get_width dcode 5)
    let E1 := u8 (H.decode_e e1 dcode.ean.s4 7)
    if get_color dcode = zebra_color_t.ZEBRA_BAR then
      if w32 (get_width dcode 7 * 14 + 1) / dcode.ean.s4 ≥ 3 then
        if E1 = 0 then 0
        else if E1 = 1 then s8 (u8 H.STATE_ADDON)
        else -1
      else -1
    else if E1 = 0 then
      let e3 := w32 (get_width dcode 6 + get_width dcode 7)
      if H.decode_e e3 dcode.ean.s4 7 = 0 then 0 else -1
    else -1

/-- The source's `decode4(dcode)`; the failing `assert(code < 0x14)` is
`fault.assert_decode4`.  (`1 << code` is taken exactly; the C shift is only
defined for `code < 31`.) -/
def decode4 (H : decoder_h) (dcode : zebra_decoder_t) : Except fault Int :=
  let bar := decide (get_color dcode = zebra_color_t.ZEBRA_BAR)
  let e1 :=
    if bar then w32 (get_width dcode 0 + get_width dcode 1)
    else w32 (get_width dcode 2 + get_width dcode 3)
  let e2 := w32 (get_width dcode 1 + get_width dcode 2)
  let code := s8 (w32 (u32 (H.decode_e e1 dcode.ean.s4 7) <<< 2) |||
                  u32 (H.decode_e e2 dcode.ean.s4 7))
  if code < 0 then .ok (-1)
  else
    let c := code.toNat
    let c :=
      if (1 <<< c) &&& 0x0660 ≠ 0 then
        let d2 :=
          if bar then w32 (get_width dcode 0 + get_width dcode 2)
          else w32 (get_width dcode 1 + get_width dcode 3)
        let d2 := w32 (d2 * 7)
        let mid := if (1 <<< c) &&& 0x0420 ≠ 0 then 3 else 4
        if d2 > w32 (mid * dcode.ean.s4) then ((c >>> 1) &&& 3) ||| 0x10 else c
      else c
    if c < 0x14 then .ok (c : Int) else .error fault.assert_decode4

/-! ## Half-symbol finalisation -/

/-- The source's `ean_part_end4(pass, rev)`: the updated pass and the partial
tag. -/
def ean_part_end4 (pass : ean_pass_t) (rev : Nat) : ean_pass_t × Nat :=
  let par := ((pass.raw 1 &&& 0x10) >>> 1 ||| (pass.raw 2 &&& 0x10) >>> 2 |||
              (pass.raw 3 &&& 0x10) >>> 3 ||| (pass.raw 4 &&& 0x10) >>> 4) % 256
  if par ≠ 0 ∧ par ≠ 0xf then (pass, ZEBRA_NONE)
  else
    let pass :=
      if decide (par = 0) = decide (rev = 0) then
        let raw := pass.raw
        let raw := store raw 1 (pass.raw 4)
        let raw := store raw 4 (pass.raw 1)
        let raw := store raw 2 (pass.raw 3)
        let raw := store raw 3 (pass.raw 2)
        { pass with raw := raw }
      else pass
    if par = 0 then (pass, ZEBRA_EAN8 ||| EAN_RIGHT) else (pass, ZEBRA_EAN8 ||| EAN_LEFT)

/-- The parity index computed at the start of `ean_part_end7`. -/
def ean_part_end7_par (pass : ean_pass_t) (rev : Nat) : Nat :=
  (if rev = 0 then
    (pass.raw 1 &&& 0x10) <<< 1 ||| (pass.raw 2 &&& 0x10) ||| (pass.raw 3 &&& 0x10) >>> 1 |||
    (pass.raw 4 &&& 0x10) >>> 2 ||| (pass.raw 5 &&& 0x10) >>> 3 ||| (pass.raw 6 &&& 0x10) >>> 4
  else
    (pass.raw 1 &&& 0x10) >>> 4 ||| (pass.raw 2 &&& 0x10) >>> 3 ||| (pass.raw 3 &&& 0x10) >>> 2 |||
    (pass.raw 4 &&& 0x10) >>> 1 ||| (pass.raw 5 &&& 0x10) ||| (pass.raw 6 &&& 0x10) <<< 1) % 256

/-- The reversal loop of `ean_part_end7`, `for(i = 1; i < 4; i++)`: the first
argument is the number of iterations left. -/
def ean_part_end7_reverse : Nat → Nat → (Nat → Nat) → (Nat → Nat)
  | 0, _, raw => raw
  | k + 1, i, raw =>
    let tmp := raw i
    let raw := store raw i (raw (7 - i))
    let raw := store raw (7 - i) tmp
    ean_part_end7_reverse k (i + 1) raw

/-- The source's `ean_part_end7(pass, rev)`: the updated pass and the partial
tag. -/
def ean_part_end7 (pass : ean_pass_t) (rev : Nat) : ean_pass_t × Nat :=
  let par := ean_part_end7_par pass rev
  let r0 := parity_decode.getD (par >>> 1) 0
  let r0 := if par &&& 1 ≠ 0 then r0 >>> 4 else r0
  let r0 := r0 &&& 0xf
  let pass := { pass with raw := store pass.raw 0 r0 }
  if r0 = 0xf then (pass, ZEBRA_NONE)
  else
    let pass :=
      if decide (par = 0) = decide (rev = 0) then
        { pass with raw := ean_part_end7_reverse 3 1 pass.raw }
      else pass
    if par = 0 then (pass, ZEBRA_EAN13 ||| EAN_RIGHT)
    else if par &&& 0x20 ≠ 0 then (pass, ZEBRA_EAN13 ||| EAN_LEFT)
    else (pass, ZEBRA_NONE)

/-! ## Partial integrator -/

/-- The statement `ean->left = ean->right = ean->addon = ZEBRA_NONE`. -/
def reset_parts (ean : ean_decoder_t) : ean_decoder_t :=
  { ean with left := ZEBRA_NONE, right := ZEBRA_NONE, addon := ZEBRA_NONE }

/-- The add-on loop of `integrate_partial`, `for(i = ...; i >= 0; i--)`: the
first argument is `i + 1`. -/
def integrate_addon_loop (pass : ean_pass_t) : Nat → ean_decoder_t → ean_decoder_t
  | 0, ean => ean
  | i + 1, ean =>
    let digit := pass.raw i &&& 0xf
    let ean := if ean.addon ≠ 0 ∧ ean.buf (i + 13) ≠ (digit : Int) then reset_parts ean else ean
    integrate_addon_loop pass i { ean with buf := store ean.buf (i + 13) (digit : Int) }

/-- The right-half loop of `integrate_partial`, `for(i = ...; i; i--, j--)`: the
first argument is `i`, the second `j`. -/
def integrate_right_loop (pass : ean_pass_t) : Nat → Nat → ean_decoder_t → ean_decoder_t
  | 0, _, ean => ean
  | i + 1, j, ean =>
    let digit := pass.raw (i + 1) &&& 0xf
    let ean := if ean.right ≠ 0 ∧ ean.buf j ≠ (digit : Int) then reset_parts ean else ean
    integrate_right_loop pass i (j - 1) { ean with buf := store ean.buf j (digit : Int) }

/-- The left-half loop of `integrate_partial`, `for(i = ...; j >= 0; i--, j--)`:
the first argument is `j + 1`, the second `i`. -/
def integrate_left_loop (pass : ean_pass_t) : Nat → Nat → ean_decoder_t → ean_decoder_t
  | 0, _, ean => ean
  | j + 1, i, ean =>
    let digit := pass.raw i &&& 0xf
    let ean := if ean.left ≠ 0 ∧ ean.buf j ≠ (digit : Int) then reset_parts ean else ean
    integrate_left_loop pass j (i - 1) { ean with buf := store ean.buf j (digit : Int) }

/-- The first half of `integrate_partial`: storing the partial into the
accumulator (everything before `part = (ean->left & ean->right)`). -/
def integrate_store (H : decoder_h) (ean : ean_decoder_t) (pass : ean_pass_t) (part : Nat) :
    ean_decoder_t :=
  if part &&& H.ZEBRA_ADDON ≠ 0 then
    let ean := integrate_addon_loop pass ((if part = ZEBRA_ADDON5 then 4 else 1) + 1) ean
    { ean with addon := part }
  else
    let ean :=
      if (ean.left ≠ 0 ∧ part &&& H.ZEBRA_SYMBOL ≠ ean.left) ∨
         (ean.right ≠ 0 ∧ part &&& H.ZEBRA_SYMBOL ≠ ean.right) then
        reset_parts ean
      else ean
    if part &&& EAN_RIGHT ≠ 0 then
      let part := part &&& H.ZEBRA_SYMBOL
      let j := if part = ZEBRA_EAN13 then 12 else 7
      let ean := integrate_right_loop pass (if part = ZEBRA_EAN13 then 6 else 4) j ean
      { ean with right := part }
    else
      let j := if part = ZEBRA_EAN13 then 6 else 3
      let ean := integrate_left_loop pass (j + 1) (if part = ZEBRA_EAN13 then 6 else 4) ean
      { ean with left := part }

/-- The second half of `integrate_partial`: the completion tag, the checksum and
the add-on flag. -/
def integrate_finish (ean : ean_decoder_t) : Except fault Nat :=
  let part := ean.left &&& ean.right
  let part := if part = 0 then ZEBRA_PARTIAL else part
  let bad13 : Except fault Bool :=
    if part = ZEBRA_EAN13 then
      match ean_check_parity ean 12 with
      | .error f => .error f
      | .ok r => .ok (decide (r ≠ 0))
    else .ok false
  match bad13 with
  | .error f => .error f
  | .ok b13 =>
    let bad : Except fault Bool :=
      if b13 then .ok true
      else if part = ZEBRA_EAN8 then
        match ean_check_parity ean 7 with
        | .error f => .error f
        | .ok r => .ok (decide (r ≠ 0))
      else .ok false
    match bad with
    | .error f => .error f
    | .ok b =>
      let part := if b then ZEBRA_NONE else part
      let part := if part > ZEBRA_PARTIAL then part ||| ean.addon else part
      .ok part

/-- The source's `integrate_partial(ean, pass, part)`: the updated accumulator
and the returned symbol type. -/
def integrate_partial (H : decoder_h) (ean : ean_decoder_t) (pass : ean_pass_t) (part : Nat) :
    Except fault (ean_decoder_t × Nat) :=
  let ean := integrate_store H ean pass part
  match integrate_finish ean with
  | .error f => .error f
  | .ok sym => .ok (ean, sym)

/-! ## Output formatter -/

/-- The main loop of `postprocess`,
`for(; i < ((sym & ZEBRA_SYMBOL) - 1) && ean->buf[i] >= 0; i++)`: the first
argument is the number of indices left below the limit; the result is the final
`i` and the output buffer.  A read of `ean->buf[i]` with `i ≥ 18` is outside the
array. -/
def postprocess_main_loop (ean : ean_decoder_t) :
    Nat → Nat → (Nat → Nat) → Except fault (Nat × (Nat → Nat))
  | 0, i, out => .ok (i, out)
  | k + 1, i, out =>
    if i < 18 then
      if ean.buf i ≥ 0 then
        postprocess_main_loop ean k (i + 1) (store out i (u8 (ean.buf i + 48)))
      else .ok (i, out)
    else .error fault.bounds

/-- The add-on loop of `postprocess`, `for(i = 13; ean->buf[i] >= 0; i++)`: the
first argument is `18 - i`; when it is `0` the read `ean->buf[18]` is outside
the array. -/
def postprocess_addon_loop (ean : ean_decoder_t) :
    Nat → Nat → Nat → (Nat → Nat) → Except fault (Nat × (Nat → Nat))
  | 0, _, _, _ => .error fault.bounds
  | k + 1, i, j, out =>
    if ean.buf i ≥ 0 then
      postprocess_addon_loop ean k (i + 1) (j + 1) (store out j (u8 (ean.buf i + 48)))
    else .ok (j, out)

/-- The source's `postprocess(dcode, sym)`: the new output buffer `dcode->buf`. -/
def postprocess (H : decoder_h) (dcode : zebra_decoder_t) (sym : Nat) :
    Except fault zebra_decoder_t :=
  let ean := dcode.ean
  let main : Except fault (Nat × (Nat → Nat)) :=
    if sym &&& H.ZEBRA_SYMBOL > ZEBRA_PARTIAL then
      postprocess_main_loop ean ((sym &&& H.ZEBRA_SYMBOL) - 1) 0 dcode.buf
    else .ok (0, dcode.buf)
  match main with
  | .error f => .error f
  | .ok (i, out) =>
    let addon : Except fault (Nat × (Nat → Nat)) :=
      if sym &&& H.ZEBRA_ADDON ≠ 0 then postprocess_addon_loop ean 5 13 i out
      else .ok (i, out)
    match addon with
    | .error f => .error f
    | .ok (j, out) => .ok { dcode with buf := store out j 0 }

/-! ## Pass state machine -/

/-- The value of `pass->state & STATE_IDX` as an `unsigned char`. -/
def state_idx (H : decoder_h) (state : Int) : Nat := (u32 state &&& H.STATE_IDX) % 256

/-- The tail of `decode_pass`: the EAN-13 terminator and the final `return(0)`. -/
def decode_pass_end7 (H : decoder_h) (dcode : zebra_decoder_t) (pass : ean_pass_t)
    (idx rev : Nat) : ean_pass_t × Nat :=
  if get_color dcode = zebra_color_t.ZEBRA_BAR ∧ (idx = 0x18 ∨ idx = 0x17) then
    let r : ean_pass_t × Nat :=
      if aux_end H dcode (if rev ≠ 0 then 3 else 4) = 0 then ean_part_end7 pass rev
      else (pass, ZEBRA_NONE)
    ({ r.1 with state := -1 }, r.2)
  else (pass, 0)

/-- The character step of `decode_pass`: `decode4`, then either `state = -1` or
the store into `raw[(idx >> 2) + 1]` (outside `raw[7]` it is `fault.bounds`),
followed by the tail of the function. -/
def decode_pass_char (H : decoder_h) (dcode : zebra_decoder_t) (pass : ean_pass_t)
    (idx rev : Nat) : Except fault (ean_pass_t × Nat) :=
  match decode4 H dcode with
  | .error f => .error f
  | .ok code =>
    if code < 0 then .ok (decode_pass_end7 H dcode { pass with state := -1 } idx rev)
    else if (idx >>> 2) + 1 < 7 then
      .ok (decode_pass_end7 H dcode
        { pass with raw := store pass.raw ((idx >>> 2) + 1) (digits.getD (u8 code) 0) } idx rev)
    else .error fault.bounds

/-- The source's `decode_pass(dcode, pass)`: the updated pass and the partial
tag it returns (`0` for none). -/
def decode_pass (H : decoder_h) (dcode : zebra_decoder_t) (pass : ean_pass_t) :
    Except fault (ean_pass_t × Nat) :=
  let pass := { pass with state := s8 (u8 (pass.state + 1)) }
  let idx := state_idx H pass.state
  let rev := (u32 pass.state &&& 1) % 256
  if get_color dcode = zebra_color_t.ZEBRA_BAR ∧ (idx = 0x10 ∨ idx = 0x0f) ∧
      aux_end H dcode (if rev ≠ 0 then 3 else 4) = 0 then
    let r := ean_part_end4 pass rev
    .ok ({ r.1 with state := -1 }, r.2)
  else if idx &&& 0x03 = 0 ∧ idx ≤ 0x14 then
    if dcode.ean.s4 = 0 then .ok (pass, 0)
    else if pass.state = 0 then
      let pass := { pass with state := aux_start H dcode }
      if pass.state < 0 then .ok (pass, 0)
      else decode_pass_char H dcode pass (state_idx H pass.state) rev
    else decode_pass_char H dcode pass idx rev
  else .ok (decode_pass_end7 H dcode pass idx rev)

/-! ## Entry point -/

/-- The statement
`pass[0].state = pass[1].state = -1; pass[2].state = pass[3].state = -1`. -/
def reset_passes (ean : ean_decoder_t) : ean_decoder_t :=
  let pass := store ean.pass 1 { ean.pass 1 with state := -1 }
  let pass := store pass 0 { pass 0 with state := -1 }
  let pass := store pass 3 { pass 3 with state := -1 }
  let pass := store pass 2 { pass 2 with state := -1 }
  { ean with pass := pass }

/-- One iteration of the `for` loop of `zebra_decode_ean` for pass `i`: the
updated decoder and the updated `sym`. -/
def zebra_decode_ean_body (H : decoder_h) (pass_idx i : Nat) (dcode : zebra_decoder_t)
    (sym : Nat) : Except fault (zebra_decoder_t × Nat) :=
  if (dcode.ean.pass i).state ≥ 0 ∨ i = pass_idx then
    match decode_pass H dcode (dcode.ean.pass i) with
    | .error f => .error f
    | .ok (pass, part) =>
      let dcode := { dcode with ean := { dcode.ean with pass := store dcode.ean.pass i pass } }
      if part ≠ 0 then
        match integrate_partial H dcode.ean pass part with
        | .error f => .error f
        | .ok (ean, sym) =>
          let dcode := { dcode with ean := ean }
          if sym ≠ 0 then
            let dcode := { dcode with ean := reset_passes dcode.ean }
            if sym > ZEBRA_PARTIAL then
              if ¬ get_lock dcode then
                match postprocess H dcode sym with
                | .error f => .error f
                | .ok dcode => .ok (dcode, sym)
              else .ok (dcode, ZEBRA_PARTIAL)
            else .ok (dcode, sym)
          else .ok (dcode, sym)
      else .ok (dcode, sym)
  else .ok (dcode, sym)

/-- The `for(i = 0; i < 4; i++)` loop of `zebra_decode_ean`: the first argument
is the number of iterations left. -/
def zebra_decode_ean_loop (H : decoder_h) (pass_idx : Nat) :
    Nat → Nat → zebra_decoder_t → Nat → Except fault (zebra_decoder_t × Nat)
  | 0, _, dcode, sym => .ok (dcode, sym)
  | k + 1, i, dcode, sym =>
    match zebra_decode_ean_body H pass_idx i dcode sym with
    | .error f => .error f
    | .ok (dcode, sym) => zebra_decode_ean_loop H pass_idx k (i + 1) dcode sym

/-- The update of `s4` at the start of `zebra_decode_ean`:
`s4 -= get_width(dcode, 4); s4 += get_width(dcode, 0)` on an `unsigned`. -/
def update_s4 (dcode : zebra_decoder_t) : zebra_decoder_t :=
  let s4 := w32 (dcode.ean.s4 + 4294967296 - get_width dcode 4)
  let s4 := w32 (s4 + get_width dcode 0)
  { dcode with ean := { dcode.ean with s4 := s4 } }

/-- The source's `zebra_decode_ean(dcode)`: the updated decoder and the returned
symbol type. -/
def zebra_decode_ean (H : decoder_h) (dcode : zebra_decoder_t) :
    Except fault (zebra_decoder_t × Nat) :=
  let pass_idx := (dcode.idx &&& 3) % 256
  zebra_decode_ean_loop H pass_idx 4 0 (update_s4 dcode) ZEBRA_NONE

/-- The decoder and `sym` after the first `k` iterations of the loop of
`zebra_decode_ean`. -/
def zebra_decode_ean_upto (H : decoder_h) (dcode : zebra_decoder_t) (k : Nat) :
    Except fault (zebra_decoder_t × Nat) :=
  zebra_decode_ean_loop H ((dcode.idx &&& 3) % 256) k 0 (update_s4 dcode) ZEBRA_NONE

/-! ## Header instance and sample data -/

/-- Modelled from the spec: the ratio decoder `decode_e` of `decoder.h` (section
4.1): the edge pair `e` measured against the character width `s` of `n` modules
is classified as the closest of 2..5 modules, biased by 2, and is invalid (`-1`)
outside of 1.5..5.5 modules. -/
def spec_decode_e (e s n : Nat) : Int :=
  if s = 0 then -1
  else if 2 * e * n < 3 * s then -1
  else if 2 * e * n < 5 * s then 0
  else if 2 * e * n < 7 * s then 1
  else if 2 * e * n < 9 * s then 2
  else if 2 * e * n < 11 * s then 3
  else -1

/-- Modelled from the spec: `calc_s(dcode, offset, n)` of `decoder.h`, the sum of
the `n` widths starting at `offset` (sections 4.3 and 6). -/
def spec_calc_s (width : Nat → Nat) (offset : Nat) : Nat → Nat
  | 0 => 0
  | n + 1 => w32 (spec_calc_s width offset n + width (offset + n))

/-- A header instance consistent with the tag table of the specification: masks
that separate the symbol tag (low nibble) from the add-on flags and the
direction flag, a 5-bit state index and an add-on marker above it, with the
ratio decoder and width sum of the specification. -/
def model_h : decoder_h :=
  { ZEBRA_SYMBOL := 0x000f
    ZEBRA_ADDON := 0x0070
    STATE_IDX := 0x1f
    STATE_ADDON := 0x40
    decode_e := spec_decode_e
    calc_s := spec_calc_s }

/-- The masks act on the partial tags a pass can produce as the source relies
on: `& ZEBRA_SYMBOL` keeps the symbol tag and drops the direction flag, and
`& ZEBRA_ADDON` is zero on them. -/
def masks_ok (H : decoder_h) : Prop :=
  (ZEBRA_EAN13 ||| EAN_LEFT) &&& H.ZEBRA_SYMBOL = ZEBRA_EAN13 ∧
  (ZEBRA_EAN13 ||| EAN_RIGHT) &&& H.ZEBRA_SYMBOL = ZEBRA_EAN13 ∧
  (ZEBRA_EAN8 ||| EAN_LEFT) &&& H.ZEBRA_SYMBOL = ZEBRA_EAN8 ∧
  (ZEBRA_EAN8 ||| EAN_RIGHT) &&& H.ZEBRA_SYMBOL = ZEBRA_EAN8 ∧
  (ZEBRA_EAN13 ||| EAN_LEFT) &&& H.ZEBRA_ADDON = 0 ∧
  (ZEBRA_EAN13 ||| EAN_RIGHT) &&& H.ZEBRA_ADDON = 0 ∧
  (ZEBRA_EAN8 ||| EAN_LEFT) &&& H.ZEBRA_ADDON = 0 ∧
  (ZEBRA_EAN8 ||| EAN_RIGHT) &&& H.ZEBRA_ADDON = 0

instance (H : decoder_h) : Decidable (masks_ok H) := by
  unfold masks_ok
  exact inferInstance

/-- A pass with the given state and raw bytes. -/
def pass_of (state : Int) (raw : List Nat) : ean_pass_t :=
  { state := state, raw := fun i => raw.getD i 0 }

/-- An accumulator with the given labels and leading digits (the other entries
of `buf` are the sentinel `-1`), idle passes and `s4 = 0`. -/
def ean_of (left right addon : Nat) (buf : List Nat) : ean_decoder_t :=
  { pass := fun _ => pass_of (-1) []
    left := left
    right := right
    addon := addon
    s4 := 0
    buf := fun i => match buf.get? i with
      | some v => (v : Int)
      | none => -1 }

/-- A digit string as a function of the position. -/
def digit_string (l : List Nat) : Nat → Nat := fun i => l.getD i 0

/-- The digits of the EAN-13 symbol 4006381333931. -/
def sample_ean13 : List Nat := [4, 0, 0, 6, 3, 8, 1, 3, 3, 3, 9, 3, 1]

/-- The digits of the EAN-8 symbol 96385074. -/
def sample_ean8 : List Nat := [9, 6, 3, 8, 5, 0, 7, 4]

/-- Specification side: the standard UPC/EAN check digit of the `n` data digits
`d[0..n-1]`, weights 3, 1, 3, ... starting from the right-most data digit. -/
def standard_check_digit (d : Nat → Nat) (n : Nat) : Nat :=
  (10 - (∑ i in Finset.range n, (if (n - 1 - i) % 2 = 0 then 3 else 1) * d i) % 10) % 10

/-- The pass carries the left half of the digit string `d` of symbology `S`:
EAN-13 `raw[0..6] = d[0..6]`, EAN-8 `raw[1..4] = d[0..3]` (low nibbles; bit 4 of
a raw byte is its parity bit). -/
def is_left_half (S : Nat) (pass : ean_pass_t) (d : Nat → Nat) : Prop :=
  if S = ZEBRA_EAN13 then ∀ i < 7, pass.raw i &&& 0xf = d i
  else ∀ i < 4, pass.raw (i + 1) &&& 0xf = d i

/-- The pass carries the right half of the digit string `d` of symbology `S`:
EAN-13 `raw[1..6] = d[7..12]`, EAN-8 `raw[1..4] = d[4..7]` (low nibbles). -/
def is_right_half (S : Nat) (pass : ean_pass_t) (d : Nat → Nat) : Prop :=
  if S = ZEBRA_EAN13 then ∀ i < 6, pass.raw (i + 1) &&& 0xf = d (i + 7)
  else ∀ i < 4, pass.raw (i + 1) &&& 0xf = d (i + 4)

instance (S : Nat) (pass : ean_pass_t) (d : Nat → Nat) : Decidable (is_left_half S pass d) := by
  unfold is_left_half
  exact inferInstance

instance (S : Nat) (pass : ean_pass_t) (d : Nat → Nat) : Decidable (is_right_half S pass d) := by
  unfold is_right_half
  exact inferInstance

/-- A host decoder with the given edge index, recent widths (newest first),
colour, lock and accumulator; every byte of its output buffer is `0xff`. -/
def dcode_of (idx : Nat) (width : List Nat) (color : zebra_color_t) (lock : Bool)
    (ean : ean_decoder_t) : zebra_decoder_t :=
  { idx := idx
    width := fun k => width.getD k 0
    color := color
    lock := lock
    buf := fun _ => 0xff
    ean := ean }

/-- The first `n` bytes of the output buffer of a result. -/
def output_bytes (r : Except fault zebra_decoder_t) (n : Nat) : Option (List Nat) :=
  match r with
  | .ok d => some ((List.range n).map d.buf)
  | .error _ => none

/-- The left-half pass of the EAN-13 symbol 4006381333931: leading digit 4 in
`raw[0]`, digits 0 0 6 3 8 1 with the parity pattern ABAABB (A sets bit 4). -/
def sample_left13 : ean_pass_t := pass_of (-1) [4, 0x10, 0x00, 0x16, 0x13, 0x08, 0x01]

/-- The right-half pass of the EAN-13 symbol 4006381333931. -/
def sample_right13 : ean_pass_t := pass_of (-1) [0, 3, 3, 3, 9, 3, 1]

/-- The left-half pass of the EAN-8 symbol 96385074 (parity AAAA). -/
def sample_left8 : ean_pass_t := pass_of (-1) [0, 0x19, 0x16, 0x13, 0x18]

/-- The right-half pass of the EAN-8 symbol 96385074. -/
def sample_right8 : ean_pass_t := pass_of (-1) [0, 5, 0, 7, 4]

/-- A run of `integrate_partial` over a list of partials: the final accumulator
and the list of returned symbol types. -/
def integrate_sequence (H : decoder_h) :
    ean_decoder_t → List (ean_pass_t × Nat) → Except fault (ean_decoder_t × List Nat)
  | ean, [] => .ok (ean, [])
  | ean, (pass, part) :: rest =>
    match integrate_partial H ean pass part with
    | .error f => .error f
    | .ok (ean, sym) =>
      match integrate_sequence H ean rest with
      | .error f => .error f
      | .ok (ean, syms) => .ok (ean, sym :: syms)

/-- The symbol types returned along a run. -/
def returned_syms (r : Except fault (ean_decoder_t × List Nat)) : Option (List Nat) :=
  match r with
  | .ok (_, syms) => some syms
  | .error _ => none

/-- The right-half pass of 4006381333931 with its last digit read as 2. -/
def sample_right13_wrong : ean_pass_t := pass_of (-1) [0, 3, 3, 3, 9, 3, 2]

/-- The number of `buf` slots `buf[0..]` the left-half loop of `integrate_partial`
writes for symbology `S` (`j + 1` with `j = (part == ZEBRA_EAN13) ? 6 : 3`). -/
def left_slots (S : Nat) : Nat := if S = ZEBRA_EAN13 then 7 else 4

/-- The index of the raw byte the left-half loop stores into slot `k`. -/
def left_raw (S k : Nat) : Nat := if S = ZEBRA_EAN13 then k else k + 1

/-- The first `buf` slot the right-half loop of `integrate_partial` writes for
symbology `S`. -/
def right_first (S : Nat) : Nat := if S = ZEBRA_EAN13 then 7 else 4

/-- The number of `buf` slots the right-half loop writes for symbology `S`. -/
def right_slots (S : Nat) : Nat := if S = ZEBRA_EAN13 then 6 else 4

/-- The index of the raw byte the right-half loop stores into slot `k`. -/
def right_raw (S k : Nat) : Nat := k - right_first S + 1

/-- Label consistency: `left` and `right` are each `NONE`, `EAN8` or `EAN13`, and
are equal whenever both are not `NONE`. -/
def labels_consistent (ean : ean_decoder_t) : Prop :=
  (ean.left = ZEBRA_NONE ∨ ean.left = ZEBRA_EAN8 ∨ ean.left = ZEBRA_EAN13) ∧
  (ean.right = ZEBRA_NONE ∨ ean.right = ZEBRA_EAN8 ∨ ean.right = ZEBRA_EAN13) ∧
  (ean.left ≠ ZEBRA_NONE → ean.right ≠ ZEBRA_NONE → ean.left = ean.right)

instance (ean : ean_decoder_t) : Decidable (labels_consistent ean) := by
  unfold labels_consistent
  exact inferInstance

/-- The label of the half on the given side (`EAN_LEFT` or `EAN_RIGHT`). -/
def half_label (side : Nat) (ean : ean_decoder_t) : Nat :=
  if side = EAN_RIGHT then ean.right else ean.left

/-- The label of the half on the other side. -/
def other_label (side : Nat) (ean : ean_decoder_t) : Nat :=
  if side = EAN_RIGHT then ean.left else ean.right

/-- The first `buf` slot of the half of symbology `S` on the given side. -/
def half_first (side S : Nat) : Nat := if side = EAN_RIGHT then right_first S else 0

/-- The number of `buf` slots of the half of symbology `S` on the given side. -/
def half_slots (side S : Nat) : Nat :=
  if side = EAN_RIGHT then right_slots S else left_slots S

/-- The index of the raw byte `integrate_partial` stores into slot `k` of the
half of symbology `S` on the given side. -/
def half_raw (side S k : Nat) : Nat :=
  if side = EAN_RIGHT then right_raw S k else left_raw S k

/-- The low nibbles of `raw[1..6]` of a pass are digits. -/
def raw_ok (pass : ean_pass_t) : Prop := ∀ i, 1 ≤ i → i ≤ 6 → pass.raw i &&& 0xf ≤ 9

instance (pass : ean_pass_t) : Decidable (raw_ok pass) :=
  decidable_of_iff (∀ i < 6, pass.raw (i + 1) &&& 0xf ≤ 9)
    ⟨fun h i h1 h6 => by
      have := h (i - 1) (by omega)
      rwa [show i - 1 + 1 = i by omega] at this,
     fun h i hi => h (i + 1) (by omega) (by omega)⟩

/-- A partial tag is one of the four a pass can return besides `NONE`. -/
def is_half_tag (part : Nat) : Prop :=
  part = ZEBRA_EAN8 ||| EAN_LEFT ∨ part = ZEBRA_EAN8 ||| EAN_RIGHT ∨
  part = ZEBRA_EAN13 ||| EAN_LEFT ∨ part = ZEBRA_EAN13 ||| EAN_RIGHT

/-- The contract of the ratio decoder (section 4.1 of the specification): it
returns `-1` or one of `0..3`. -/
def decode_e_ok (H : decoder_h) : Prop :=
  ∀ e s n, H.decode_e e s n = -1 ∨ (0 ≤ H.decode_e e s n ∧ H.decode_e e s n ≤ 3)

/-- Seeding a pass state with the add-on marker leaves the index
`state & STATE_IDX` in the range of the character slots. -/
def state_consts_ok (H : decoder_h) : Prop := state_idx H (s8 (u8 H.STATE_ADDON)) ≤ 0x14

instance (H : decoder_h) : Decidable (state_consts_ok H) := by
  unfold state_consts_ok
  exact inferInstance

/-- What `decode_pass` guarantees of the pass and partial tag it returns from
the pass `p0`: raw digits stay digits, the tag is `NONE` or one of the four half
tags (with a valid leading digit in `raw[0]` for an EAN-13 left half), and a
returned tag leaves the pass state at `-1`. -/
def pass_post (p0 : ean_pass_t) (r : ean_pass_t × Nat) : Prop :=
  (raw_ok p0 → raw_ok r.1) ∧
  (r.2 = 0 ∨ (is_half_tag r.2 ∧ (r.2 = ZEBRA_EAN13 ||| EAN_LEFT → r.1.raw 0 &&& 0xf ≤ 9))) ∧
  (r.2 ≠ 0 → r.1.state = -1)

/-- A `buf` entry is the sentinel `-1` or a digit. -/
def digit_or_unset (x : Int) : Prop := x = -1 ∨ (0 ≤ x ∧ x ≤ 9)

/-- Every entry of `buf[0..17]` is `-1` or a digit `0..9`. -/
def buf_inv (ean : ean_decoder_t) : Prop := ∀ i < 18, digit_or_unset (ean.buf i)

/-- Every `raw[1..6]` byte of every pass has a low nibble of at most 9. -/
def raw_inv (ean : ean_decoder_t) : Prop := ∀ p < 4, raw_ok (ean.pass p)

/-- A label other than `NONE` on a half implies that the `buf` slots of that half
(as `integrate_partial` lays them out for the label) all hold digits. -/
def half_inv (ean : ean_decoder_t) : Prop :=
  (ean.left ≠ ZEBRA_NONE → ∀ k < left_slots ean.left, 0 ≤ ean.buf k ∧ ean.buf k ≤ 9) ∧
  (ean.right ≠ ZEBRA_NONE → ∀ k, right_first ean.right ≤ k →
    k < right_first ean.right + right_slots ean.right → 0 ≤ ean.buf k ∧ ean.buf k ≤ 9)

instance (x : Int) : Decidable (digit_or_unset x) := by
  unfold digit_or_unset
  exact inferInstance

instance (ean : ean_decoder_t) : Decidable (buf_inv ean) := by
  unfold buf_inv
  exact inferInstance

instance (ean : ean_decoder_t) : Decidable (raw_inv ean) := by
  unfold raw_inv
  exact inferInstance

instance (ean : ean_decoder_t) : Decidable (half_inv ean) :=
  decidable_of_iff
    ((ean.left ≠ ZEBRA_NONE → ∀ k < left_slots ean.left, 0 ≤ ean.buf k ∧ ean.buf k ≤ 9) ∧
      (ean.right ≠ ZEBRA_NONE → ∀ k < right_slots ean.right,
        0 ≤ ean.buf (right_first ean.right + k) ∧ ean.buf (right_first ean.right + k) ≤ 9))
    ⟨fun h => ⟨h.1, fun hne k h1 h2 => by
      have := h.2 hne (k - right_first ean.right) (by omega)
      rwa [show right_first ean.right + (k - right_first ean.right) = k by omega] at this⟩,
     fun h => ⟨h.1, fun hne k hk => h.2 hne _ (by omega) (by omega)⟩⟩

/-- The three facts of the digit-buffer invariant. -/
def decoder_inv (dcode : zebra_decoder_t) : Prop :=
  buf_inv dcode.ean ∧ raw_inv dcode.ean ∧ half_inv dcode.ean

instance (dcode : zebra_decoder_t) : Decidable (decoder_inv dcode) := by
  unfold decoder_inv
  exact inferInstance

/-- The decoder after `decode_pass` has updated pass `i` in place. -/
def with_pass (dcode : zebra_decoder_t) (i : Nat) (pass : ean_pass_t) : zebra_decoder_t :=
  { dcode with ean := { dcode.ean with pass := store dcode.ean.pass i pass } }

/-- The decoder with its accumulator replaced. -/
def with_ean (dcode : zebra_decoder_t) (ean : ean_decoder_t) : zebra_decoder_t :=
  { dcode with ean := ean }

/-- Modelled from the spec: the host pushes the newest width onto the window
before each call (sections 3 and 6): every width moves one place back, the edge
index advances and the colour alternates. -/
def push_edge (dcode : zebra_decoder_t) (w : Nat) : zebra_decoder_t :=
  { dcode with
    idx := dcode.idx + 1
    width := fun k => if k = 0 then w else dcode.width (k - 1)
    color := match dcode.color with
      | zebra_color_t.ZEBRA_SPACE => zebra_color_t.ZEBRA_BAR
      | zebra_color_t.ZEBRA_BAR => zebra_color_t.ZEBRA_SPACE }

/-- A run of `zebra_decode_ean` over a list of edges (widths in order of
arrival), the host pushing each width before the call. -/
def run_edges (H : decoder_h) : zebra_decoder_t → List Nat → Except fault zebra_decoder_t
  | dcode, [] => .ok dcode
  | dcode, w :: ws =>
    match zebra_decode_ean H (push_edge dcode w) with
    | .error f => .error f
    | .ok (dcode, _) => run_edges H dcode ws

/-- The sum of the four most recent widths, as an `unsigned`. -/
def window_sum (dcode : zebra_decoder_t) : Nat :=
  w32 (get_width dcode 0 + get_width dcode 1 + get_width dcode 2 + get_width dcode 3)

/-- The symbol type `integrate_partial` returns for pass `i` during
`zebra_decode_ean`, when pass `i` is stepped on this edge and delivers a partial
(`none` otherwise). -/
def pass_outcome (H : decoder_h) (dcode : zebra_decoder_t) (i : Nat) : Option Nat :=
  match zebra_decode_ean_upto H dcode i with
  | .error _ => none
  | .ok (d, _) =>
    if (d.ean.pass i).state ≥ 0 ∨ i = (dcode.idx &&& 3) % 256 then
      match decode_pass H d (d.ean.pass i) with
      | .error _ => none
      | .ok (p, part) =>
        if part ≠ 0 then
          match integrate_partial H (with_pass d i p).ean p part with
          | .error _ => none
          | .ok (_, sym1) => some sym1
        else none
    else none

/-- The returned symbol type and the four pass states of a result. -/
def sym_and_states (r : Except fault (zebra_decoder_t × Nat)) : Option (Nat × List Int) :=
  match r with
  | .ok (d, sym) => some (sym, (List.range 4).map (fun q => (d.ean.pass q).state))
  | .error _ => none

/-- A decoder state on a bar edge with edge index 3: pass 0 is at state `0x16`
(one step before the end guard of a reversed EAN-13 half) and holds the six
B-parity digits 3 3 3 9 3 1, the other passes are idle, the accumulator has the
given left label and leading digits; the window holds, newest first, the guard
widths 4 4 4, the character 16 4 4 4 and a width 8, and `s4` is the sum of
`width(1)..width(4)`. -/
def interleaved_dcode (lock : Bool) (left : Nat) (buf : List Nat) : zebra_decoder_t :=
  { idx := 3
    width := fun k => [4, 4, 4, 16, 4, 4, 4, 8].getD k 0
    color := zebra_color_t.ZEBRA_BAR
    lock := lock
    buf := fun _ => 0xff
    ean :=
      { pass := fun q => if q = 0 then pass_of 0x16 [0, 3, 3, 3, 9, 3, 1] else pass_of (-1) []
        left := left
        right := ZEBRA_NONE
        addon := ZEBRA_NONE
        s4 := 28
        buf := (ean_of 0 0 0 buf).buf } }

/-- The parity bit (bit 4) of a raw byte: `1` for set A, `0` for set B. -/
def parity_bit (x : Nat) : Nat := (x &&& 0x10) >>> 4

/-- Specification side: the parity vector spelled by bit 4 of the `n` bytes
`raw[first], raw[first + 1], ...`, the first byte in the top bit. -/
def parity_vector (raw : Nat → Nat) (first : Nat) : Nat → Nat
  | 0 => 0
  | n + 1 => 2 * parity_vector raw first n + parity_bit (raw (first + n))

/-- Specification side: the standard left-half parity pattern of the leading
digit of an EAN-13 symbol (`A = 1`, `B = 0`, first character in the top bit):
0 AAAAAA, 1 AABABB, 2 AABBAB, 3 AABBBA, 4 ABAABB, 5 ABBAAB, 6 ABBBAA, 7 ABABAB,
8 ABABBA, 9 ABBABA. -/
def left_parity_pattern (d : Nat) : Nat :=
  [0b111111, 0b110100, 0b110010, 0b110001, 0b101100,
   0b100110, 0b100011, 0b101010, 0b101001, 0b100101].getD d 0

/-- The nibble `ean_part_end7` looks up in `parity_decode` for the parity index
`par` and stores in `raw[0]`. -/
def parity_nibble (par : Nat) : Nat :=
  (if par &&& 1 ≠ 0 then parity_decode.getD (par >>> 1) 0 >>> 4
    else parity_decode.getD (par >>> 1) 0) &&& 0xf

/-- The bytes `raw[1..n]` in reverse order, the other bytes in place. -/
def reverse_raw (n : Nat) (raw : Nat → Nat) : Nat → Nat :=
  fun i => if 1 ≤ i ∧ i ≤ n then raw (n + 1 - i) else raw i

/-- Equality of results is decidable when equality of the returned values is. -/
instance {α : Type} [DecidableEq α] : DecidableEq (Except fault α)
  | .ok a, .ok b =>
    if h : a = b then isTrue (by rw [h]) else isFalse (fun e => h (Except.ok.inj e))
  | .error a, .error b =>
    if h : a = b then isTrue (by rw [h]) else isFalse (fun e => h (Except.error.inj e))
  | .ok _, .error _ => isFalse (fun e => Except.noConfusion e)
  | .error _, .ok _ => isFalse (fun e => Except.noConfusion e)

/-- The first edge pair `e1` of `decode4`. -/
def decode4_e1 (dcode : zebra_decoder_t) : Nat :=
  if get_color dcode = zebra_color_t.ZEBRA_BAR then w32 (get_width dcode 0 + get_width dcode 1)
  else w32 (get_width dcode 2 + get_width dcode 3)

/-- The second edge pair `e2` of `decode4`. -/
def decode4_e2 (dcode : zebra_decoder_t) : Nat := w32 (get_width dcode 1 + get_width dcode 2)

/-- The determinant `d2` of `decode4` after `d2 *= 7`: seven times the sum of the
two bar widths of the character, as an `unsigned`. -/
def decode4_d2 (dcode : zebra_decoder_t) : Nat :=
  w32 ((if get_color dcode = zebra_color_t.ZEBRA_BAR
    then w32 (get_width dcode 0 + get_width dcode 2)
    else w32 (get_width dcode 1 + get_width dcode 3)) * 7)

/-- The disambiguation step of `decode4` on the preliminary code `c`, with `d2`
already multiplied by 7: the codes 5, 6, 9, 10 (`(1 << c) & 0x0660`) are replaced
by `((c >> 1) & 3) | 0x10` when `d2 > mid * s4`, where `mid` is 3 for the codes
5 and 10 (`(1 << c) & 0x0420`) and 4 for 6 and 9. -/
def decode4_resolve (c d2 s4 : Nat) : Nat :=
  if (1 <<< c) &&& 0x0660 ≠ 0 then
    if d2 > w32 ((if (1 <<< c) &&& 0x0420 ≠ 0 then 3 else 4) * s4) then
      ((c >>> 1) &&& 3) ||| 0x10
    else c
  else c

/-- The contract of the ratio decoder under which `decode4` recognises an invalid
edge pair: it returns a value in `0..3`, or a negative value that stays negative
when it is packed into the `signed char` code in either position of
`(E1 << 2) | E2`, that is, whose bits 5 and 7 are set as a two's-complement
pattern.  Every value in `-32..-1` is such a value, in particular `-1`. -/
def decode_e_signed_ok (H : decoder_h) : Prop :=
  ∀ e s n, (0 ≤ H.decode_e e s n ∧ H.decode_e e s n ≤ 3) ∨
    (H.decode_e e s n < 0 ∧ 32 ≤ H.decode_e e s n % 64 ∧ 128 ≤ H.decode_e e s n % 256)

/-- A header whose ratio decoder reports the edge pair `e = 2` by the value `v`
and every other edge pair as 2 modules wide (`0`). -/
def marked_h (v : Int) : decoder_h :=
  { model_h with decode_e := fun e _ _ => if e = 2 then v else 0 }

/-- A decoder on a bar edge whose window holds, newest first, the widths
1 1 2 3 (the set-A character 0 of unit module width), the guard 1 1 1 and a run
of width 2, with `s4 = 7` and idle passes. -/
def guard_dcode (color : zebra_color_t) : zebra_decoder_t :=
  dcode_of 0 [1, 1, 2, 3, 1, 1, 1, 2] color false { ean_of 0 0 0 [] with s4 := 7 }

/-- A decoder on a space edge with `s4 = 4` whose window holds four widths 1
preceded by four widths 9, which is no guard. -/
def no_guard_dcode : zebra_decoder_t :=
  dcode_of 0 [1, 1, 1, 1, 9, 9, 9, 9] zebra_color_t.ZEBRA_SPACE false
    { ean_of 0 0 0 [] with s4 := 4 }

/-- The results of the successive calls of `zebra_decode_ean` along a run over a
list of edges (widths in order of arrival, the host pushing each width before
the call): the decoder after each call and the symbol type it returned.  A
fault ends the run. -/
def run_edges_syms (H : decoder_h) : zebra_decoder_t → List Nat → List (zebra_decoder_t × Nat)
  | _, [] => []
  | dcode, w :: ws =>
    match zebra_decode_ean H (push_edge dcode w) with
    | .error _ => []
    | .ok (d, sym) => (d, sym) :: run_edges_syms H d ws

/-- For each call of a run, the returned symbol type and the first `n` bytes of
the output buffer after the call. -/
def call_outputs (H : decoder_h) (dcode : zebra_decoder_t) (ws : List Nat) (n : Nat) :
    List (Nat × List Nat) :=
  (run_edges_syms H dcode ws).map (fun r => (r.2, (List.range n).map r.1.buf))

/-- For each call of a run, the four pass states after the call. -/
def call_states (H : decoder_h) (dcode : zebra_decoder_t) (ws : List Nat) : List (List Int) :=
  (run_edges_syms H dcode ws).map (fun r => (List.range 4).map (fun q => (r.1.ean.pass q).state))

/-- The initial decoder state: all passes at `-1`, `left = right = addon = NONE`,
every `buf` entry unset, `s4 = 0`, an empty window, the lock clear; the colour
is such that the first run pushed is a space. -/
def initial_dcode : zebra_decoder_t :=
  dcode_of 0 [] zebra_color_t.ZEBRA_BAR false (ean_of 0 0 0 [])

/-- The runs of the EAN-13 symbol 4006381333931 scanned left to right with unit
module width: a quiet zone of 9 modules, the start guard, the six left
characters 0 0 6 3 8 1 in the sets A B A A B B, the centre guard, the six right
characters 3 3 3 9 3 1, and the end guard. -/
def ean13_edges : List Nat :=
  [9, 1, 1, 1,
   3, 2, 1, 1, 1, 1, 2, 3, 1, 1, 1, 4, 1, 4, 1, 1, 3, 1, 2, 1, 1, 2, 2, 2,
   1, 1, 1, 1, 1,
   1, 4, 1, 1, 1, 4, 1, 1, 1, 4, 1, 1, 3, 1, 1, 2, 1, 4, 1, 1, 2, 2, 2, 1,
   1, 1, 1]

/-- The runs of the 2-digit add-on "12" that follows the symbol: a gap of 9
modules, the add-on guard 1 1 2, the digit 1 in set A, the delineator 1 1, the
digit 2 in set A, and a quiet zone of 9 modules. -/
def addon_edges : List Nat := [9, 1, 1, 2, 2, 2, 2, 1, 1, 1, 2, 1, 2, 2, 9]

/-- A returned symbol type without add-on flag: `NONE`, `PARTIAL`, `EAN8` or
`EAN13`. -/
def plain_sym (sym : Nat) : Prop :=
  sym = ZEBRA_NONE ∨ sym = ZEBRA_PARTIAL ∨ sym = ZEBRA_EAN8 ∨ sym = ZEBRA_EAN13

/-- The labels are consistent and no add-on is recorded. -/
def no_addon (ean : ean_decoder_t) : Prop := labels_consistent ean ∧ ean.addon = ZEBRA_NONE

instance (sym : Nat) : Decidable (plain_sym sym) := by
  unfold plain_sym
  exact inferInstance

instance (ean : ean_decoder_t) : Decidable (no_addon ean) := by
  unfold no_addon
  exact inferInstance
/-- The ratio decoder is exact on ideal widths: an edge pair of exactly `m`
modules of a 7-module character (`7 * e = m * s`, `m` in `2..5`) is classified
as `m - 2`. -/
def ideal_decode_e (H : decoder_h) : Prop :=
  ∀ e s m : Nat, 2 ≤ m → m ≤ 5 → 0 < s → 7 * e = m * s → H.decode_e e s 7 = (m : Int) - 2

/-- Specification side: the canonical set-A module widths of the digit `d`,
oldest run first: 0:3211 1:2221 2:2122 3:1411 4:1132 5:1231 6:1114 7:1312 8:1213
9:3112. -/
def set_a_widths (d : Nat) : List Nat :=
  [[3, 2, 1, 1], [2, 2, 2, 1], [2, 1, 2, 2], [1, 4, 1, 1], [1, 1, 3, 2],
   [1, 2, 3, 1], [1, 1, 1, 4], [1, 3, 1, 2], [1, 2, 1, 3], [3, 1, 1, 2]].getD d []

/-- A decoder on an edge of the given colour whose window holds, oldest first
(`width(3)`, `width(2)`, `width(1)`, `width(0)`), `u` times the four module
widths `m`, with `s4 = 7 * u`. -/
def char_dcode (color : zebra_color_t) (u : Nat) (m : List Nat) : zebra_decoder_t :=
  dcode_of 0 ((m.map (fun a => u * a)).reverse) color false { ean_of 0 0 0 [] with s4 := 7 * u }
/-- The code `decode4` returns on ideal widths: the preliminary code of the
widths `a0`, `a1`, `a2` (newest first, in modules), replaced by its alternate
when the two bar widths `a0 + a2` exceed `mid` modules. -/
def ideal_code (a0 a1 a2 : Nat) : Nat :=
  if 4 * (a0 + a1 - 2) + (a1 + a2 - 2) = 5 ∧ a0 + a2 > 3 then 0x12
  else if 4 * (a0 + a1 - 2) + (a1 + a2 - 2) = 10 ∧ a0 + a2 > 3 then 0x11
  else if 4 * (a0 + a1 - 2) + (a1 + a2 - 2) = 6 ∧ a0 + a2 > 4 then 0x13
  else if 4 * (a0 + a1 - 2) + (a1 + a2 - 2) = 9 ∧ a0 + a2 > 4 then 0x10
  else 4 * (a0 + a1 - 2) + (a1 + a2 - 2)

/-- Four module widths (oldest first) form a character: each is at least one
module, they add up to seven, and both edge pairs `decode4` measures are at most
five modules. -/
def is_character (m : List Nat) : Prop :=
  1 ≤ m.getD 0 0 ∧ 1 ≤ m.getD 1 0 ∧ 1 ≤ m.getD 2 0 ∧ 1 ≤ m.getD 3 0 ∧
  m.getD 0 0 + m.getD 1 0 + m.getD 2 0 + m.getD 3 0 = 7 ∧
  m.getD 3 0 + m.getD 2 0 ≤ 5 ∧ m.getD 2 0 + m.getD 1 0 ≤ 5

instance (m : List Nat) : Decidable (is_character m) := by
  unfold is_character
  exact inferInstance

/-! ## Theorems -/

theorem u8_of_digit (x : Int) (h0 : 0 ≤ x) (h9 : x ≤ 9) : ((u8 x : Nat) : Int) = x ∧ u8 x < 10 := by
  unfold u8
  omega

theorem store_apply {α : Type} (a : Nat → α) (j : Nat) (v : α) (k : Nat) :
    store a j v k = if k = j then v else a k := rfl

theorem integrate_left_loop_eq (pass : ean_pass_t) :
    ∀ (n i : Nat) (ean : ean_decoder_t), n ≤ i + 1 →
      integrate_left_loop pass n i ean =
        { (if ean.left ≠ 0 ∧ ∃ k < n, ean.buf k ≠ ((pass.raw (i + k + 1 - n) &&& 0xf : Nat) : Int)
            then reset_parts ean else ean) with
          buf := fun k =>
            if k < n then ((pass.raw (i + k + 1 - n) &&& 0xf : Nat) : Int) else ean.buf k } := by
  intro n
  induction n with
  | zero =>
    intro i ean _
    simp [integrate_left_loop]
  | succ j ih =>
    intro i ean hi
    rw [integrate_left_loop]
    simp only []
    have hidx : ∀ k, k < j → i - 1 + k + 1 - j = i + k + 1 - (j + 1) := by
      intro k hk
      omega
    have hij : i + j + 1 - (j + 1) = i := by omega
    have hbuf : (fun k => if k < j then ((pass.raw (i - 1 + k + 1 - j) &&& 0xf : Nat) : Int)
          else store ean.buf j ((pass.raw i &&& 0xf : Nat) : Int) k)
        = fun k => if k < j + 1 then ((pass.raw (i + k + 1 - (j + 1)) &&& 0xf : Nat) : Int)
          else ean.buf k := by
      funext k
      rw [store_apply]
      by_cases h1 : k < j
      · rw [if_pos h1, if_pos (by omega), hidx k h1]
      · by_cases h2 : k = j
        · subst h2
          rw [if_neg h1, if_pos rfl, if_pos (by omega), hij]
        · rw [if_neg h1, if_neg h2, if_neg (by omega)]
    by_cases hc : ean.left ≠ 0 ∧ ean.buf j ≠ ((pass.raw i &&& 0xf : Nat) : Int)
    · rw [if_pos hc, ih _ _ (by omega)]
      have hex : ean.left ≠ 0 ∧
          ∃ k < j + 1, ean.buf k ≠ ((pass.raw (i + k + 1 - (j + 1)) &&& 0xf : Nat) : Int) := by
        refine ⟨hc.1, j, by omega, ?_⟩
        rw [hij]
        exact hc.2
      rw [if_pos hex]
      have hz : ¬ ((reset_parts ean).left ≠ 0 ∧ ∃ k < j,
          store (reset_parts ean).buf j ((pass.raw i &&& 0xf : Nat) : Int) k
            ≠ ((pass.raw (i - 1 + k + 1 - j) &&& 0xf : Nat) : Int)) := by
        rintro ⟨h, _⟩
        exact h rfl
      simp only []
      rw [if_neg hz]
      rw [← hbuf]
      rfl
    · rw [if_neg hc, ih _ _ (by omega)]
      simp only []
      have hcond : (ean.left ≠ 0 ∧ ∃ k < j, store ean.buf j ((pass.raw i &&& 0xf : Nat) : Int) k
              ≠ ((pass.raw (i - 1 + k + 1 - j) &&& 0xf : Nat) : Int))
            ↔ (ean.left ≠ 0 ∧
              ∃ k < j + 1, ean.buf k ≠ ((pass.raw (i + k + 1 - (j + 1)) &&& 0xf : Nat) : Int)) := by
        constructor
        · rintro ⟨hl, k, hk, hne⟩
          refine ⟨hl, k, by omega, ?_⟩
          rw [store_apply, if_neg (by omega), hidx k hk] at hne
          exact hne
        · rintro ⟨hl, k, hk, hne⟩
          have hkj : k ≠ j := by
            rintro rfl
            apply hc
            refine ⟨hl, ?_⟩
            rw [hij] at hne
            exact hne
          refine ⟨hl, k, by omega, ?_⟩
          rw [store_apply, if_neg hkj, hidx k (by omega)]
          exact hne
      by_cases hm : ean.left ≠ 0 ∧
              ∃ k < j + 1, ean.buf k ≠ ((pass.raw (i + k + 1 - (j + 1)) &&& 0xf : Nat) : Int)
      · rw [if_pos (hcond.mpr hm), if_pos hm]
        rw [← hbuf]
        rfl
      · rw [if_neg (fun h => hm (hcond.mp h)), if_neg hm]
        rw [← hbuf]

theorem integrate_right_loop_eq (pass : ean_pass_t) :
    ∀ (i j : Nat) (ean : ean_decoder_t), i ≤ j →
      integrate_right_loop pass i j ean =
        { (if ean.right ≠ 0 ∧
              ∃ k < j + 1, j - i < k ∧ ean.buf k ≠ ((pass.raw (k + i - j) &&& 0xf : Nat) : Int)
            then reset_parts ean else ean) with
          buf := fun k =>
            if j - i < k ∧ k ≤ j then ((pass.raw (k + i - j) &&& 0xf : Nat) : Int)
            else ean.buf k } := by
  intro i
  induction i with
  | zero =>
    intro j ean _
    have hne : ¬ (ean.right ≠ 0 ∧
        ∃ k < j + 1, j - 0 < k ∧ ean.buf k ≠ ((pass.raw (k + 0 - j) &&& 0xf : Nat) : Int)) := by
      rintro ⟨_, k, hk, hk2, _⟩
      omega
    rw [integrate_right_loop, if_neg hne]
    have hb : (fun k => if j - 0 < k ∧ k ≤ j then ((pass.raw (k + 0 - j) &&& 0xf : Nat) : Int)
        else ean.buf k) = ean.buf := by
      funext k
      rw [if_neg (by omega)]
    rw [hb]
  | succ i ih =>
    intro j ean hij
    rw [integrate_right_loop]
    simp only []
    have hidx : ∀ k, k < j → k + i - (j - 1) = k + (i + 1) - j := by
      intro k hk
      omega
    have hjj : j + (i + 1) - j = i + 1 := by omega
    have hbuf : (fun k => if j - 1 - i < k ∧ k ≤ j - 1
          then ((pass.raw (k + i - (j - 1)) &&& 0xf : Nat) : Int)
          else store ean.buf j ((pass.raw (i + 1) &&& 0xf : Nat) : Int) k)
        = fun k => if j - (i + 1) < k ∧ k ≤ j
          then ((pass.raw (k + (i + 1) - j) &&& 0xf : Nat) : Int) else ean.buf k := by
      funext k
      rw [store_apply]
      by_cases h1 : j - 1 - i < k ∧ k ≤ j - 1
      · rw [if_pos h1, if_pos (by omega), hidx k (by omega)]
      · by_cases h2 : k = j
        · subst h2
          rw [if_neg h1, if_pos rfl, if_pos (by omega), hjj]
        · rw [if_neg h1, if_neg h2, if_neg (by omega)]
    by_cases hc : ean.right ≠ 0 ∧ ean.buf j ≠ ((pass.raw (i + 1) &&& 0xf : Nat) : Int)
    · rw [if_pos hc, ih _ _ (by omega)]
      have hex : ean.right ≠ 0 ∧ ∃ k < j + 1, j - (i + 1) < k ∧
          ean.buf k ≠ ((pass.raw (k + (i + 1) - j) &&& 0xf : Nat) : Int) := by
        refine ⟨hc.1, j, by omega, by omega, ?_⟩
        rw [hjj]
        exact hc.2
      rw [if_pos hex]
      have hz : ¬ ((reset_parts ean).right ≠ 0 ∧ ∃ k < j - 1 + 1, j - 1 - i < k ∧
          store (reset_parts ean).buf j ((pass.raw (i + 1) &&& 0xf : Nat) : Int) k
            ≠ ((pass.raw (k + i - (j - 1)) &&& 0xf : Nat) : Int)) := by
        rintro ⟨h, _⟩
        exact h rfl
      simp only []
      rw [if_neg hz]
      rw [← hbuf]
      rfl
    · rw [if_neg hc, ih _ _ (by omega)]
      simp only []
      have hcond : (ean.right ≠ 0 ∧ ∃ k < j - 1 + 1, j - 1 - i < k ∧
              store ean.buf j ((pass.raw (i + 1) &&& 0xf : Nat) : Int) k
                ≠ ((pass.raw (k + i - (j - 1)) &&& 0xf : Nat) : Int))
            ↔ (ean.right ≠ 0 ∧ ∃ k < j + 1, j - (i + 1) < k ∧
              ean.buf k ≠ ((pass.raw (k + (i + 1) - j) &&& 0xf : Nat) : Int)) := by
        constructor
        · rintro ⟨hl, k, hk, hk2, hne⟩
          refine ⟨hl, k, by omega, by omega, ?_⟩
          rw [store_apply, if_neg (by omega), hidx k (by omega)] at hne
          exact hne
        · rintro ⟨hl, k, hk, hk2, hne⟩
          have hkj : k ≠ j := by
            rintro rfl
            apply hc
            refine ⟨hl, ?_⟩
            rw [hjj] at hne
            exact hne
          refine ⟨hl, k, by omega, by omega, ?_⟩
          rw [store_apply, if_neg hkj, hidx k (by omega)]
          exact hne
      by_cases hm : ean.right ≠ 0 ∧ ∃ k < j + 1, j - (i + 1) < k ∧
              ean.buf k ≠ ((pass.raw (k + (i + 1) - j) &&& 0xf : Nat) : Int)
      · rw [if_pos (hcond.mpr hm), if_pos hm]
        rw [← hbuf]
        rfl
      · rw [if_neg (fun h => hm (hcond.mp h)), if_neg hm]
        rw [← hbuf]

theorem ean_check_parity_loop_spec (ean : ean_decoder_t) (n : Nat) :
    ∀ (k i chk : Nat), i + k = n → chk < 10 →
      (∀ j < n, 0 ≤ ean.buf j ∧ ean.buf j ≤ 9) →
      ((chk : Nat) : Int) = (∑ j in Finset.range i, spec_weight j n * ean.buf j) % 10 →
      ean_check_parity_loop ean n k i chk
        = .ok ((spec_weighted_sum ean.buf n % 10).toNat) := by
  intro k
  induction k with
  | zero =>
    intro i chk hik hchk _ hinv
    have : i = n := by omega
    subst this
    simp only [ean_check_parity_loop, spec_weighted_sum]
    rw [← hinv]
    simp
  | succ k ih =>
    intro i chk hik hchk hd hinv
    have hi : i < n := by omega
    obtain ⟨hd0, hd9⟩ := hd i hi
    obtain ⟨hdc, hdlt⟩ := u8_of_digit (ean.buf i) hd0 hd9
    simp only [ean_check_parity_loop, hdlt, if_true, Nat.and_one_is_mod, Nat.shiftLeft_eq,
      pow_one]
    have hsum := Finset.sum_range_succ (fun j => spec_weight j n * ean.buf j) i
    simp only [] at hsum
    generalize (∑ j in Finset.range i, spec_weight j n * ean.buf j) = S at hinv hsum
    have hw : spec_weight i n = if (i ^^^ n) % 2 = 1 then 3 else 1 := rfl
    generalize u8 (ean.buf i) = d at hdc hdlt
    have h1 : (chk + d) % 256 = chk + d := by omega
    have h2 : (chk + d + d * 2) % 256 = chk + d + d * 2 := by omega
    rw [h1, h2]
    by_cases hodd : (i ^^^ n) % 2 = 1
    · rw [if_pos hodd] at hw
      rw [hw] at hsum
      have hne : (i ^^^ n) % 2 ≠ 0 := by omega
      rw [if_pos hne]
      apply ih (i + 1) _ (by omega) _ hd
      · rw [hsum]
        split_ifs <;> omega
      · split_ifs <;> omega
    · rw [if_neg hodd] at hw
      rw [hw] at hsum
      have hne : ¬ (i ^^^ n) % 2 ≠ 0 := by omega
      rw [if_neg hne]
      apply ih (i + 1) _ (by omega) _ hd
      · rw [hsum]
        split_ifs <;> omega
      · split_ifs <;> omega

/-- The checksum on an accumulator whose entries `buf[0..n]` are digits: the
loop returns the exact weighted sum modulo 10, and the function returns `0` when
`buf[n]` is the check digit and `-1` otherwise. -/
theorem ean_check_parity_digits (ean : ean_decoder_t) (n : Nat)
    (hd : ∀ i ≤ n, 0 ≤ ean.buf i ∧ ean.buf i ≤ 9) :
    ean_check_parity_loop ean n n 0 0 = .ok ((spec_weighted_sum ean.buf n % 10).toNat) ∧
    ean_check_parity ean n
      = .ok (if ean.buf n = spec_check_digit ean.buf n then 0 else -1) := by
  have hloop := ean_check_parity_loop_spec ean n n 0 0 (by omega) (by omega)
    (fun j hj => hd j (by omega)) (by simp)
  refine ⟨hloop, ?_⟩
  obtain ⟨hd0, hd9⟩ := hd n (le_refl n)
  obtain ⟨hdc, hdlt⟩ := u8_of_digit (ean.buf n) hd0 hd9
  unfold ean_check_parity spec_check_digit
  rw [hloop]
  simp only []
  generalize spec_weighted_sum ean.buf n = S
  generalize u8 (ean.buf n) = d at hdc hdlt
  rw [← hdc]
  have hS : (S % 10).toNat < 10 := by omega
  rw [if_pos hS, if_pos hdlt]
  split_ifs <;> first | rfl | omega

/-- C1: for every `n ≤ 17` and every accumulator whose entries `buf[0..n]` are
digits `0..9`, `ean_check_parity(ean, n)` returns `0` exactly when `buf[n]` is
`(10 - (Σ_{i<n} w_i * buf[i]) mod 10) mod 10` with `w_i = 3` if `i xor n` is odd
and `1` otherwise, and `-1` in every other case; the value the in-loop
reductions leave in the 8-bit accumulator is the exact weighted sum modulo 10. -/
theorem C1_ean_check_parity (ean : ean_decoder_t) (n : Nat) (_hn : n ≤ 17)
    (hd : ∀ i ≤ n, 0 ≤ ean.buf i ∧ ean.buf i ≤ 9) :
    ean_check_parity_loop ean n n 0 0 = .ok ((spec_weighted_sum ean.buf n % 10).toNat) ∧
    (ean_check_parity ean n = .ok 0 ↔ ean.buf n = spec_check_digit ean.buf n) ∧
    (ean_check_parity ean n = .ok (-1) ↔ ean.buf n ≠ spec_check_digit ean.buf n) := by
  obtain ⟨h1, h2⟩ := ean_check_parity_digits ean n hd
  refine ⟨h1, ?_, ?_⟩ <;> rw [h2] <;> split_ifs with h <;> simp [h]

/-- Witness of C1 on the accumulator holding 4006381333931 with `n = 12`. -/
theorem C1_ean_check_parity_witness :
    (12 ≤ 17 ∧ ∀ i ≤ 12, 0 ≤ (ean_of 13 13 0 sample_ean13).buf i ∧
        (ean_of 13 13 0 sample_ean13).buf i ≤ 9) ∧
    (ean_check_parity_loop (ean_of 13 13 0 sample_ean13) 12 12 0 0
        = .ok ((spec_weighted_sum (ean_of 13 13 0 sample_ean13).buf 12 % 10).toNat) ∧
      (ean_check_parity (ean_of 13 13 0 sample_ean13) 12 = .ok 0 ↔
        (ean_of 13 13 0 sample_ean13).buf 12
          = spec_check_digit (ean_of 13 13 0 sample_ean13).buf 12) ∧
      (ean_check_parity (ean_of 13 13 0 sample_ean13) 12 = .ok (-1) ↔
        (ean_of 13 13 0 sample_ean13).buf 12
          ≠ spec_check_digit (ean_of 13 13 0 sample_ean13).buf 12)) :=
  ⟨⟨by decide, by decide⟩,
   C1_ean_check_parity (ean_of 13 13 0 sample_ean13) 12 (by decide) (by decide)⟩

theorem integrate_finish_partial (ean : ean_decoder_t) (h : ean.left &&& ean.right = 0) :
    integrate_finish ean = .ok ZEBRA_PARTIAL := by
  unfold integrate_finish
  simp [h, ZEBRA_PARTIAL, ZEBRA_EAN13, ZEBRA_EAN8, ZEBRA_NONE]

theorem integrate_finish_complete (ean : ean_decoder_t) (S : Nat)
    (hS : S = ZEBRA_EAN13 ∨ S = ZEBRA_EAN8) (hl : ean.left = S) (hr : ean.right = S)
    (hd : ∀ i < S, 0 ≤ ean.buf i ∧ ean.buf i ≤ 9) :
    integrate_finish ean
      = .ok (if ean.buf (S - 1) = spec_check_digit ean.buf (S - 1) then S ||| ean.addon
             else ZEBRA_NONE) := by
  unfold integrate_finish
  rw [hl, hr, Nat.and_self]
  rcases hS with rfl | rfl
  · have hp := (ean_check_parity_digits ean 12 (fun i hi => hd i (by unfold ZEBRA_EAN13; omega))).2
    simp only [ZEBRA_EAN13, ZEBRA_EAN8, ZEBRA_PARTIAL, ZEBRA_NONE] at *
    rw [hp]
    by_cases hc : ean.buf 12 = spec_check_digit ean.buf 12
    · simp [hc]
    · simp [hc]
  · have hp := (ean_check_parity_digits ean 7 (fun i hi => hd i (by unfold ZEBRA_EAN8; omega))).2
    simp only [ZEBRA_EAN13, ZEBRA_EAN8, ZEBRA_PARTIAL, ZEBRA_NONE] at *
    rw [hp]
    by_cases hc : ean.buf 7 = spec_check_digit ean.buf 7
    · simp [hc]
    · simp [hc]

theorem integrate_store_left13 (H : decoder_h) (hH : masks_ok H) (ean : ean_decoder_t)
    (pass : ean_pass_t) :
    integrate_store H ean pass (ZEBRA_EAN13 ||| EAN_LEFT) =
      { (if ((ean.left ≠ 0 ∧ ZEBRA_EAN13 ≠ ean.left) ∨ (ean.right ≠ 0 ∧ ZEBRA_EAN13 ≠ ean.right)) ∨
            (ean.left ≠ 0 ∧ ∃ k < 7, ean.buf k ≠ ((pass.raw (k) &&& 0xf : Nat) : Int))
          then reset_parts ean else ean) with
        left := ZEBRA_EAN13
        buf := fun k => if k < 7 then ((pass.raw (k) &&& 0xf : Nat) : Int) else ean.buf k } := by
  obtain ⟨h1, h2, h3, h4, h5, h6, h7, h8⟩ := hH
  have hp : ZEBRA_EAN13 ||| EAN_LEFT = ZEBRA_EAN13 := by decide
  have hr : ZEBRA_EAN13 &&& EAN_RIGHT = 0 := by decide
  have hne : ZEBRA_EAN13 ≠ ZEBRA_EAN8 := by decide
  rw [hp] at h1 h5 ⊢
  unfold integrate_store
  simp only [h1, h5, hr, hne, ne_self_iff_false, if_false, if_true]
  have hidx : ∀ k, 6 + k + 1 - (6 + 1) = k := by
    intro k
    omega
  by_cases hx : (ean.left ≠ 0 ∧ ZEBRA_EAN13 ≠ ean.left) ∨ (ean.right ≠ 0 ∧ ZEBRA_EAN13 ≠ ean.right)
  · rw [if_pos hx, integrate_left_loop_eq _ _ _ _ (by omega), if_pos (Or.inl hx)]
    have hz : ¬ ((reset_parts ean).left ≠ 0 ∧ ∃ k < 6 + 1,
        (reset_parts ean).buf k ≠ ((pass.raw (6 + k + 1 - (6 + 1)) &&& 0xf : Nat) : Int)) := by
      rintro ⟨h, _⟩
      exact h rfl
    rw [if_neg hz]
    simp only [hidx]
    rfl
  · rw [if_neg hx, integrate_left_loop_eq _ _ _ _ (by omega)]
    simp only [hidx]
    by_cases hm : ean.left ≠ 0 ∧ ∃ k < 7, ean.buf k ≠ ((pass.raw (k) &&& 0xf : Nat) : Int)
    · rw [if_pos hm, if_pos (Or.inr hm)]
    · rw [if_neg hm, if_neg (fun h => h.elim hx hm)]

theorem integrate_store_left8 (H : decoder_h) (hH : masks_ok H) (ean : ean_decoder_t)
    (pass : ean_pass_t) :
    integrate_store H ean pass (ZEBRA_EAN8 ||| EAN_LEFT) =
      { (if ((ean.left ≠ 0 ∧ ZEBRA_EAN8 ≠ ean.left) ∨ (ean.right ≠ 0 ∧ ZEBRA_EAN8 ≠ ean.right)) ∨
            (ean.left ≠ 0 ∧ ∃ k < 4, ean.buf k ≠ ((pass.raw (k + 1) &&& 0xf : Nat) : Int))
          then reset_parts ean else ean) with
        left := ZEBRA_EAN8
        buf := fun k => if k < 4 then ((pass.raw (k + 1) &&& 0xf : Nat) : Int) else ean.buf k } := by
  obtain ⟨h1, h2, h3, h4, h5, h6, h7, h8⟩ := hH
  have hp : ZEBRA_EAN8 ||| EAN_LEFT = ZEBRA_EAN8 := by decide
  have hr : ZEBRA_EAN8 &&& EAN_RIGHT = 0 := by decide
  have hne : ZEBRA_EAN8 ≠ ZEBRA_EAN13 := by decide
  rw [hp] at h3 h7 ⊢
  unfold integrate_store
  simp only [h3, h7, hr, hne, ne_self_iff_false, if_false, if_true]
  have hidx : ∀ k, 4 + k + 1 - (3 + 1) = k + 1 := by
    intro k
    omega
  by_cases hx : (ean.left ≠ 0 ∧ ZEBRA_EAN8 ≠ ean.left) ∨ (ean.right ≠ 0 ∧ ZEBRA_EAN8 ≠ ean.right)
  · rw [if_pos hx, integrate_left_loop_eq _ _ _ _ (by omega), if_pos (Or.inl hx)]
    have hz : ¬ ((reset_parts ean).left ≠ 0 ∧ ∃ k < 3 + 1,
        (reset_parts ean).buf k ≠ ((pass.raw (4 + k + 1 - (3 + 1)) &&& 0xf : Nat) : Int)) := by
      rintro ⟨h, _⟩
      exact h rfl
    rw [if_neg hz]
    simp only [hidx]
    rfl
  · rw [if_neg hx, integrate_left_loop_eq _ _ _ _ (by omega)]
    simp only [hidx]
    by_cases hm : ean.left ≠ 0 ∧ ∃ k < 4, ean.buf k ≠ ((pass.raw (k + 1) &&& 0xf : Nat) : Int)
    · rw [if_pos hm, if_pos (Or.inr hm)]
    · rw [if_neg hm, if_neg (fun h => h.elim hx hm)]

theorem integrate_store_right13 (H : decoder_h) (hH : masks_ok H) (ean : ean_decoder_t)
    (pass : ean_pass_t) :
    integrate_store H ean pass (ZEBRA_EAN13 ||| EAN_RIGHT) =
      { (if ((ean.left ≠ 0 ∧ ZEBRA_EAN13 ≠ ean.left) ∨ (ean.right ≠ 0 ∧ ZEBRA_EAN13 ≠ ean.right)) ∨
            (ean.right ≠ 0 ∧
              ∃ k < 13, 6 < k ∧ ean.buf k ≠ ((pass.raw (k - 6) &&& 0xf : Nat) : Int))
          then reset_parts ean else ean) with
        right := ZEBRA_EAN13
        buf := fun k =>
          if 6 < k ∧ k ≤ 12 then ((pass.raw (k - 6) &&& 0xf : Nat) : Int) else ean.buf k } := by
  obtain ⟨h1, h2, h3, h4, h5, h6, h7, h8⟩ := hH
  have hr : (ZEBRA_EAN13 ||| EAN_RIGHT) &&& EAN_RIGHT ≠ 0 := by decide
  have hne : ZEBRA_EAN13 ≠ ZEBRA_EAN8 := by decide
  unfold integrate_store
  simp only [h2, h6, if_pos hr, hne, ne_self_iff_false, if_false, if_true]
  have hidx : ∀ k, k + 6 - 12 = k - 6 := by
    intro k
    omega
  have hlo : 12 - 6 = 6 := by omega
  have hhi : 12 + 1 = 13 := by omega
  by_cases hx : (ean.left ≠ 0 ∧ ZEBRA_EAN13 ≠ ean.left) ∨ (ean.right ≠ 0 ∧ ZEBRA_EAN13 ≠ ean.right)
  · rw [if_pos hx, integrate_right_loop_eq _ _ _ _ (by omega), if_pos (Or.inl hx)]
    have hz : ¬ ((reset_parts ean).right ≠ 0 ∧ ∃ k < 12 + 1, 12 - 6 < k ∧
        (reset_parts ean).buf k ≠ ((pass.raw (k + 6 - 12) &&& 0xf : Nat) : Int)) := by
      rintro ⟨h, _⟩
      exact h rfl
    rw [if_neg hz]
    simp only [hidx, hlo]
    rfl
  · rw [if_neg hx, integrate_right_loop_eq _ _ _ _ (by omega)]
    simp only [hidx, hlo, hhi]
    by_cases hm : ean.right ≠ 0 ∧
        ∃ k < 13, 6 < k ∧ ean.buf k ≠ ((pass.raw (k - 6) &&& 0xf : Nat) : Int)
    · rw [if_pos hm, if_pos (Or.inr hm)]
    · rw [if_neg hm, if_neg (fun h => h.elim hx hm)]

theorem integrate_store_right8 (H : decoder_h) (hH : masks_ok H) (ean : ean_decoder_t)
    (pass : ean_pass_t) :
    integrate_store H ean pass (ZEBRA_EAN8 ||| EAN_RIGHT) =
      { (if ((ean.left ≠ 0 ∧ ZEBRA_EAN8 ≠ ean.left) ∨ (ean.right ≠ 0 ∧ ZEBRA_EAN8 ≠ ean.right)) ∨
            (ean.right ≠ 0 ∧
              ∃ k < 8, 3 < k ∧ ean.buf k ≠ ((pass.raw (k - 3) &&& 0xf : Nat) : Int))
          then reset_parts ean else ean) with
        right := ZEBRA_EAN8
        buf := fun k =>
          if 3 < k ∧ k ≤ 7 then ((pass.raw (k - 3) &&& 0xf : Nat) : Int) else ean.buf k } := by
  obtain ⟨h1, h2, h3, h4, h5, h6, h7, h8⟩ := hH
  have hr : (ZEBRA_EAN8 ||| EAN_RIGHT) &&& EAN_RIGHT ≠ 0 := by decide
  have hne : ZEBRA_EAN8 ≠ ZEBRA_EAN13 := by decide
  unfold integrate_store
  simp only [h4, h8, if_pos hr, hne, ne_self_iff_false, if_false, if_true]
  have hidx : ∀ k, k + 4 - 7 = k - 3 := by
    intro k
    omega
  have hlo : 7 - 4 = 3 := by omega
  have hhi : 7 + 1 = 8 := by omega
  by_cases hx : (ean.left ≠ 0 ∧ ZEBRA_EAN8 ≠ ean.left) ∨ (ean.right ≠ 0 ∧ ZEBRA_EAN8 ≠ ean.right)
  · rw [if_pos hx, integrate_right_loop_eq _ _ _ _ (by omega), if_pos (Or.inl hx)]
    have hz : ¬ ((reset_parts ean).right ≠ 0 ∧ ∃ k < 7 + 1, 7 - 4 < k ∧
        (reset_parts ean).buf k ≠ ((pass.raw (k + 4 - 7) &&& 0xf : Nat) : Int)) := by
      rintro ⟨h, _⟩
      exact h rfl
    rw [if_neg hz]
    simp only [hidx, hlo]
    rfl
  · rw [if_neg hx, integrate_right_loop_eq _ _ _ _ (by omega)]
    simp only [hidx, hlo, hhi]
    by_cases hm : ean.right ≠ 0 ∧
        ∃ k < 8, 3 < k ∧ ean.buf k ≠ ((pass.raw (k - 3) &&& 0xf : Nat) : Int)
    · rw [if_pos hm, if_pos (Or.inr hm)]
    · rw [if_neg hm, if_neg (fun h => h.elim hx hm)]

theorem integrate_partial_of_finish (H : decoder_h) (ean : ean_decoder_t) (pass : ean_pass_t)
    (part sym : Nat) (h : integrate_finish (integrate_store H ean pass part) = .ok sym) :
    integrate_partial H ean pass part = .ok (integrate_store H ean pass part, sym) := by
  unfold integrate_partial
  simp only []
  rw [h]

theorem spec_check_digit_standard (buf : Nat → Int) (d : Nat → Nat) (n : Nat)
    (h : ∀ i < n, buf i = (d i : Int)) :
    spec_check_digit buf n = ((standard_check_digit d n : Nat) : Int) := by
  have hsum : spec_weighted_sum buf n
      = ((∑ i in Finset.range n, (if (n - 1 - i) % 2 = 0 then 3 else 1) * d i : Nat) : Int) := by
    unfold spec_weighted_sum
    rw [Nat.cast_sum]
    apply Finset.sum_congr rfl
    intro i hi
    have hin : i < n := Finset.mem_range.mp hi
    rw [h i hin]
    unfold spec_weight
    have hx := @Nat.xor_mod_two_eq i n
    by_cases hodd : (i ^^^ n) % 2 = 1
    · rw [if_pos hodd, if_pos (by omega)]
      push_cast
      ring
    · rw [if_neg hodd, if_neg (by omega)]
      push_cast
      ring
  unfold spec_check_digit standard_check_digit
  rw [hsum]
  generalize (∑ i in Finset.range n, (if (n - 1 - i) % 2 = 0 then 3 else 1) * d i) = T
  omega

theorem integrate_finish_valid (ean : ean_decoder_t) (S : Nat)
    (hS : S = ZEBRA_EAN13 ∨ S = ZEBRA_EAN8) (hl : ean.left = S) (hr : ean.right = S)
    (ha : ean.addon = 0) (d : Nat → Nat) (hd : ∀ i < S, d i ≤ 9)
    (hb : ∀ i < S, ean.buf i = (d i : Int)) (hchk : d (S - 1) = standard_check_digit d (S - 1)) :
    integrate_finish ean = .ok S := by
  have hS0 : 0 < S := by
    rcases hS with rfl | rfl <;> decide
  rw [integrate_finish_complete ean S hS hl hr
    (fun i hi => by rw [hb i hi]; have := hd i hi; omega)]
  rw [spec_check_digit_standard ean.buf d (S - 1) (fun i hi => hb i (by omega)),
    hb (S - 1) (by omega), ← hchk, if_pos rfl, ha, Nat.or_zero]

theorem integrate_finish_invalid (ean : ean_decoder_t) (S : Nat)
    (hS : S = ZEBRA_EAN13 ∨ S = ZEBRA_EAN8) (hl : ean.left = S) (hr : ean.right = S)
    (d : Nat → Nat) (hd : ∀ i < S, d i ≤ 9)
    (hb : ∀ i < S, ean.buf i = (d i : Int)) (hchk : d (S - 1) ≠ standard_check_digit d (S - 1)) :
    integrate_finish ean = .ok ZEBRA_NONE := by
  have hS0 : 0 < S := by
    rcases hS with rfl | rfl <;> decide
  rw [integrate_finish_complete ean S hS hl hr
    (fun i hi => by rw [hb i hi]; have := hd i hi; omega)]
  rw [spec_check_digit_standard ean.buf d (S - 1) (fun i hi => hb i (by omega)),
    hb (S - 1) (by omega), if_neg (by exact_mod_cast hchk)]

theorem integrate_ean13_left_right (H : decoder_h) (hH : masks_ok H) (d : Nat → Nat)
    (hd : ∀ i < ZEBRA_EAN13, d i ≤ 9) (hchk : d (ZEBRA_EAN13 - 1) = standard_check_digit d (ZEBRA_EAN13 - 1))
    (ean : ean_decoder_t) (hl : ean.left = 0) (hr : ean.right = 0)
    (ha : ean.addon = 0) (pl pr : ean_pass_t)
    (hpl : ∀ i < 7, pl.raw i &&& 0xf = d i) (hpr : ∀ i < 6, pr.raw (i + 1) &&& 0xf = d (i + 7)) :
    ∃ e1 e2, integrate_partial H ean pl (ZEBRA_EAN13 ||| EAN_LEFT) = .ok (e1, ZEBRA_PARTIAL) ∧
      integrate_partial H e1 pr (ZEBRA_EAN13 ||| EAN_RIGHT) = .ok (e2, ZEBRA_EAN13) ∧
      ∀ i < ZEBRA_EAN13, e2.buf i = (d i : Int) := by
  have hs1 := integrate_store_left13 H hH ean pl
  rw [if_neg (by rw [hl, hr]; simp)] at hs1
  have hs2 := integrate_store_right13 H hH (integrate_store H ean pl (ZEBRA_EAN13 ||| EAN_LEFT)) pr
  generalize he1 : integrate_store H ean pl (ZEBRA_EAN13 ||| EAN_LEFT) = e1 at hs1 hs2
  have e1l : e1.left = ZEBRA_EAN13 := by rw [hs1]
  have e1r : e1.right = 0 := by rw [hs1]; exact hr
  have e1a : e1.addon = 0 := by rw [hs1]; exact ha
  have e1b : ∀ k, e1.buf k = if k < 7 then ((pl.raw (k) &&& 0xf : Nat) : Int)
      else ean.buf k := by
    intro k
    rw [hs1]
  rw [if_neg (by rw [e1l, e1r]; simp)] at hs2
  generalize he2 : integrate_store H e1 pr (ZEBRA_EAN13 ||| EAN_RIGHT) = e2 at hs2
  have e2l : e2.left = ZEBRA_EAN13 := by rw [hs2]; exact e1l
  have e2r : e2.right = ZEBRA_EAN13 := by rw [hs2]
  have e2a : e2.addon = 0 := by rw [hs2]; exact e1a
  have e2b : ∀ i < ZEBRA_EAN13, e2.buf i = (d i : Int) := by
    intro i hi
    have hi2 : i < 13 := hi
    rw [hs2]
    show (if 6 < i ∧ i ≤ 12 then ((pr.raw (i - 6) &&& 0xf : Nat) : Int) else e1.buf i) = _
    by_cases h6 : 6 < i
    · rw [if_pos ⟨h6, by omega⟩]
      have := hpr (i - 7) (by omega)
      rw [show i - 7 + 1 = i - 6 by omega, show i - 7 + 7 = i by omega] at this
      rw [this]
    · rw [if_neg (by omega), e1b, if_pos (by omega), hpl i (by omega)]
  refine ⟨e1, e2, ?_, ?_, e2b⟩
  · rw [← he1]
    apply integrate_partial_of_finish
    rw [he1]
    apply integrate_finish_partial
    rw [e1l, e1r]
    rfl
  · rw [← he2]
    apply integrate_partial_of_finish
    rw [he2]
    exact integrate_finish_valid e2 ZEBRA_EAN13 (Or.inl rfl) e2l e2r e2a d hd e2b hchk

theorem integrate_ean13_right_left (H : decoder_h) (hH : masks_ok H) (d : Nat → Nat)
    (hd : ∀ i < ZEBRA_EAN13, d i ≤ 9) (hchk : d (ZEBRA_EAN13 - 1) = standard_check_digit d (ZEBRA_EAN13 - 1))
    (ean : ean_decoder_t) (hl : ean.left = 0) (hr : ean.right = 0)
    (ha : ean.addon = 0) (pl pr : ean_pass_t)
    (hpl : ∀ i < 7, pl.raw i &&& 0xf = d i) (hpr : ∀ i < 6, pr.raw (i + 1) &&& 0xf = d (i + 7)) :
    ∃ e1 e2, integrate_partial H ean pr (ZEBRA_EAN13 ||| EAN_RIGHT) = .ok (e1, ZEBRA_PARTIAL) ∧
      integrate_partial H e1 pl (ZEBRA_EAN13 ||| EAN_LEFT) = .ok (e2, ZEBRA_EAN13) ∧
      ∀ i < ZEBRA_EAN13, e2.buf i = (d i : Int) := by
  have hs1 := integrate_store_right13 H hH ean pr
  rw [if_neg (by rw [hl, hr]; simp)] at hs1
  have hs2 := integrate_store_left13 H hH (integrate_store H ean pr (ZEBRA_EAN13 ||| EAN_RIGHT)) pl
  generalize he1 : integrate_store H ean pr (ZEBRA_EAN13 ||| EAN_RIGHT) = e1 at hs1 hs2
  have e1l : e1.left = 0 := by rw [hs1]; exact hl
  have e1r : e1.right = ZEBRA_EAN13 := by rw [hs1]
  have e1a : e1.addon = 0 := by rw [hs1]; exact ha
  have e1b : ∀ k, e1.buf k = if 6 < k ∧ k ≤ 12 then ((pr.raw (k - 6) &&& 0xf : Nat) : Int)
      else ean.buf k := by
    intro k
    rw [hs1]
  rw [if_neg (by rw [e1l, e1r]; simp)] at hs2
  generalize he2 : integrate_store H e1 pl (ZEBRA_EAN13 ||| EAN_LEFT) = e2 at hs2
  have e2l : e2.left = ZEBRA_EAN13 := by rw [hs2]
  have e2r : e2.right = ZEBRA_EAN13 := by rw [hs2]; exact e1r
  have e2a : e2.addon = 0 := by rw [hs2]; exact e1a
  have e2b : ∀ i < ZEBRA_EAN13, e2.buf i = (d i : Int) := by
    intro i hi
    have hi2 : i < 13 := hi
    rw [hs2]
    show (if i < 7 then ((pl.raw (i) &&& 0xf : Nat) : Int) else e1.buf i) = _
    by_cases h6 : i < 7
    · rw [if_pos h6, hpl i h6]
    · rw [if_neg h6, e1b, if_pos (by omega)]
      have := hpr (i - 7) (by omega)
      rw [show i - 7 + 1 = i - 6 by omega, show i - 7 + 7 = i by omega] at this
      rw [this]
  refine ⟨e1, e2, ?_, ?_, e2b⟩
  · rw [← he1]
    apply integrate_partial_of_finish
    rw [he1]
    apply integrate_finish_partial
    rw [e1l, e1r]
    rfl
  · rw [← he2]
    apply integrate_partial_of_finish
    rw [he2]
    exact integrate_finish_valid e2 ZEBRA_EAN13 (Or.inl rfl) e2l e2r e2a d hd e2b hchk

theorem integrate_ean8_left_right (H : decoder_h) (hH : masks_ok H) (d : Nat → Nat)
    (hd : ∀ i < ZEBRA_EAN8, d i ≤ 9) (hchk : d (ZEBRA_EAN8 - 1) = standard_check_digit d (ZEBRA_EAN8 - 1))
    (ean : ean_decoder_t) (hl : ean.left = 0) (hr : ean.right = 0)
    (ha : ean.addon = 0) (pl pr : ean_pass_t)
    (hpl : ∀ i < 4, pl.raw (i + 1) &&& 0xf = d i) (hpr : ∀ i < 4, pr.raw (i + 1) &&& 0xf = d (i + 4)) :
    ∃ e1 e2, integrate_partial H ean pl (ZEBRA_EAN8 ||| EAN_LEFT) = .ok (e1, ZEBRA_PARTIAL) ∧
      integrate_partial H e1 pr (ZEBRA_EAN8 ||| EAN_RIGHT) = .ok (e2, ZEBRA_EAN8) ∧
      ∀ i < ZEBRA_EAN8, e2.buf i = (d i : Int) := by
  have hs1 := integrate_store_left8 H hH ean pl
  rw [if_neg (by rw [hl, hr]; simp)] at hs1
  have hs2 := integrate_store_right8 H hH (integrate_store H ean pl (ZEBRA_EAN8 ||| EAN_LEFT)) pr
  generalize he1 : integrate_store H ean pl (ZEBRA_EAN8 ||| EAN_LEFT) = e1 at hs1 hs2
  have e1l : e1.left = ZEBRA_EAN8 := by rw [hs1]
  have e1r : e1.right = 0 := by rw [hs1]; exact hr
  have e1a : e1.addon = 0 := by rw [hs1]; exact ha
  have e1b : ∀ k, e1.buf k = if k < 4 then ((pl.raw (k + 1) &&& 0xf : Nat) : Int)
      else ean.buf k := by
    intro k
    rw [hs1]
  rw [if_neg (by rw [e1l, e1r]; simp)] at hs2
  generalize he2 : integrate_store H e1 pr (ZEBRA_EAN8 ||| EAN_RIGHT) = e2 at hs2
  have e2l : e2.left = ZEBRA_EAN8 := by rw [hs2]; exact e1l
  have e2r : e2.right = ZEBRA_EAN8 := by rw [hs2]
  have e2a : e2.addon = 0 := by rw [hs2]; exact e1a
  have e2b : ∀ i < ZEBRA_EAN8, e2.buf i = (d i : Int) := by
    intro i hi
    have hi2 : i < 8 := hi
    rw [hs2]
    show (if 3 < i ∧ i ≤ 7 then ((pr.raw (i - 3) &&& 0xf : Nat) : Int) else e1.buf i) = _
    by_cases h6 : 3 < i
    · rw [if_pos ⟨h6, by omega⟩]
      have := hpr (i - 4) (by omega)
      rw [show i - 4 + 1 = i - 3 by omega, show i - 4 + 4 = i by omega] at this
      rw [this]
    · rw [if_neg (by omega), e1b, if_pos (by omega), hpl i (by omega)]
  refine ⟨e1, e2, ?_, ?_, e2b⟩
  · rw [← he1]
    apply integrate_partial_of_finish
    rw [he1]
    apply integrate_finish_partial
    rw [e1l, e1r]
    rfl
  · rw [← he2]
    apply integrate_partial_of_finish
    rw [he2]
    exact integrate_finish_valid e2 ZEBRA_EAN8 (Or.inr rfl) e2l e2r e2a d hd e2b hchk

theorem integrate_ean8_right_left (H : decoder_h) (hH : masks_ok H) (d : Nat → Nat)
    (hd : ∀ i < ZEBRA_EAN8, d i ≤ 9) (hchk : d (ZEBRA_EAN8 - 1) = standard_check_digit d (ZEBRA_EAN8 - 1))
    (ean : ean_decoder_t) (hl : ean.left = 0) (hr : ean.right = 0)
    (ha : ean.addon = 0) (pl pr : ean_pass_t)
    (hpl : ∀ i < 4, pl.raw (i + 1) &&& 0xf = d i) (hpr : ∀ i < 4, pr.raw (i + 1) &&& 0xf = d (i + 4)) :
    ∃ e1 e2, integrate_partial H ean pr (ZEBRA_EAN8 ||| EAN_RIGHT) = .ok (e1, ZEBRA_PARTIAL) ∧
      integrate_partial H e1 pl (ZEBRA_EAN8 ||| EAN_LEFT) = .ok (e2, ZEBRA_EAN8) ∧
      ∀ i < ZEBRA_EAN8, e2.buf i = (d i : Int) := by
  have hs1 := integrate_store_right8 H hH ean pr
  rw [if_neg (by rw [hl, hr]; simp)] at hs1
  have hs2 := integrate_store_left8 H hH (integrate_store H ean pr (ZEBRA_EAN8 ||| EAN_RIGHT)) pl
  generalize he1 : integrate_store H ean pr (ZEBRA_EAN8 ||| EAN_RIGHT) = e1 at hs1 hs2
  have e1l : e1.left = 0 := by rw [hs1]; exact hl
  have e1r : e1.right = ZEBRA_EAN8 := by rw [hs1]
  have e1a : e1.addon = 0 := by rw [hs1]; exact ha
  have e1b : ∀ k, e1.buf k = if 3 < k ∧ k ≤ 7 then ((pr.raw (k - 3) &&& 0xf : Nat) : Int)
      else ean.buf k := by
    intro k
    rw [hs1]
  rw [if_neg (by rw [e1l, e1r]; simp)] at hs2
  generalize he2 : integrate_store H e1 pl (ZEBRA_EAN8 ||| EAN_LEFT) = e2 at hs2
  have e2l : e2.left = ZEBRA_EAN8 := by rw [hs2]
  have e2r : e2.right = ZEBRA_EAN8 := by rw [hs2]; exact e1r
  have e2a : e2.addon = 0 := by rw [hs2]; exact e1a
  have e2b : ∀ i < ZEBRA_EAN8, e2.buf i = (d i : Int) := by
    intro i hi
    have hi2 : i < 8 := hi
    rw [hs2]
    show (if i < 4 then ((pl.raw (i + 1) &&& 0xf : Nat) : Int) else e1.buf i) = _
    by_cases h6 : i < 4
    · rw [if_pos h6, hpl i h6]
    · rw [if_neg h6, e1b, if_pos (by omega)]
      have := hpr (i - 4) (by omega)
      rw [show i - 4 + 1 = i - 3 by omega, show i - 4 + 4 = i by omega] at this
      rw [this]
  refine ⟨e1, e2, ?_, ?_, e2b⟩
  · rw [← he1]
    apply integrate_partial_of_finish
    rw [he1]
    apply integrate_finish_partial
    rw [e1l, e1r]
    rfl
  · rw [← he2]
    apply integrate_partial_of_finish
    rw [he2]
    exact integrate_finish_valid e2 ZEBRA_EAN8 (Or.inr rfl) e2l e2r e2a d hd e2b hchk

/-- C2: for `S = EAN13` with a 13-digit string `d` and for `S = EAN8` with an
8-digit string `d` whose last digit is the standard check digit of the others,
starting from an accumulator with `left = right = addon = NONE`, integrating the
left-half partial and the right-half partial of `d`, in either order, returns
`PARTIAL` for the first call and `S` for the second, and leaves `buf[0..S-1]`
equal to `d`. -/
theorem C2_integrate_both_halves (H : decoder_h) (hH : masks_ok H) (S : Nat)
    (hS : S = ZEBRA_EAN13 ∨ S = ZEBRA_EAN8) (d : Nat → Nat)
    (hd : ∀ i < S, d i ≤ 9) (hchk : d (S - 1) = standard_check_digit d (S - 1))
    (ean : ean_decoder_t) (hl : ean.left = ZEBRA_NONE) (hr : ean.right = ZEBRA_NONE)
    (ha : ean.addon = ZEBRA_NONE) (pl pr : ean_pass_t)
    (hpl : is_left_half S pl d) (hpr : is_right_half S pr d) :
    (∃ e1 e2, integrate_partial H ean pl (S ||| EAN_LEFT) = .ok (e1, ZEBRA_PARTIAL) ∧
      integrate_partial H e1 pr (S ||| EAN_RIGHT) = .ok (e2, S) ∧
      ∀ i < S, e2.buf i = (d i : Int)) ∧
    (∃ e1 e2, integrate_partial H ean pr (S ||| EAN_RIGHT) = .ok (e1, ZEBRA_PARTIAL) ∧
      integrate_partial H e1 pl (S ||| EAN_LEFT) = .ok (e2, S) ∧
      ∀ i < S, e2.buf i = (d i : Int)) := by
  rcases hS with rfl | rfl
  · rw [is_left_half, if_pos rfl] at hpl
    rw [is_right_half, if_pos rfl] at hpr
    exact ⟨integrate_ean13_left_right H hH d hd hchk ean hl hr ha pl pr hpl hpr,
      integrate_ean13_right_left H hH d hd hchk ean hl hr ha pl pr hpl hpr⟩
  · rw [is_left_half, if_neg (by decide)] at hpl
    rw [is_right_half, if_neg (by decide)] at hpr
    exact ⟨integrate_ean8_left_right H hH d hd hchk ean hl hr ha pl pr hpl hpr,
      integrate_ean8_right_left H hH d hd hchk ean hl hr ha pl pr hpl hpr⟩


/-- Witness of C2 on the symbols 4006381333931 and 96385074. -/
theorem C2_integrate_both_halves_witness :
    ((masks_ok model_h ∧ (ZEBRA_EAN13 = ZEBRA_EAN13 ∨ ZEBRA_EAN13 = ZEBRA_EAN8) ∧
        (∀ i < ZEBRA_EAN13, digit_string sample_ean13 i ≤ 9) ∧
        digit_string sample_ean13 (ZEBRA_EAN13 - 1)
          = standard_check_digit (digit_string sample_ean13) (ZEBRA_EAN13 - 1) ∧
        is_left_half ZEBRA_EAN13 sample_left13 (digit_string sample_ean13) ∧
        is_right_half ZEBRA_EAN13 sample_right13 (digit_string sample_ean13)) ∧
      ((∃ e1 e2, integrate_partial model_h (ean_of 0 0 0 []) sample_left13
            (ZEBRA_EAN13 ||| EAN_LEFT) = .ok (e1, ZEBRA_PARTIAL) ∧
          integrate_partial model_h e1 sample_right13 (ZEBRA_EAN13 ||| EAN_RIGHT)
            = .ok (e2, ZEBRA_EAN13) ∧
          ∀ i < ZEBRA_EAN13, e2.buf i = (digit_string sample_ean13 i : Int)) ∧
        (∃ e1 e2, integrate_partial model_h (ean_of 0 0 0 []) sample_right13
            (ZEBRA_EAN13 ||| EAN_RIGHT) = .ok (e1, ZEBRA_PARTIAL) ∧
          integrate_partial model_h e1 sample_left13 (ZEBRA_EAN13 ||| EAN_LEFT)
            = .ok (e2, ZEBRA_EAN13) ∧
          ∀ i < ZEBRA_EAN13, e2.buf i = (digit_string sample_ean13 i : Int)))) ∧
    ((masks_ok model_h ∧ (ZEBRA_EAN8 = ZEBRA_EAN13 ∨ ZEBRA_EAN8 = ZEBRA_EAN8) ∧
        (∀ i < ZEBRA_EAN8, digit_string sample_ean8 i ≤ 9) ∧
        digit_string sample_ean8 (ZEBRA_EAN8 - 1)
          = standard_check_digit (digit_string sample_ean8) (ZEBRA_EAN8 - 1) ∧
        is_left_half ZEBRA_EAN8 sample_left8 (digit_string sample_ean8) ∧
        is_right_half ZEBRA_EAN8 sample_right8 (digit_string sample_ean8)) ∧
      ((∃ e1 e2, integrate_partial model_h (ean_of 0 0 0 []) sample_left8
            (ZEBRA_EAN8 ||| EAN_LEFT) = .ok (e1, ZEBRA_PARTIAL) ∧
          integrate_partial model_h e1 sample_right8 (ZEBRA_EAN8 ||| EAN_RIGHT)
            = .ok (e2, ZEBRA_EAN8) ∧
          ∀ i < ZEBRA_EAN8, e2.buf i = (digit_string sample_ean8 i : Int)) ∧
        (∃ e1 e2, integrate_partial model_h (ean_of 0 0 0 []) sample_right8
            (ZEBRA_EAN8 ||| EAN_RIGHT) = .ok (e1, ZEBRA_PARTIAL) ∧
          integrate_partial model_h e1 sample_left8 (ZEBRA_EAN8 ||| EAN_LEFT)
            = .ok (e2, ZEBRA_EAN8) ∧
          ∀ i < ZEBRA_EAN8, e2.buf i = (digit_string sample_ean8 i : Int)))) :=
  ⟨⟨⟨by decide, by decide, by decide, by decide, by decide, by decide⟩,
    C2_integrate_both_halves model_h (by decide) ZEBRA_EAN13 (by decide)
      (digit_string sample_ean13) (by decide) (by decide) (ean_of 0 0 0 []) rfl rfl rfl
      sample_left13 sample_right13 (by decide) (by decide)⟩,
   ⟨⟨by decide, by decide, by decide, by decide, by decide, by decide⟩,
    C2_integrate_both_halves model_h (by decide) ZEBRA_EAN8 (by decide)
      (digit_string sample_ean8) (by decide) (by decide) (ean_of 0 0 0 []) rfl rfl rfl
      sample_left8 sample_right8 (by decide) (by decide)⟩⟩

theorem postprocess_main_loop_digits (ean : ean_decoder_t) :
    ∀ (k i : Nat) (out : Nat → Nat), i + k ≤ 18 →
      (∀ j, i ≤ j → j < i + k → 0 ≤ ean.buf j) →
      postprocess_main_loop ean k i out
        = .ok (i + k, fun j => if i ≤ j ∧ j < i + k then u8 (ean.buf j + 48) else out j) := by
  intro k
  induction k with
  | zero =>
    intro i out _ _
    rw [postprocess_main_loop]
    congr 2
    funext j
    rw [if_neg (by omega)]
  | succ k ih =>
    intro i out hik hb
    rw [postprocess_main_loop, if_pos (by omega), if_pos (hb i (le_refl i) (by omega)),
      ih (i + 1) _ (by omega) (fun j h1 h2 => hb j (by omega) (by omega))]
    congr 2
    · omega
    · funext j
      rw [store_apply]
      by_cases h1 : j = i
      · subst h1
        rw [if_neg (by omega), if_pos rfl, if_pos (by omega)]
      · by_cases h2 : i + 1 ≤ j ∧ j < i + 1 + k
        · rw [if_pos h2, if_pos (by omega)]
        · rw [if_neg h2, if_neg h1, if_neg (by omega)]

theorem postprocess_main (H : decoder_h) (hH : masks_ok H) (S : Nat)
    (hS : S = ZEBRA_EAN13 ∨ S = ZEBRA_EAN8) (dcode : zebra_decoder_t)
    (hb : ∀ i < S - 1, 0 ≤ dcode.ean.buf i) :
    postprocess H dcode S = .ok { dcode with
      buf := store (fun j => if j < S - 1 then u8 (dcode.ean.buf j + 48) else dcode.buf j)
        (S - 1) 0 } := by
  obtain ⟨h1, h2, h3, h4, h5, h6, h7, h8⟩ := hH
  have hp13 : ZEBRA_EAN13 ||| EAN_LEFT = ZEBRA_EAN13 := by decide
  have hp8 : ZEBRA_EAN8 ||| EAN_LEFT = ZEBRA_EAN8 := by decide
  rw [hp13] at h1 h5
  rw [hp8] at h3 h7
  have hsym : S &&& H.ZEBRA_SYMBOL = S := by
    rcases hS with rfl | rfl
    · exact h1
    · exact h3
  have hadd : S &&& H.ZEBRA_ADDON = 0 := by
    rcases hS with rfl | rfl
    · exact h5
    · exact h7
  have hS1 : S > ZEBRA_PARTIAL ∧ S - 1 ≤ 18 := by
    rcases hS with rfl | rfl <;> decide
  unfold postprocess
  simp only [hsym, hadd, if_pos hS1.1, ne_self_iff_false, if_false]
  rw [postprocess_main_loop_digits dcode.ean (S - 1) 0 dcode.buf (by omega)
    (fun j _ h2 => hb j (by omega))]
  simp only [Nat.zero_add, Nat.zero_le, true_and]

/-- C3 (as amended): for every accumulator whose main-symbol slots hold digits
`0..9`, `postprocess` called with `sym = EAN13` writes the 12 ASCII digits of
`buf[0..11]` to positions `0..11` of the output buffer followed by a NUL at
position 12, and called with `sym = EAN8` writes the 7 ASCII digits of
`buf[0..6]` followed by a NUL at position 7; the check digit `buf[S-1]` is not
written, the rest of the output buffer and the accumulator are unchanged. -/
theorem C3_postprocess_output (H : decoder_h) (hH : masks_ok H) (S : Nat)
    (hS : S = ZEBRA_EAN13 ∨ S = ZEBRA_EAN8) (dcode : zebra_decoder_t)
    (hb : ∀ i < S, 0 ≤ dcode.ean.buf i ∧ dcode.ean.buf i ≤ 9) :
    ∃ d', postprocess H dcode S = .ok d' ∧
      (∀ i < S - 1, ((d'.buf i : Nat) : Int) = dcode.ean.buf i + 48) ∧
      d'.buf (S - 1) = 0 ∧
      (∀ i, S - 1 < i → d'.buf i = dcode.buf i) ∧
      d'.ean = dcode.ean := by
  refine ⟨_, postprocess_main H hH S hS dcode (fun i hi => (hb i (by omega)).1), ?_, ?_, ?_, rfl⟩
  · intro i hi
    simp only [store_apply]
    rw [if_neg (by omega), if_pos hi]
    obtain ⟨h0, h9⟩ := hb i (by omega)
    unfold u8
    omega
  · simp only [store_apply, if_true]
  · intro i hi
    simp only [store_apply]
    rw [if_neg (by omega), if_neg (by omega)]

/-- Witness of C3 (as amended) on the accumulator holding 4006381333931. -/
theorem C3_postprocess_output_witness :
    (masks_ok model_h ∧ (ZEBRA_EAN13 = ZEBRA_EAN13 ∨ ZEBRA_EAN13 = ZEBRA_EAN8) ∧
      ∀ i < ZEBRA_EAN13,
        0 ≤ (dcode_of 0 [] zebra_color_t.ZEBRA_BAR false (ean_of 13 13 0 sample_ean13)).ean.buf i ∧
        (dcode_of 0 [] zebra_color_t.ZEBRA_BAR false (ean_of 13 13 0 sample_ean13)).ean.buf i ≤ 9) ∧
    ∃ d', postprocess model_h
        (dcode_of 0 [] zebra_color_t.ZEBRA_BAR false (ean_of 13 13 0 sample_ean13)) ZEBRA_EAN13
        = .ok d' ∧
      (∀ i < ZEBRA_EAN13 - 1, ((d'.buf i : Nat) : Int)
        = (dcode_of 0 [] zebra_color_t.ZEBRA_BAR false (ean_of 13 13 0 sample_ean13)).ean.buf i
          + 48) ∧
      d'.buf (ZEBRA_EAN13 - 1) = 0 ∧
      (∀ i, ZEBRA_EAN13 - 1 < i → d'.buf i
        = (dcode_of 0 [] zebra_color_t.ZEBRA_BAR false (ean_of 13 13 0 sample_ean13)).buf i) ∧
      d'.ean = (dcode_of 0 [] zebra_color_t.ZEBRA_BAR false (ean_of 13 13 0 sample_ean13)).ean :=
  ⟨⟨by decide, by decide, by decide⟩,
   C3_postprocess_output model_h (by decide) ZEBRA_EAN13 (by decide)
     (dcode_of 0 [] zebra_color_t.ZEBRA_BAR false (ean_of 13 13 0 sample_ean13)) (by decide)⟩

/-- C3 fails as stated: on the accumulator holding 4006381333931, `postprocess`
with `sym = EAN13` writes the twelve bytes "400638133393" and a NUL at
position 12 and leaves position 13 untouched; it does not write the thirteen
digits "4006381333931" followed by a NUL at position 13. -/
theorem C3_postprocess_counterexample :
    output_bytes (postprocess model_h
        (dcode_of 0 [] zebra_color_t.ZEBRA_BAR false (ean_of 13 13 0 sample_ean13))
        ZEBRA_EAN13) 14
      = some [52, 48, 48, 54, 51, 56, 49, 51, 51, 51, 57, 51, 0, 255] ∧
    output_bytes (postprocess model_h
        (dcode_of 0 [] zebra_color_t.ZEBRA_BAR false (ean_of 13 13 0 sample_ean13))
        ZEBRA_EAN13) 14
      ≠ some [52, 48, 48, 54, 51, 56, 49, 51, 51, 51, 57, 51, 49, 0] := by
  decide

theorem standard_check_digit_congr (d d' : Nat → Nat) (n : Nat) (h : ∀ i < n, d' i = d i) :
    standard_check_digit d' n = standard_check_digit d n := by
  unfold standard_check_digit
  rw [Finset.sum_congr rfl (fun i hi => by rw [h i (Finset.mem_range.mp hi)])]

theorem integrate_ean13_recovery (H : decoder_h) (hH : masks_ok H) (d : Nat → Nat)
    (hd : ∀ i < 13, d i ≤ 9) (hchk : d 12 = standard_check_digit d 12)
    (x : Nat) (hx9 : x ≤ 9) (hx : x ≠ d 12)
    (ean : ean_decoder_t) (hl : ean.left = 0) (hr : ean.right = 0)
    (ha : ean.addon = 0) (pl pr prw : ean_pass_t)
    (hpl : ∀ i < 7, pl.raw i &&& 0xf = d i) (hpr : ∀ i < 6, pr.raw (i + 1) &&& 0xf = d (i + 7))
    (hprw : ∀ i < 5, prw.raw (i + 1) &&& 0xf = d (i + 7)) (hprx : prw.raw 6 &&& 0xf = x) :
    ∃ e1 e2 e3 e4 e5,
      integrate_partial H ean pl (ZEBRA_EAN13 ||| EAN_LEFT) = .ok (e1, ZEBRA_PARTIAL) ∧
      integrate_partial H e1 prw (ZEBRA_EAN13 ||| EAN_RIGHT) = .ok (e2, ZEBRA_NONE) ∧
      integrate_partial H e2 pl (ZEBRA_EAN13 ||| EAN_LEFT) = .ok (e3, ZEBRA_NONE) ∧
      integrate_partial H e3 pr (ZEBRA_EAN13 ||| EAN_RIGHT) = .ok (e4, ZEBRA_PARTIAL) ∧
      integrate_partial H e4 pl (ZEBRA_EAN13 ||| EAN_LEFT) = .ok (e5, ZEBRA_EAN13) ∧
      ∀ i < 13, e5.buf i = (d i : Int) := by
  have hd' : ∀ i < ZEBRA_EAN13, (fun i => if i = 12 then x else d i) i ≤ 9 := by
    intro i hi
    have hi2 : i < 13 := hi
    show (if i = 12 then x else d i) ≤ 9
    split_ifs
    · exact hx9
    · exact hd i hi2
  have hchk' : (fun i => if i = 12 then x else d i) (ZEBRA_EAN13 - 1)
      ≠ standard_check_digit (fun i => if i = 12 then x else d i) (ZEBRA_EAN13 - 1) := by
    rw [standard_check_digit_congr d _ (ZEBRA_EAN13 - 1)
      (fun i hi => by
        have : i < 12 := hi
        show (if i = 12 then x else d i) = d i
        rw [if_neg (by omega)])]
    show (if 12 = 12 then x else d 12) ≠ standard_check_digit d 12
    rw [if_pos rfl, ← hchk]
    exact hx
  -- first call: the left half
  have hs1 := integrate_store_left13 H hH ean pl
  rw [if_neg (by rw [hl, hr]; simp)] at hs1
  have hs2 := integrate_store_right13 H hH (integrate_store H ean pl (ZEBRA_EAN13 ||| EAN_LEFT)) prw
  generalize he1 : integrate_store H ean pl (ZEBRA_EAN13 ||| EAN_LEFT) = e1 at hs1 hs2
  have e1l : e1.left = ZEBRA_EAN13 := by rw [hs1]
  have e1r : e1.right = 0 := by rw [hs1]; exact hr
  have e1a : e1.addon = 0 := by rw [hs1]; exact ha
  have e1b : ∀ k < 7, e1.buf k = (d k : Int) := by
    intro k hk
    rw [hs1]
    simp only []
    rw [if_pos hk, hpl k hk]
  -- second call: the right half with the wrong last digit
  rw [if_neg (by rw [e1l, e1r]; simp)] at hs2
  have hs3 := integrate_store_left13 H hH (integrate_store H e1 prw (ZEBRA_EAN13 ||| EAN_RIGHT)) pl
  generalize he2 : integrate_store H e1 prw (ZEBRA_EAN13 ||| EAN_RIGHT) = e2 at hs2 hs3
  have e2l : e2.left = ZEBRA_EAN13 := by rw [hs2]; exact e1l
  have e2r : e2.right = ZEBRA_EAN13 := by rw [hs2]
  have e2a : e2.addon = 0 := by rw [hs2]; exact e1a
  have e2b : ∀ i < ZEBRA_EAN13, e2.buf i = (((fun i => if i = 12 then x else d i) i : Nat) : Int) := by
    intro i hi
    have hi2 : i < 13 := hi
    rw [hs2]
    simp only []
    by_cases h6 : 6 < i
    · rw [if_pos ⟨h6, by omega⟩]
      by_cases h12 : i = 12
      · subst h12
        rw [if_pos rfl]
        exact congrArg _ hprx
      · rw [if_neg h12]
        have := hprw (i - 7) (by omega)
        rw [show i - 7 + 1 = i - 6 by omega, show i - 7 + 7 = i by omega] at this
        rw [this]
    · rw [if_neg (by omega), if_neg (by omega), e1b i (by omega)]
  -- third call: the left half again, equal to the stored one
  have hnm3 : ¬ (((e2.left ≠ 0 ∧ ZEBRA_EAN13 ≠ e2.left) ∨ (e2.right ≠ 0 ∧ ZEBRA_EAN13 ≠ e2.right)) ∨
      (e2.left ≠ 0 ∧ ∃ k < 7, e2.buf k ≠ ((pl.raw k &&& 0xf : Nat) : Int))) := by
    rw [e2l, e2r]
    rintro ((⟨_, h⟩ | ⟨_, h⟩) | ⟨_, k, hk, h⟩)
    · exact h rfl
    · exact h rfl
    · apply h
      rw [e2b k (by unfold ZEBRA_EAN13; omega), hpl k hk]
      show (((if k = 12 then x else d k : Nat)) : Int) = _
      rw [if_neg (by omega)]
  rw [if_neg hnm3] at hs3
  have hs4 := integrate_store_right13 H hH (integrate_store H e2 pl (ZEBRA_EAN13 ||| EAN_LEFT)) pr
  generalize he3 : integrate_store H e2 pl (ZEBRA_EAN13 ||| EAN_LEFT) = e3 at hs3 hs4
  have e3l : e3.left = ZEBRA_EAN13 := by rw [hs3]
  have e3r : e3.right = ZEBRA_EAN13 := by rw [hs3]; exact e2r
  have e3b : ∀ i < ZEBRA_EAN13, e3.buf i = (((fun i => if i = 12 then x else d i) i : Nat) : Int) := by
    intro i hi
    have hi2 : i < 13 := hi
    rw [hs3]
    simp only []
    by_cases h7 : i < 7
    · rw [if_pos h7, hpl i h7, if_neg (by omega)]
    · rw [if_neg h7]
      exact e2b i hi
  -- fourth call: the correct right half disagrees with the stored digit
  have hm4 : ((e3.left ≠ 0 ∧ ZEBRA_EAN13 ≠ e3.left) ∨ (e3.right ≠ 0 ∧ ZEBRA_EAN13 ≠ e3.right)) ∨
      (e3.right ≠ 0 ∧
        ∃ k < 13, 6 < k ∧ e3.buf k ≠ ((pr.raw (k - 6) &&& 0xf : Nat) : Int)) := by
    refine Or.inr ⟨by rw [e3r]; decide, 12, by omega, by omega, ?_⟩
    rw [e3b 12 (by decide)]
    have := hpr 5 (by omega)
    rw [show (12 : Nat) - 6 = 5 + 1 by omega, this]
    show (((if 12 = 12 then x else d 12 : Nat)) : Int) ≠ _
    rw [if_pos rfl]
    exact_mod_cast hx
  rw [if_pos hm4] at hs4
  have hs5 := integrate_store_left13 H hH (integrate_store H e3 pr (ZEBRA_EAN13 ||| EAN_RIGHT)) pl
  generalize he4 : integrate_store H e3 pr (ZEBRA_EAN13 ||| EAN_RIGHT) = e4 at hs4 hs5
  have e4l : e4.left = 0 := by rw [hs4]; rfl
  have e4r : e4.right = ZEBRA_EAN13 := by rw [hs4]
  have e4a : e4.addon = 0 := by rw [hs4]; rfl
  have e4b : ∀ i, 6 < i → i < 13 → e4.buf i = (d i : Int) := by
    intro i h6 hi
    rw [hs4]
    simp only []
    rw [if_pos ⟨h6, by omega⟩]
    have := hpr (i - 7) (by omega)
    rw [show i - 7 + 1 = i - 6 by omega, show i - 7 + 7 = i by omega] at this
    rw [this]
  -- fifth call: the left half once more
  rw [if_neg (by rw [e4l, e4r]; simp)] at hs5
  generalize he5 : integrate_store H e4 pl (ZEBRA_EAN13 ||| EAN_LEFT) = e5 at hs5
  have e5l : e5.left = ZEBRA_EAN13 := by rw [hs5]
  have e5r : e5.right = ZEBRA_EAN13 := by rw [hs5]; exact e4r
  have e5a : e5.addon = 0 := by rw [hs5]; exact e4a
  have e5b : ∀ i < ZEBRA_EAN13, e5.buf i = (d i : Int) := by
    intro i hi
    have hi2 : i < 13 := hi
    rw [hs5]
    simp only []
    by_cases h7 : i < 7
    · rw [if_pos h7, hpl i h7]
    · rw [if_neg h7]
      exact e4b i (by omega) hi2
  refine ⟨e1, e2, e3, e4, e5, ?_, ?_, ?_, ?_, ?_, e5b⟩
  · rw [← he1]
    apply integrate_partial_of_finish
    rw [he1]
    apply integrate_finish_partial
    rw [e1l, e1r]
    rfl
  · rw [← he2]
    apply integrate_partial_of_finish
    rw [he2]
    exact integrate_finish_invalid e2 ZEBRA_EAN13 (Or.inl rfl) e2l e2r _ hd' e2b hchk'
  · rw [← he3]
    apply integrate_partial_of_finish
    rw [he3]
    exact integrate_finish_invalid e3 ZEBRA_EAN13 (Or.inl rfl) e3l e3r _ hd' e3b hchk'
  · rw [← he4]
    apply integrate_partial_of_finish
    rw [he4]
    apply integrate_finish_partial
    rw [e4l, e4r]
    rfl
  · rw [← he5]
    apply integrate_partial_of_finish
    rw [he5]
    exact integrate_finish_valid e5 ZEBRA_EAN13 (Or.inl rfl) e5l e5r e5a d hd e5b hchk

/-- C5 (as amended): for every valid EAN-13 digit string `d` and every wrong
last digit, starting from an accumulator with labels `NONE`, integrating the
left half of `d` returns `PARTIAL` and the right half carrying the wrong last
digit returns `NONE` (checksum mismatch); of one subsequent correct scan of `d`
the left half returns `NONE` and the right half returns `PARTIAL` (its mismatch
with the stored wrong digit resets the labels); integrating the left half of
`d` once more then returns `EAN13`, with `buf[0..12] = d`. -/
theorem C5_checksum_recovery (H : decoder_h) (hH : masks_ok H) (d : Nat → Nat)
    (hd : ∀ i < 13, d i ≤ 9) (hchk : d 12 = standard_check_digit d 12)
    (x : Nat) (hx9 : x ≤ 9) (hx : x ≠ d 12)
    (ean : ean_decoder_t) (hl : ean.left = ZEBRA_NONE) (hr : ean.right = ZEBRA_NONE)
    (ha : ean.addon = ZEBRA_NONE) (pl pr prw : ean_pass_t)
    (hpl : ∀ i < 7, pl.raw i &&& 0xf = d i) (hpr : ∀ i < 6, pr.raw (i + 1) &&& 0xf = d (i + 7))
    (hprw : ∀ i < 5, prw.raw (i + 1) &&& 0xf = d (i + 7)) (hprx : prw.raw 6 &&& 0xf = x) :
    ∃ e1 e2 e3 e4 e5,
      integrate_partial H ean pl (ZEBRA_EAN13 ||| EAN_LEFT) = .ok (e1, ZEBRA_PARTIAL) ∧
      integrate_partial H e1 prw (ZEBRA_EAN13 ||| EAN_RIGHT) = .ok (e2, ZEBRA_NONE) ∧
      integrate_partial H e2 pl (ZEBRA_EAN13 ||| EAN_LEFT) = .ok (e3, ZEBRA_NONE) ∧
      integrate_partial H e3 pr (ZEBRA_EAN13 ||| EAN_RIGHT) = .ok (e4, ZEBRA_PARTIAL) ∧
      integrate_partial H e4 pl (ZEBRA_EAN13 ||| EAN_LEFT) = .ok (e5, ZEBRA_EAN13) ∧
      ∀ i < 13, e5.buf i = (d i : Int) :=
  integrate_ean13_recovery H hH d hd hchk x hx9 hx ean hl hr ha pl pr prw hpl hpr hprw hprx

/-- Witness of C5 (as amended): 4006381333932 followed by 4006381333931. -/
theorem C5_checksum_recovery_witness :
    (masks_ok model_h ∧ (∀ i < 13, digit_string sample_ean13 i ≤ 9) ∧
      digit_string sample_ean13 12 = standard_check_digit (digit_string sample_ean13) 12 ∧
      2 ≤ 9 ∧ 2 ≠ digit_string sample_ean13 12 ∧
      (∀ i < 7, sample_left13.raw i &&& 0xf = digit_string sample_ean13 i) ∧
      (∀ i < 6, sample_right13.raw (i + 1) &&& 0xf = digit_string sample_ean13 (i + 7)) ∧
      (∀ i < 5, sample_right13_wrong.raw (i + 1) &&& 0xf = digit_string sample_ean13 (i + 7)) ∧
      sample_right13_wrong.raw 6 &&& 0xf = 2) ∧
    ∃ e1 e2 e3 e4 e5,
      integrate_partial model_h (ean_of 0 0 0 []) sample_left13 (ZEBRA_EAN13 ||| EAN_LEFT)
        = .ok (e1, ZEBRA_PARTIAL) ∧
      integrate_partial model_h e1 sample_right13_wrong (ZEBRA_EAN13 ||| EAN_RIGHT)
        = .ok (e2, ZEBRA_NONE) ∧
      integrate_partial model_h e2 sample_left13 (ZEBRA_EAN13 ||| EAN_LEFT)
        = .ok (e3, ZEBRA_NONE) ∧
      integrate_partial model_h e3 sample_right13 (ZEBRA_EAN13 ||| EAN_RIGHT)
        = .ok (e4, ZEBRA_PARTIAL) ∧
      integrate_partial model_h e4 sample_left13 (ZEBRA_EAN13 ||| EAN_LEFT)
        = .ok (e5, ZEBRA_EAN13) ∧
      ∀ i < 13, e5.buf i = (digit_string sample_ean13 i : Int) :=
  ⟨⟨by decide, by decide, by decide, by decide, by decide, by decide, by decide, by decide,
    by decide⟩,
   C5_checksum_recovery model_h (by decide) (digit_string sample_ean13) (by decide) (by decide)
     2 (by decide) (by decide) (ean_of 0 0 0 []) rfl rfl rfl sample_left13 sample_right13
     sample_right13_wrong (by decide) (by decide) (by decide) (by decide)⟩

/-- C5 fails as stated: after the scan 4006381333932 (left half, then right half
with the wrong last digit) has returned `PARTIAL` and `NONE`, the correct scan
4006381333931 returns `NONE` for its left half and `PARTIAL`, not `EAN13`, for
its right half. -/
theorem C5_checksum_recovery_counterexample :
    returned_syms (integrate_sequence model_h (ean_of 0 0 0 [])
        [(sample_left13, ZEBRA_EAN13 ||| EAN_LEFT),
         (sample_right13_wrong, ZEBRA_EAN13 ||| EAN_RIGHT),
         (sample_left13, ZEBRA_EAN13 ||| EAN_LEFT),
         (sample_right13, ZEBRA_EAN13 ||| EAN_RIGHT)])
      = some [ZEBRA_PARTIAL, ZEBRA_NONE, ZEBRA_NONE, ZEBRA_PARTIAL] ∧
    ZEBRA_PARTIAL ≠ ZEBRA_EAN13 := by
  decide

theorem integrate_left_inconsistent (H : decoder_h) (hH : masks_ok H) (S : Nat)
    (hS : S = ZEBRA_EAN13 ∨ S = ZEBRA_EAN8) (ean : ean_decoder_t) (pass : ean_pass_t)
    (hlab : ean.left = S)
    (hdiff : ∃ k < left_slots S, ean.buf k ≠ ((pass.raw (left_raw S k) &&& 0xf : Nat) : Int)) :
    ∃ e', integrate_partial H ean pass (S ||| EAN_LEFT) = .ok (e', ZEBRA_PARTIAL) ∧
      e'.left = S ∧ e'.right = ZEBRA_NONE ∧ e'.addon = ZEBRA_NONE ∧
      ∀ k < left_slots S, e'.buf k = ((pass.raw (left_raw S k) &&& 0xf : Nat) : Int) := by
  rcases hS with rfl | rfl
  · simp only [left_slots, left_raw, if_true] at hdiff ⊢
    have hs := integrate_store_left13 H hH ean pass
    rw [if_pos (Or.inr ⟨by rw [hlab]; decide, hdiff⟩)] at hs
    generalize he : integrate_store H ean pass (ZEBRA_EAN13 ||| EAN_LEFT) = e' at hs
    have el : e'.left = ZEBRA_EAN13 := by rw [hs]
    have er : e'.right = ZEBRA_NONE := by rw [hs]; rfl
    have ea : e'.addon = ZEBRA_NONE := by rw [hs]; rfl
    refine ⟨e', ?_, el, er, ea, ?_⟩
    · rw [← he]
      apply integrate_partial_of_finish
      rw [he]
      apply integrate_finish_partial
      rw [el, er]
      rfl
    · intro k hk
      rw [hs]
      simp only []
      rw [if_pos hk]
  · have h8 : ¬ (ZEBRA_EAN8 = ZEBRA_EAN13) := by decide
    simp only [left_slots, left_raw, if_neg h8] at hdiff ⊢
    have hs := integrate_store_left8 H hH ean pass
    rw [if_pos (Or.inr ⟨by rw [hlab]; decide, hdiff⟩)] at hs
    generalize he : integrate_store H ean pass (ZEBRA_EAN8 ||| EAN_LEFT) = e' at hs
    have el : e'.left = ZEBRA_EAN8 := by rw [hs]
    have er : e'.right = ZEBRA_NONE := by rw [hs]; rfl
    have ea : e'.addon = ZEBRA_NONE := by rw [hs]; rfl
    refine ⟨e', ?_, el, er, ea, ?_⟩
    · rw [← he]
      apply integrate_partial_of_finish
      rw [he]
      apply integrate_finish_partial
      rw [el, er]
      rfl
    · intro k hk
      rw [hs]
      simp only []
      rw [if_pos hk]

theorem integrate_right_inconsistent (H : decoder_h) (hH : masks_ok H) (S : Nat)
    (hS : S = ZEBRA_EAN13 ∨ S = ZEBRA_EAN8) (ean : ean_decoder_t) (pass : ean_pass_t)
    (hlab : ean.right = S)
    (hdiff : ∃ k, right_first S ≤ k ∧ k < right_first S + right_slots S ∧
      ean.buf k ≠ ((pass.raw (right_raw S k) &&& 0xf : Nat) : Int)) :
    ∃ e', integrate_partial H ean pass (S ||| EAN_RIGHT) = .ok (e', ZEBRA_PARTIAL) ∧
      e'.right = S ∧ e'.left = ZEBRA_NONE ∧ e'.addon = ZEBRA_NONE ∧
      ∀ k, right_first S ≤ k → k < right_first S + right_slots S →
        e'.buf k = ((pass.raw (right_raw S k) &&& 0xf : Nat) : Int) := by
  rcases hS with rfl | rfl
  · simp only [right_first, right_slots, right_raw, if_true] at hdiff ⊢
    obtain ⟨k0, hk1, hk2, hk3⟩ := hdiff
    have hidx : ∀ k, 7 ≤ k → k - 7 + 1 = k - 6 := by
      intro k hk
      omega
    rw [hidx k0 hk1] at hk3
    have hs := integrate_store_right13 H hH ean pass
    rw [if_pos (Or.inr ⟨by rw [hlab]; decide, k0, by omega, by omega, hk3⟩)] at hs
    generalize he : integrate_store H ean pass (ZEBRA_EAN13 ||| EAN_RIGHT) = e' at hs
    have el : e'.left = ZEBRA_NONE := by rw [hs]; rfl
    have er : e'.right = ZEBRA_EAN13 := by rw [hs]
    have ea : e'.addon = ZEBRA_NONE := by rw [hs]; rfl
    refine ⟨e', ?_, er, el, ea, ?_⟩
    · rw [← he]
      apply integrate_partial_of_finish
      rw [he]
      apply integrate_finish_partial
      rw [el, er]
      rfl
    · intro k hk hk'
      rw [hs]
      simp only []
      rw [if_pos ⟨by omega, by omega⟩, hidx k hk]
  · have h8 : ¬ (ZEBRA_EAN8 = ZEBRA_EAN13) := by decide
    simp only [right_first, right_slots, right_raw, if_neg h8] at hdiff ⊢
    obtain ⟨k0, hk1, hk2, hk3⟩ := hdiff
    have hidx : ∀ k, 4 ≤ k → k - 4 + 1 = k - 3 := by
      intro k hk
      omega
    rw [hidx k0 hk1] at hk3
    have hs := integrate_store_right8 H hH ean pass
    rw [if_pos (Or.inr ⟨by rw [hlab]; decide, k0, by omega, by omega, hk3⟩)] at hs
    generalize he : integrate_store H ean pass (ZEBRA_EAN8 ||| EAN_RIGHT) = e' at hs
    have el : e'.left = ZEBRA_NONE := by rw [hs]; rfl
    have er : e'.right = ZEBRA_EAN8 := by rw [hs]
    have ea : e'.addon = ZEBRA_NONE := by rw [hs]; rfl
    refine ⟨e', ?_, er, el, ea, ?_⟩
    · rw [← he]
      apply integrate_partial_of_finish
      rw [he]
      apply integrate_finish_partial
      rw [el, er]
      rfl
    · intro k hk hk'
      rw [hs]
      simp only []
      rw [if_pos ⟨by omega, by omega⟩, hidx k hk]

/-- C6: for every accumulator in which one half is labelled with symbology `S`
(`EAN13` or `EAN8`) and every incoming non-add-on partial of the same symbology
and the same side whose digits differ from the stored ones in at least one
position, `integrate_partial` ends with the other half's label and the add-on
label equal to `NONE`, the incoming side's label equal to `S`, that side's `buf`
slots equal to the incoming digits, and it returns `PARTIAL`. -/
theorem C6_partial_inconsistency (H : decoder_h) (hH : masks_ok H) (S : Nat)
    (hS : S = ZEBRA_EAN13 ∨ S = ZEBRA_EAN8) (side : Nat)
    (hside : side = EAN_LEFT ∨ side = EAN_RIGHT) (ean : ean_decoder_t) (pass : ean_pass_t)
    (hlab : half_label side ean = S)
    (hdiff : ∃ k, half_first side S ≤ k ∧ k < half_first side S + half_slots side S ∧
      ean.buf k ≠ ((pass.raw (half_raw side S k) &&& 0xf : Nat) : Int)) :
    ∃ e', integrate_partial H ean pass (S ||| side) = .ok (e', ZEBRA_PARTIAL) ∧
      half_label side e' = S ∧ other_label side e' = ZEBRA_NONE ∧ e'.addon = ZEBRA_NONE ∧
      ∀ k, half_first side S ≤ k → k < half_first side S + half_slots side S →
        e'.buf k = ((pass.raw (half_raw side S k) &&& 0xf : Nat) : Int) := by
  rcases hside with rfl | rfl
  · have hne : ¬ (EAN_LEFT = EAN_RIGHT) := by decide
    simp only [half_label, other_label, half_first, half_slots, half_raw, if_neg hne,
      Nat.zero_add, Nat.zero_le, true_and, true_implies] at hlab hdiff ⊢
    exact integrate_left_inconsistent H hH S hS ean pass hlab hdiff
  · simp only [half_label, other_label, half_first, half_slots, half_raw, if_true]
      at hlab hdiff ⊢
    exact integrate_right_inconsistent H hH S hS ean pass hlab hdiff

/-- Witness of C6: the accumulator holds 4006381333931 with both halves labelled
`EAN13` and an add-on label; the incoming right half ends in 2. -/
theorem C6_partial_inconsistency_witness :
    (masks_ok model_h ∧ (ZEBRA_EAN13 = ZEBRA_EAN13 ∨ ZEBRA_EAN13 = ZEBRA_EAN8) ∧
      (EAN_RIGHT = EAN_LEFT ∨ EAN_RIGHT = EAN_RIGHT) ∧
      half_label EAN_RIGHT (ean_of 13 13 0x20 sample_ean13) = ZEBRA_EAN13 ∧
      ∃ k, half_first EAN_RIGHT ZEBRA_EAN13 ≤ k ∧
        k < half_first EAN_RIGHT ZEBRA_EAN13 + half_slots EAN_RIGHT ZEBRA_EAN13 ∧
        (ean_of 13 13 0x20 sample_ean13).buf k
          ≠ ((sample_right13_wrong.raw (half_raw EAN_RIGHT ZEBRA_EAN13 k) &&& 0xf : Nat) : Int)) ∧
    ∃ e', integrate_partial model_h (ean_of 13 13 0x20 sample_ean13) sample_right13_wrong
        (ZEBRA_EAN13 ||| EAN_RIGHT) = .ok (e', ZEBRA_PARTIAL) ∧
      half_label EAN_RIGHT e' = ZEBRA_EAN13 ∧ other_label EAN_RIGHT e' = ZEBRA_NONE ∧
      e'.addon = ZEBRA_NONE ∧
      ∀ k, half_first EAN_RIGHT ZEBRA_EAN13 ≤ k →
        k < half_first EAN_RIGHT ZEBRA_EAN13 + half_slots EAN_RIGHT ZEBRA_EAN13 →
        e'.buf k
          = ((sample_right13_wrong.raw (half_raw EAN_RIGHT ZEBRA_EAN13 k) &&& 0xf : Nat) : Int) :=
  ⟨⟨by decide, by decide, by decide, by decide, 12, by decide, by decide, by decide⟩,
   C6_partial_inconsistency model_h (by decide) ZEBRA_EAN13 (by decide) EAN_RIGHT (by decide)
     (ean_of 13 13 0x20 sample_ean13) sample_right13_wrong (by decide)
     ⟨12, by decide, by decide, by decide⟩⟩

theorem integrate_store_left13_labels (H : decoder_h) (hH : masks_ok H)
    (ean : ean_decoder_t) (pass : ean_pass_t) :
    (integrate_store H ean pass (ZEBRA_EAN13 ||| EAN_LEFT)).left = ZEBRA_EAN13 ∧
    ((integrate_store H ean pass (ZEBRA_EAN13 ||| EAN_LEFT)).right = 0 ∨
      (integrate_store H ean pass (ZEBRA_EAN13 ||| EAN_LEFT)).right = ZEBRA_EAN13) := by
  have hs := integrate_store_left13 H hH ean pass
  generalize integrate_store H ean pass (ZEBRA_EAN13 ||| EAN_LEFT) = e' at hs
  split_ifs at hs with hc
  · refine ⟨by rw [hs], Or.inl ?_⟩
    rw [hs]
    rfl
  · refine ⟨by rw [hs], ?_⟩
    have hx : ¬ (ean.right ≠ 0 ∧ ZEBRA_EAN13 ≠ ean.right) := fun h => hc (Or.inl (Or.inr h))
    have ho : e'.right = ean.right := by rw [hs]
    rw [ho]
    by_cases h0 : ean.right = 0
    · exact Or.inl h0
    · right
      by_contra hne
      exact hx ⟨h0, fun h => hne h.symm⟩

theorem integrate_store_left8_labels (H : decoder_h) (hH : masks_ok H)
    (ean : ean_decoder_t) (pass : ean_pass_t) :
    (integrate_store H ean pass (ZEBRA_EAN8 ||| EAN_LEFT)).left = ZEBRA_EAN8 ∧
    ((integrate_store H ean pass (ZEBRA_EAN8 ||| EAN_LEFT)).right = 0 ∨
      (integrate_store H ean pass (ZEBRA_EAN8 ||| EAN_LEFT)).right = ZEBRA_EAN8) := by
  have hs := integrate_store_left8 H hH ean pass
  generalize integrate_store H ean pass (ZEBRA_EAN8 ||| EAN_LEFT) = e' at hs
  split_ifs at hs with hc
  · refine ⟨by rw [hs], Or.inl ?_⟩
    rw [hs]
    rfl
  · refine ⟨by rw [hs], ?_⟩
    have hx : ¬ (ean.right ≠ 0 ∧ ZEBRA_EAN8 ≠ ean.right) := fun h => hc (Or.inl (Or.inr h))
    have ho : e'.right = ean.right := by rw [hs]
    rw [ho]
    by_cases h0 : ean.right = 0
    · exact Or.inl h0
    · right
      by_contra hne
      exact hx ⟨h0, fun h => hne h.symm⟩

theorem integrate_store_right13_labels (H : decoder_h) (hH : masks_ok H)
    (ean : ean_decoder_t) (pass : ean_pass_t) :
    (integrate_store H ean pass (ZEBRA_EAN13 ||| EAN_RIGHT)).right = ZEBRA_EAN13 ∧
    ((integrate_store H ean pass (ZEBRA_EAN13 ||| EAN_RIGHT)).left = 0 ∨
      (integrate_store H ean pass (ZEBRA_EAN13 ||| EAN_RIGHT)).left = ZEBRA_EAN13) := by
  have hs := integrate_store_right13 H hH ean pass
  generalize integrate_store H ean pass (ZEBRA_EAN13 ||| EAN_RIGHT) = e' at hs
  split_ifs at hs with hc
  · refine ⟨by rw [hs], Or.inl ?_⟩
    rw [hs]
    rfl
  · refine ⟨by rw [hs], ?_⟩
    have hx : ¬ (ean.left ≠ 0 ∧ ZEBRA_EAN13 ≠ ean.left) := fun h => hc (Or.inl (Or.inl h))
    have ho : e'.left = ean.left := by rw [hs]
    rw [ho]
    by_cases h0 : ean.left = 0
    · exact Or.inl h0
    · right
      by_contra hne
      exact hx ⟨h0, fun h => hne h.symm⟩

theorem integrate_store_right8_labels (H : decoder_h) (hH : masks_ok H)
    (ean : ean_decoder_t) (pass : ean_pass_t) :
    (integrate_store H ean pass (ZEBRA_EAN8 ||| EAN_RIGHT)).right = ZEBRA_EAN8 ∧
    ((integrate_store H ean pass (ZEBRA_EAN8 ||| EAN_RIGHT)).left = 0 ∨
      (integrate_store H ean pass (ZEBRA_EAN8 ||| EAN_RIGHT)).left = ZEBRA_EAN8) := by
  have hs := integrate_store_right8 H hH ean pass
  generalize integrate_store H ean pass (ZEBRA_EAN8 ||| EAN_RIGHT) = e' at hs
  split_ifs at hs with hc
  · refine ⟨by rw [hs], Or.inl ?_⟩
    rw [hs]
    rfl
  · refine ⟨by rw [hs], ?_⟩
    have hx : ¬ (ean.left ≠ 0 ∧ ZEBRA_EAN8 ≠ ean.left) := fun h => hc (Or.inl (Or.inl h))
    have ho : e'.left = ean.left := by rw [hs]
    rw [ho]
    by_cases h0 : ean.left = 0
    · exact Or.inl h0
    · right
      by_contra hne
      exact hx ⟨h0, fun h => hne h.symm⟩

theorem integrate_partial_ok (H : decoder_h) (ean : ean_decoder_t) (pass : ean_pass_t)
    (part : Nat) (e' : ean_decoder_t) (sym : Nat)
    (h : integrate_partial H ean pass part = .ok (e', sym)) :
    e' = integrate_store H ean pass part ∧
      integrate_finish (integrate_store H ean pass part) = .ok sym := by
  unfold integrate_partial at h
  simp only [] at h
  split at h
  · exact absurd h (by simp)
  · rename_i s hs
    simp only [Except.ok.injEq, Prod.mk.injEq] at h
    exact ⟨h.1.symm, by rw [hs, h.2]⟩

theorem integrate_store_labels (H : decoder_h) (hH : masks_ok H) (S : Nat)
    (hS : S = ZEBRA_EAN13 ∨ S = ZEBRA_EAN8) (side : Nat)
    (hside : side = EAN_LEFT ∨ side = EAN_RIGHT) (ean : ean_decoder_t) (pass : ean_pass_t) :
    half_label side (integrate_store H ean pass (S ||| side)) = S ∧
    (other_label side (integrate_store H ean pass (S ||| side)) = 0 ∨
      other_label side (integrate_store H ean pass (S ||| side)) = S) := by
  have hne : ¬ (EAN_LEFT = EAN_RIGHT) := by decide
  rcases hside with rfl | rfl <;> rcases hS with rfl | rfl
  · simp only [half_label, other_label, if_neg hne]
    exact integrate_store_left13_labels H hH ean pass
  · simp only [half_label, other_label, if_neg hne]
    exact integrate_store_left8_labels H hH ean pass
  · simp only [half_label, other_label, if_true]
    exact integrate_store_right13_labels H hH ean pass
  · simp only [half_label, other_label, if_true]
    exact integrate_store_right8_labels H hH ean pass

theorem labels_consistent_of_halves (S : Nat) (hS : S = ZEBRA_EAN13 ∨ S = ZEBRA_EAN8)
    (side : Nat) (hside : side = EAN_LEFT ∨ side = EAN_RIGHT) (e : ean_decoder_t)
    (h1 : half_label side e = S) (h2 : other_label side e = 0 ∨ other_label side e = S) :
    labels_consistent e ∧
    (e.left &&& e.right = ZEBRA_NONE ∨ e.left &&& e.right = ZEBRA_EAN8 ∨
      e.left &&& e.right = ZEBRA_EAN13) ∧
    (e.left &&& e.right ≠ ZEBRA_NONE → e.left = S ∧ e.right = S) := by
  have hne : ¬ (EAN_LEFT = EAN_RIGHT) := by decide
  rcases hside with rfl | rfl
  · simp only [half_label, other_label, if_neg hne] at h1 h2
    rcases h2 with h2 | h2 <;> rcases hS with rfl | rfl <;>
      simp [labels_consistent, h1, h2, ZEBRA_NONE, ZEBRA_EAN8, ZEBRA_EAN13]
  · simp only [half_label, other_label, if_true] at h1 h2
    rcases h2 with h2 | h2 <;> rcases hS with rfl | rfl <;>
      simp [labels_consistent, h1, h2, ZEBRA_NONE, ZEBRA_EAN8, ZEBRA_EAN13]

/-- C9: for every accumulator in which `left` and `right` are each `NONE`,
`EAN8` or `EAN13` and are equal whenever both are not `NONE`, and every
non-add-on partial a pass can produce (`EAN8` or `EAN13` with `EAN_LEFT` or
`EAN_RIGHT`), the accumulator `integrate_partial` leaves satisfies the same
predicate; the completion tag `left & right` it computes is `NONE`, `EAN8` or
`EAN13`, and when it is not `NONE` both labels are equal to it. -/
theorem C9_label_consistency (H : decoder_h) (hH : masks_ok H) (S : Nat)
    (hS : S = ZEBRA_EAN13 ∨ S = ZEBRA_EAN8) (side : Nat)
    (hside : side = EAN_LEFT ∨ side = EAN_RIGHT) (ean : ean_decoder_t)
    (_hc : labels_consistent ean) (pass : ean_pass_t) :
    labels_consistent (integrate_store H ean pass (S ||| side)) ∧
    (∀ e' sym, integrate_partial H ean pass (S ||| side) = .ok (e', sym) →
      labels_consistent e' ∧
      (e'.left &&& e'.right = ZEBRA_NONE ∨ e'.left &&& e'.right = ZEBRA_EAN8 ∨
        e'.left &&& e'.right = ZEBRA_EAN13) ∧
      (e'.left &&& e'.right ≠ ZEBRA_NONE → e'.left = e'.right)) ∧
    ((integrate_store H ean pass (S ||| side)).left &&&
        (integrate_store H ean pass (S ||| side)).right = ZEBRA_NONE ∨
      (integrate_store H ean pass (S ||| side)).left &&&
        (integrate_store H ean pass (S ||| side)).right = ZEBRA_EAN8 ∨
      (integrate_store H ean pass (S ||| side)).left &&&
        (integrate_store H ean pass (S ||| side)).right = ZEBRA_EAN13) ∧
    ((integrate_store H ean pass (S ||| side)).left &&&
        (integrate_store H ean pass (S ||| side)).right ≠ ZEBRA_NONE →
      (integrate_store H ean pass (S ||| side)).left
        = (integrate_store H ean pass (S ||| side)).right) := by
  obtain ⟨h1, h2⟩ := integrate_store_labels H hH S hS side hside ean pass
  obtain ⟨hc, ht, he⟩ := labels_consistent_of_halves S hS side hside _ h1 h2
  refine ⟨hc, ?_, ht, fun h => by rw [(he h).1, (he h).2]⟩
  intro e' sym hr
  rw [(integrate_partial_ok H ean pass _ e' sym hr).1]
  exact ⟨hc, ht, fun h => by rw [(he h).1, (he h).2]⟩

/-- Witness of C9: an accumulator labelled `EAN8` on both sides receives the
right half of an EAN-13 symbol. -/
theorem C9_label_consistency_witness :
    (masks_ok model_h ∧ (ZEBRA_EAN13 = ZEBRA_EAN13 ∨ ZEBRA_EAN13 = ZEBRA_EAN8) ∧
      (EAN_RIGHT = EAN_LEFT ∨ EAN_RIGHT = EAN_RIGHT) ∧
      labels_consistent (ean_of 8 8 0 sample_ean8)) ∧
    (labels_consistent
        (integrate_store model_h (ean_of 8 8 0 sample_ean8) sample_right13
          (ZEBRA_EAN13 ||| EAN_RIGHT)) ∧
      (∀ e' sym, integrate_partial model_h (ean_of 8 8 0 sample_ean8) sample_right13
          (ZEBRA_EAN13 ||| EAN_RIGHT) = .ok (e', sym) →
        labels_consistent e' ∧
        (e'.left &&& e'.right = ZEBRA_NONE ∨ e'.left &&& e'.right = ZEBRA_EAN8 ∨
          e'.left &&& e'.right = ZEBRA_EAN13) ∧
        (e'.left &&& e'.right ≠ ZEBRA_NONE → e'.left = e'.right)) ∧
      ((integrate_store model_h (ean_of 8 8 0 sample_ean8) sample_right13
            (ZEBRA_EAN13 ||| EAN_RIGHT)).left &&&
          (integrate_store model_h (ean_of 8 8 0 sample_ean8) sample_right13
            (ZEBRA_EAN13 ||| EAN_RIGHT)).right = ZEBRA_NONE ∨
        (integrate_store model_h (ean_of 8 8 0 sample_ean8) sample_right13
            (ZEBRA_EAN13 ||| EAN_RIGHT)).left &&&
          (integrate_store model_h (ean_of 8 8 0 sample_ean8) sample_right13
            (ZEBRA_EAN13 ||| EAN_RIGHT)).right = ZEBRA_EAN8 ∨
        (integrate_store model_h (ean_of 8 8 0 sample_ean8) sample_right13
            (ZEBRA_EAN13 ||| EAN_RIGHT)).left &&&
          (integrate_store model_h (ean_of 8 8 0 sample_ean8) sample_right13
            (ZEBRA_EAN13 ||| EAN_RIGHT)).right = ZEBRA_EAN13) ∧
      ((integrate_store model_h (ean_of 8 8 0 sample_ean8) sample_right13
            (ZEBRA_EAN13 ||| EAN_RIGHT)).left &&&
          (integrate_store model_h (ean_of 8 8 0 sample_ean8) sample_right13
            (ZEBRA_EAN13 ||| EAN_RIGHT)).right ≠ ZEBRA_NONE →
        (integrate_store model_h (ean_of 8 8 0 sample_ean8) sample_right13
            (ZEBRA_EAN13 ||| EAN_RIGHT)).left
          = (integrate_store model_h (ean_of 8 8 0 sample_ean8) sample_right13
            (ZEBRA_EAN13 ||| EAN_RIGHT)).right)) :=
  ⟨⟨by decide, by decide, by decide, by decide⟩,
   C9_label_consistency model_h (by decide) ZEBRA_EAN13 (by decide) EAN_RIGHT (by decide)
     (ean_of 8 8 0 sample_ean8) (by decide) sample_right13⟩

theorem digits_low_nibble (c : Nat) : digits.getD c 0 &&& 0xf ≤ 9 := by
  by_cases h : c < 20
  · interval_cases c <;> decide
  · have : digits.length ≤ c := by
      have : digits.length = 20 := rfl
      omega
    rw [List.getD_eq_default _ _ this]
    decide

theorem parity_decode_nibble (par : Nat) (hp : par < 64) :
    (if par &&& 1 ≠ 0 then parity_decode.getD (par >>> 1) 0 >>> 4
      else parity_decode.getD (par >>> 1) 0) &&& 0xf = 0xf ∨
    (if par &&& 1 ≠ 0 then parity_decode.getD (par >>> 1) 0 >>> 4
      else parity_decode.getD (par >>> 1) 0) &&& 0xf ≤ 9 := by
  interval_cases par <;> decide

theorem ean_part_end4_spec (pass : ean_pass_t) (rev : Nat) :
    (raw_ok pass → raw_ok (ean_part_end4 pass rev).1) ∧
    (ean_part_end4 pass rev).1.state = pass.state ∧
    ((ean_part_end4 pass rev).2 = 0 ∨ (ean_part_end4 pass rev).2 = ZEBRA_EAN8 ||| EAN_LEFT ∨
      (ean_part_end4 pass rev).2 = ZEBRA_EAN8 ||| EAN_RIGHT) := by
  unfold ean_part_end4
  simp only []
  split_ifs <;> refine ⟨fun h => ?_, ?_, ?_⟩ <;> first
    | exact h
    | rfl
    | exact Or.inl rfl
    | exact Or.inr (Or.inl rfl)
    | exact Or.inr (Or.inr rfl)
    | skip
  all_goals
    intro i h1 h6
    simp only [store_apply]
    split_ifs <;> exact h _ (by omega) (by omega)

theorem and_0x10_cases (x : Nat) : x &&& 0x10 = 0 ∨ x &&& 0x10 = 16 := by
  have h := Nat.and_two_pow x 4
  rw [show (2 : Nat) ^ 4 = 0x10 by norm_num] at h
  rw [h]
  cases x.testBit 4 <;> simp

theorem ean_part_end7_par_lt (pass : ean_pass_t) (rev : Nat) : ean_part_end7_par pass rev < 64 := by
  unfold ean_part_end7_par
  rcases and_0x10_cases (pass.raw 1) with h1 | h1 <;>
  rcases and_0x10_cases (pass.raw 2) with h2 | h2 <;>
  rcases and_0x10_cases (pass.raw 3) with h3 | h3 <;>
  rcases and_0x10_cases (pass.raw 4) with h4 | h4 <;>
  rcases and_0x10_cases (pass.raw 5) with h5 | h5 <;>
  rcases and_0x10_cases (pass.raw 6) with h6 | h6 <;>
  rw [h1, h2, h3, h4, h5, h6] <;> split_ifs <;> decide

theorem ean_part_end7_reverse_apply (raw : Nat → Nat) (k : Nat) :
    ean_part_end7_reverse 3 1 raw k = if 1 ≤ k ∧ k ≤ 6 then raw (7 - k) else raw k := by
  simp only [ean_part_end7_reverse, store_apply]
  by_cases h : 1 ≤ k ∧ k ≤ 6
  · obtain ⟨h1, h6⟩ := h
    interval_cases k <;> simp
  · rw [if_neg h]
    have h1 : ¬ k = 1 := by omega
    have h2 : ¬ k = 2 := by omega
    have h3 : ¬ k = 3 := by omega
    have h4 : ¬ k = 4 := by omega
    have h5 : ¬ k = 5 := by omega
    have h6 : ¬ k = 6 := by omega
    simp [h1, h2, h3, h4, h5, h6]

theorem ean_part_end7_spec (pass : ean_pass_t) (rev : Nat) :
    (raw_ok pass → raw_ok (ean_part_end7 pass rev).1) ∧
    (ean_part_end7 pass rev).1.state = pass.state ∧
    ((ean_part_end7 pass rev).2 = 0 ∨
      (((ean_part_end7 pass rev).2 = ZEBRA_EAN13 ||| EAN_LEFT ∨
          (ean_part_end7 pass rev).2 = ZEBRA_EAN13 ||| EAN_RIGHT) ∧
        (ean_part_end7 pass rev).1.raw 0 &&& 0xf ≤ 9)) := by
  have hn := parity_decode_nibble (ean_part_end7_par pass rev) (ean_part_end7_par_lt pass rev)
  unfold ean_part_end7
  simp only []
  generalize ean_part_end7_par pass rev = par at hn
  generalize hr0 : ((if par &&& 1 ≠ 0 then parity_decode.getD (par >>> 1) 0 >>> 4
      else parity_decode.getD (par >>> 1) 0) &&& 0xf) = r0 at hn
  have hr0' : r0 &&& 0xf = r0 := by
    rw [← hr0, Nat.and_assoc, show (0xf &&& 0xf : Nat) = 0xf from rfl]
  have hst : raw_ok pass → raw_ok { pass with raw := store pass.raw 0 r0 } := by
    intro h i h1 h6
    simp only [store_apply]
    rw [if_neg (by omega)]
    exact h i h1 h6
  have hrev : raw_ok pass →
      raw_ok { pass with raw := ean_part_end7_reverse 3 1 (store pass.raw 0 r0) } := by
    intro h i h1 h6
    simp only [ean_part_end7_reverse_apply]
    rw [if_pos ⟨h1, h6⟩]
    exact hst h (7 - i) (by omega) (by omega)
  have h0rev : ean_part_end7_reverse 3 1 (store pass.raw 0 r0) 0 = r0 := by
    rw [ean_part_end7_reverse_apply, if_neg (by omega), store_apply, if_pos rfl]
  have h0st : store pass.raw 0 r0 0 = r0 := by
    rw [store_apply, if_pos rfl]
  by_cases hf : r0 = 0xf
  · rw [if_pos hf]
    exact ⟨hst, rfl, Or.inl rfl⟩
  · rw [if_neg hf]
    have h9 : r0 ≤ 9 := by
      rcases hn with hn | hn
      · exact absurd hn hf
      · exact hn
    split_ifs
    all_goals first
      | exact ⟨hrev, rfl, Or.inr ⟨Or.inr rfl, by simp only [h0rev, hr0']; exact h9⟩⟩
      | exact ⟨hrev, rfl, Or.inr ⟨Or.inl rfl, by simp only [h0rev, hr0']; exact h9⟩⟩
      | exact ⟨hst, rfl, Or.inr ⟨Or.inr rfl, by simp only [h0st, hr0']; exact h9⟩⟩
      | exact ⟨hst, rfl, Or.inr ⟨Or.inl rfl, by simp only [h0st, hr0']; exact h9⟩⟩
      | exact ⟨hrev, rfl, Or.inl rfl⟩
      | exact ⟨hst, rfl, Or.inl rfl⟩

theorem decode4_cases (H : decoder_h) (dcode : zebra_decoder_t) :
    decode4 H dcode = .error fault.assert_decode4 ∨ decode4 H dcode = .ok (-1) ∨
    ∃ c : Nat, c < 0x14 ∧ decode4 H dcode = .ok (c : Int) := by
  unfold decode4
  simp only []
  split_ifs <;> first
    | exact Or.inr (Or.inl rfl)
    | exact Or.inl rfl
    | exact Or.inr (Or.inr ⟨_, by assumption, rfl⟩)

theorem decode_e_values (H : decoder_h) (hE : decode_e_ok H) (e s n : Nat) :
    H.decode_e e s n = -1 ∨ H.decode_e e s n = 0 ∨ H.decode_e e s n = 1 ∨
    H.decode_e e s n = 2 ∨ H.decode_e e s n = 3 := by
  rcases hE e s n with h | ⟨h0, h3⟩
  · exact Or.inl h
  · omega

theorem decode4_code_cases (a b : Int)
    (ha : a = -1 ∨ a = 0 ∨ a = 1 ∨ a = 2 ∨ a = 3) (hb : b = -1 ∨ b = 0 ∨ b = 1 ∨ b = 2 ∨ b = 3) :
    s8 (w32 (u32 a <<< 2) ||| u32 b) < 0 ∨
    ∃ c : Nat, c < 16 ∧ s8 (w32 (u32 a <<< 2) ||| u32 b) = (c : Int) := by
  rcases ha with rfl | rfl | rfl | rfl | rfl <;> rcases hb with rfl | rfl | rfl | rfl | rfl <;>
    first
    | exact Or.inl (by decide)
    | exact Or.inr ⟨0, by decide, by decide⟩
    | exact Or.inr ⟨1, by decide, by decide⟩
    | exact Or.inr ⟨2, by decide, by decide⟩
    | exact Or.inr ⟨3, by decide, by decide⟩
    | exact Or.inr ⟨4, by decide, by decide⟩
    | exact Or.inr ⟨5, by decide, by decide⟩
    | exact Or.inr ⟨6, by decide, by decide⟩
    | exact Or.inr ⟨7, by decide, by decide⟩
    | exact Or.inr ⟨8, by decide, by decide⟩
    | exact Or.inr ⟨9, by decide, by decide⟩
    | exact Or.inr ⟨10, by decide, by decide⟩
    | exact Or.inr ⟨11, by decide, by decide⟩
    | exact Or.inr ⟨12, by decide, by decide⟩
    | exact Or.inr ⟨13, by decide, by decide⟩
    | exact Or.inr ⟨14, by decide, by decide⟩
    | exact Or.inr ⟨15, by decide, by decide⟩

theorem alt_code_lt (c : Nat) : ((c >>> 1) &&& 3) ||| 0x10 < 0x14 := by
  have h : (c >>> 1) &&& 3 ≤ 3 := Nat.and_le_right
  generalize (c >>> 1) &&& 3 = x at h
  interval_cases x <;> decide

theorem decode4_total (H : decoder_h) (hE : decode_e_ok H) (dcode : zebra_decoder_t) :
    decode4 H dcode ≠ .error fault.assert_decode4 := by
  unfold decode4
  simp only []
  generalize (if decide (get_color dcode = zebra_color_t.ZEBRA_BAR) = true
    then w32 (get_width dcode 0 + get_width dcode 1)
    else w32 (get_width dcode 2 + get_width dcode 3)) = e1
  generalize w32 (get_width dcode 1 + get_width dcode 2) = e2
  rcases decode4_code_cases _ _ (decode_e_values H hE e1 dcode.ean.s4 7)
    (decode_e_values H hE e2 dcode.ean.s4 7) with hneg | ⟨c, hc, hcode⟩
  · rw [if_pos hneg]
    simp
  · rw [hcode, if_neg (by omega), Int.toNat_ofNat]
    have halt := alt_code_lt c
    split_ifs <;> first | omega | simp
theorem decode_pass_end7_spec (H : decoder_h) (dcode : zebra_decoder_t) (pass : ean_pass_t)
    (idx rev : Nat) :
    pass_post pass (decode_pass_end7 H dcode pass idx rev) ∧
    (idx ≤ 0x14 → decode_pass_end7 H dcode pass idx rev = (pass, 0)) := by
  unfold decode_pass_end7
  by_cases hc : get_color dcode = zebra_color_t.ZEBRA_BAR ∧ (idx = 0x18 ∨ idx = 0x17)
  · rw [if_pos hc]
    simp only []
    by_cases ha : aux_end H dcode (if rev ≠ 0 then 3 else 4) = 0
    · rw [if_pos ha]
      obtain ⟨h1, _, h3⟩ := ean_part_end7_spec pass rev
      refine ⟨⟨h1, ?_, fun _ => rfl⟩, fun hi => by omega⟩
      rcases h3 with h3 | ⟨h3, h4⟩
      · exact Or.inl h3
      · refine Or.inr ⟨?_, fun _ => h4⟩
        rcases h3 with h3 | h3
        · exact Or.inr (Or.inr (Or.inl h3))
        · exact Or.inr (Or.inr (Or.inr h3))
    · rw [if_neg ha]
      exact ⟨⟨fun h => h, Or.inl rfl, fun _ => rfl⟩, fun hi => by omega⟩
  · rw [if_neg hc]
    exact ⟨⟨fun h => h, Or.inl rfl, fun h0 => absurd rfl h0⟩, fun _ => rfl⟩

theorem pass_post_of_eq (p0 p1 : ean_pass_t) (r : ean_pass_t × Nat)
    (h : raw_ok p0 → raw_ok p1) (hp : pass_post p1 r) : pass_post p0 r :=
  ⟨fun h0 => hp.1 (h h0), hp.2.1, hp.2.2⟩

theorem decode_pass_char_spec (H : decoder_h) (dcode : zebra_decoder_t) (pass : ean_pass_t)
    (idx rev : Nat) (r : ean_pass_t × Nat)
    (hr : decode_pass_char H dcode pass idx rev = .ok r) :
    pass_post pass r ∧ (idx ≤ 0x14 → r.2 = 0 ∧ (r.1.state = pass.state ∨ r.1.state = -1)) := by
  unfold decode_pass_char at hr
  split at hr
  · exact absurd hr (by simp)
  · rename_i code hcode
    split_ifs at hr with hneg hb
    · simp only [Except.ok.injEq] at hr
      subst hr
      obtain ⟨hp, he⟩ := decode_pass_end7_spec H dcode { pass with state := -1 } idx rev
      refine ⟨pass_post_of_eq pass _ _ (fun h => h) hp, fun hi => ?_⟩
      rw [he hi]
      exact ⟨rfl, Or.inr rfl⟩
    · simp only [Except.ok.injEq] at hr
      subst hr
      have h' : raw_ok pass → raw_ok { pass with
          raw := store pass.raw ((idx >>> 2) + 1) (digits.getD (u8 code) 0) } := by
        intro h i h1 h6
        simp only [store_apply]
        split_ifs
        · exact digits_low_nibble _
        · exact h i h1 h6
      obtain ⟨hp, he⟩ := decode_pass_end7_spec H dcode
        { pass with raw := store pass.raw ((idx >>> 2) + 1) (digits.getD (u8 code) 0) } idx rev
      refine ⟨pass_post_of_eq pass _ _ h' hp, fun hi => ?_⟩
      rw [he hi]
      exact ⟨rfl, Or.inl rfl⟩

theorem decode_pass_char_fault (H : decoder_h) (dcode : zebra_decoder_t) (pass : ean_pass_t)
    (idx rev : Nat) :
    decode_pass_char H dcode pass idx rev ≠ .error fault.assert_check_parity ∧
    (decode_e_ok H → idx ≤ 0x14 → ∃ r, decode_pass_char H dcode pass idx rev = .ok r) := by
  unfold decode_pass_char
  rcases decode4_cases H dcode with h4 | h4 | ⟨c, hc, h4⟩
  · rw [h4]
    refine ⟨by simp, fun hE _ => absurd h4 (decode4_total H hE dcode)⟩
  · rw [h4]
    simp
  · rw [h4]
    simp only []
    rw [if_neg (by omega)]
    split_ifs with hb
    · simp
    · refine ⟨by simp, fun _ hi => ?_⟩
      exfalso
      apply hb
      have : idx >>> 2 ≤ 5 := by
        rw [Nat.shiftRight_eq_div_pow]
        omega
      omega
theorem decode_pass_spec (H : decoder_h) (dcode : zebra_decoder_t) (pass : ean_pass_t)
    (r : ean_pass_t × Nat) (hr : decode_pass H dcode pass = .ok r) :
    pass_post pass r := by
  unfold decode_pass at hr
  simp only [] at hr
  generalize aux_end H dcode (if (u32 (s8 (u8 (pass.state + 1))) &&& 1) % 256 ≠ 0 then 3 else 4)
    = ae at hr
  split_ifs at hr with h1 h2 h3 h4 h5
  · simp only [Except.ok.injEq] at hr
    subst hr
    obtain ⟨ha, _, hc⟩ := ean_part_end4_spec { pass with state := s8 (u8 (pass.state + 1)) }
      ((u32 (s8 (u8 (pass.state + 1))) &&& 1) % 256)
    refine ⟨ha, ?_, fun _ => rfl⟩
    rcases hc with hc | hc | hc
    · exact Or.inl hc
    · exact Or.inr ⟨Or.inl hc, fun h13 => by rw [hc] at h13; exact absurd h13 (by decide)⟩
    · exact Or.inr ⟨Or.inr (Or.inl hc), fun h13 => by rw [hc] at h13; exact absurd h13 (by decide)⟩
  · simp only [Except.ok.injEq] at hr
    subst hr
    exact ⟨fun h => h, Or.inl rfl, fun h0 => absurd rfl h0⟩
  · simp only [Except.ok.injEq] at hr
    subst hr
    exact ⟨fun h => h, Or.inl rfl, fun h0 => absurd rfl h0⟩
  · exact pass_post_of_eq pass _ _ (fun h => h) (decode_pass_char_spec H dcode _ _ _ r hr).1
  · exact pass_post_of_eq pass _ _ (fun h => h) (decode_pass_char_spec H dcode _ _ _ r hr).1
  · simp only [Except.ok.injEq] at hr
    subst hr
    exact pass_post_of_eq pass { pass with state := s8 (u8 (pass.state + 1)) } _ (fun h => h)
      (decode_pass_end7_spec H dcode _ _ _).1

theorem state_idx_zero (H : decoder_h) : state_idx H 0 = 0 := by
  unfold state_idx
  rw [show u32 0 = 0 from rfl, Nat.zero_and]

theorem aux_start_cases (H : decoder_h) (dcode : zebra_decoder_t) :
    aux_start H dcode = -1 ∨ aux_start H dcode = 0 ∨ aux_start H dcode = s8 (u8 H.STATE_ADDON) := by
  unfold aux_start
  simp only []
  split_ifs <;> simp

theorem aux_start_idx (H : decoder_h) (hK : state_consts_ok H) (dcode : zebra_decoder_t)
    (h : ¬ aux_start H dcode < 0) : state_idx H (aux_start H dcode) ≤ 0x14 := by
  rcases aux_start_cases H dcode with ha | ha | ha
  · exact absurd (by rw [ha]; decide) h
  · rw [ha, state_idx_zero]
    omega
  · rw [ha]
    exact hK

theorem decode_pass_idle (H : decoder_h) (hK : state_consts_ok H) (dcode : zebra_decoder_t)
    (pass : ean_pass_t) (hst : pass.state = -1) (r : ean_pass_t × Nat)
    (hr : decode_pass H dcode pass = .ok r) :
    r.2 = 0 ∧ (r.1.state = -1 ∨ r.1.state = 0 ∨ r.1.state = s8 (u8 H.STATE_ADDON)) := by
  unfold decode_pass at hr
  simp only [hst, show s8 (u8 (-1 + 1)) = 0 by decide, state_idx_zero,
    show (u32 0 &&& 1) % 256 = 0 by decide] at hr
  generalize aux_end H dcode (if (0 : Nat) ≠ 0 then 3 else 4) = ae at hr
  rw [if_neg (by omega), if_pos (by decide)] at hr
  split_ifs at hr with h3 h5
  · simp only [Except.ok.injEq] at hr
    subst hr
    exact ⟨rfl, Or.inr (Or.inl rfl)⟩
  · simp only [Except.ok.injEq] at hr
    subst hr
    exact ⟨rfl, aux_start_cases H dcode⟩
  · obtain ⟨h0, hs⟩ := (decode_pass_char_spec H dcode _ _ _ r hr).2 (aux_start_idx H hK dcode h5)
    refine ⟨h0, ?_⟩
    rcases hs with hs | hs
    · rw [hs]
      exact aux_start_cases H dcode
    · exact Or.inl hs

theorem decode_pass_fault (H : decoder_h) (dcode : zebra_decoder_t) (pass : ean_pass_t) :
    decode_pass H dcode pass ≠ .error fault.assert_check_parity ∧
    (decode_e_ok H → state_consts_ok H → ∃ r, decode_pass H dcode pass = .ok r) := by
  unfold decode_pass
  simp only []
  generalize aux_end H dcode (if (u32 (s8 (u8 (pass.state + 1))) &&& 1) % 256 ≠ 0 then 3 else 4)
    = ae
  split_ifs with h1 h2 h3 h4 h5
  · exact ⟨by simp, fun _ _ => ⟨_, rfl⟩⟩
  · exact ⟨by simp, fun _ _ => ⟨_, rfl⟩⟩
  · exact ⟨by simp, fun _ _ => ⟨_, rfl⟩⟩
  · exact ⟨(decode_pass_char_fault H dcode _ _ _).1,
      fun hE hK => (decode_pass_char_fault H dcode _ _ _).2 hE (aux_start_idx H hK dcode h5)⟩
  · exact ⟨(decode_pass_char_fault H dcode _ _ _).1,
      fun hE _ => (decode_pass_char_fault H dcode _ _ _).2 hE h2.2⟩
  · exact ⟨by simp, fun _ _ => ⟨_, rfl⟩⟩

theorem nibble_digit (x : Nat) (h : x &&& 0xf ≤ 9) :
    0 ≤ ((x &&& 0xf : Nat) : Int) ∧ ((x &&& 0xf : Nat) : Int) ≤ 9 := by
  omega

theorem integrate_store_left13_inv (H : decoder_h) (hH : masks_ok H) (ean : ean_decoder_t)
    (pass : ean_pass_t) (hb : buf_inv ean) (hh : half_inv ean) (hraw : raw_ok pass)
    (h0 : pass.raw 0 &&& 0xf ≤ 9) :
    buf_inv (integrate_store H ean pass (ZEBRA_EAN13 ||| EAN_LEFT)) ∧
    half_inv (integrate_store H ean pass (ZEBRA_EAN13 ||| EAN_LEFT)) := by
  have hs := integrate_store_left13 H hH ean pass
  obtain ⟨hl, hr⟩ := integrate_store_left13_labels H hH ean pass
  generalize integrate_store H ean pass (ZEBRA_EAN13 ||| EAN_LEFT) = e' at hs hl hr
  have hbuf : ∀ k, e'.buf k
      = if k < 7 then ((pass.raw (k) &&& 0xf : Nat) : Int) else ean.buf k := by
    intro k
    rw [hs]
  have hdig : ∀ k < 7, 0 ≤ e'.buf k ∧ e'.buf k ≤ 9 := by
    intro k hk
    rw [hbuf, if_pos hk]
    apply nibble_digit
    by_cases hk0 : k = 0
    · rw [hk0]
      exact h0
    · exact hraw k (by omega) (by omega)
  refine ⟨?_, ?_, ?_⟩
  · intro i hi
    by_cases h7 : i < 7
    · exact Or.inr (hdig i h7)
    · rw [hbuf, if_neg h7]
      exact hb i hi
  · intro _ k hk
    rw [hl] at hk
    exact hdig k hk
  · intro hne k hk1 hk2
    have hrS : e'.right = ZEBRA_EAN13 := by
      rcases hr with hr | hr
      · exact absurd hr hne
      · exact hr
    rw [hrS] at hk1 hk2
    have hk7 : 7 ≤ k := hk1
    rw [hbuf, if_neg (by omega)]
    have her : e'.right = ean.right := by
      rw [hs]
      simp only []
      split_ifs with hc
      · exfalso
        apply hne
        rw [hs]
        simp only [if_pos hc]
        rfl
      · rfl
    exact hh.2 (by rw [← her]; exact hne) k (by rw [← her, hrS]; exact hk1)
      (by rw [← her, hrS]; exact hk2)

theorem integrate_store_left8_inv (H : decoder_h) (hH : masks_ok H) (ean : ean_decoder_t)
    (pass : ean_pass_t) (hb : buf_inv ean) (hh : half_inv ean) (hraw : raw_ok pass) :
    buf_inv (integrate_store H ean pass (ZEBRA_EAN8 ||| EAN_LEFT)) ∧
    half_inv (integrate_store H ean pass (ZEBRA_EAN8 ||| EAN_LEFT)) := by
  have hs := integrate_store_left8 H hH ean pass
  obtain ⟨hl, hr⟩ := integrate_store_left8_labels H hH ean pass
  generalize integrate_store H ean pass (ZEBRA_EAN8 ||| EAN_LEFT) = e' at hs hl hr
  have hbuf : ∀ k, e'.buf k
      = if k < 4 then ((pass.raw (k + 1) &&& 0xf : Nat) : Int) else ean.buf k := by
    intro k
    rw [hs]
  have hdig : ∀ k < 4, 0 ≤ e'.buf k ∧ e'.buf k ≤ 9 := by
    intro k hk
    rw [hbuf, if_pos hk]
    apply nibble_digit
    exact hraw (k + 1) (by omega) (by omega)
  refine ⟨?_, ?_, ?_⟩
  · intro i hi
    by_cases h7 : i < 4
    · exact Or.inr (hdig i h7)
    · rw [hbuf, if_neg h7]
      exact hb i hi
  · intro _ k hk
    rw [hl] at hk
    exact hdig k hk
  · intro hne k hk1 hk2
    have hrS : e'.right = ZEBRA_EAN8 := by
      rcases hr with hr | hr
      · exact absurd hr hne
      · exact hr
    rw [hrS] at hk1 hk2
    have hk7 : 4 ≤ k := hk1
    rw [hbuf, if_neg (by omega)]
    have her : e'.right = ean.right := by
      rw [hs]
      simp only []
      split_ifs with hc
      · exfalso
        apply hne
        rw [hs]
        simp only [if_pos hc]
        rfl
      · rfl
    exact hh.2 (by rw [← her]; exact hne) k (by rw [← her, hrS]; exact hk1)
      (by rw [← her, hrS]; exact hk2)

theorem integrate_store_right13_inv (H : decoder_h) (hH : masks_ok H) (ean : ean_decoder_t)
    (pass : ean_pass_t) (hb : buf_inv ean) (hh : half_inv ean) (hraw : raw_ok pass) :
    buf_inv (integrate_store H ean pass (ZEBRA_EAN13 ||| EAN_RIGHT)) ∧
    half_inv (integrate_store H ean pass (ZEBRA_EAN13 ||| EAN_RIGHT)) := by
  have hs := integrate_store_right13 H hH ean pass
  obtain ⟨hr, hl⟩ := integrate_store_right13_labels H hH ean pass
  generalize integrate_store H ean pass (ZEBRA_EAN13 ||| EAN_RIGHT) = e' at hs hl hr
  have hbuf : ∀ k, e'.buf k
      = if 6 < k ∧ k ≤ 12 then ((pass.raw (k - 6) &&& 0xf : Nat) : Int) else ean.buf k := by
    intro k
    rw [hs]
  have hdig : ∀ k, 6 < k → k ≤ 12 → 0 ≤ e'.buf k ∧ e'.buf k ≤ 9 := by
    intro k hk1 hk2
    rw [hbuf, if_pos ⟨hk1, hk2⟩]
    apply nibble_digit
    exact hraw (k - 6) (by omega) (by omega)
  refine ⟨?_, ?_, ?_⟩
  · intro i hi
    by_cases h7 : 6 < i ∧ i ≤ 12
    · exact Or.inr (hdig i h7.1 h7.2)
    · rw [hbuf, if_neg h7]
      exact hb i hi
  · intro hne k hk
    have hlS : e'.left = ZEBRA_EAN13 := by
      rcases hl with hl | hl
      · exact absurd hl hne
      · exact hl
    rw [hlS] at hk
    have hk7 : k < 7 := hk
    rw [hbuf, if_neg (by omega)]
    have hel : e'.left = ean.left := by
      rw [hs]
      simp only []
      split_ifs with hc
      · exfalso
        apply hne
        rw [hs]
        simp only [if_pos hc]
        rfl
      · rfl
    exact hh.1 (by rw [← hel]; exact hne) k (by rw [← hel, hlS]; exact hk)
  · intro _ k hk1 hk2
    rw [hr] at hk1 hk2
    have hk7 : 7 ≤ k := hk1
    have hk8 : k < 7 + 6 := hk2
    exact hdig k (by omega) (by omega)

theorem integrate_store_right8_inv (H : decoder_h) (hH : masks_ok H) (ean : ean_decoder_t)
    (pass : ean_pass_t) (hb : buf_inv ean) (hh : half_inv ean) (hraw : raw_ok pass) :
    buf_inv (integrate_store H ean pass (ZEBRA_EAN8 ||| EAN_RIGHT)) ∧
    half_inv (integrate_store H ean pass (ZEBRA_EAN8 ||| EAN_RIGHT)) := by
  have hs := integrate_store_right8 H hH ean pass
  obtain ⟨hr, hl⟩ := integrate_store_right8_labels H hH ean pass
  generalize integrate_store H ean pass (ZEBRA_EAN8 ||| EAN_RIGHT) = e' at hs hl hr
  have hbuf : ∀ k, e'.buf k
      = if 3 < k ∧ k ≤ 7 then ((pass.raw (k - 3) &&& 0xf : Nat) : Int) else ean.buf k := by
    intro k
    rw [hs]
  have hdig : ∀ k, 3 < k → k ≤ 7 → 0 ≤ e'.buf k ∧ e'.buf k ≤ 9 := by
    intro k hk1 hk2
    rw [hbuf, if_pos ⟨hk1, hk2⟩]
    apply nibble_digit
    exact hraw (k - 3) (by omega) (by omega)
  refine ⟨?_, ?_, ?_⟩
  · intro i hi
    by_cases h7 : 3 < i ∧ i ≤ 7
    · exact Or.inr (hdig i h7.1 h7.2)
    · rw [hbuf, if_neg h7]
      exact hb i hi
  · intro hne k hk
    have hlS : e'.left = ZEBRA_EAN8 := by
      rcases hl with hl | hl
      · exact absurd hl hne
      · exact hl
    rw [hlS] at hk
    have hk7 : k < 4 := hk
    rw [hbuf, if_neg (by omega)]
    have hel : e'.left = ean.left := by
      rw [hs]
      simp only []
      split_ifs with hc
      · exfalso
        apply hne
        rw [hs]
        simp only [if_pos hc]
        rfl
      · rfl
    exact hh.1 (by rw [← hel]; exact hne) k (by rw [← hel, hlS]; exact hk)
  · intro _ k hk1 hk2
    rw [hr] at hk1 hk2
    have hk7 : 4 ≤ k := hk1
    have hk8 : k < 4 + 4 := hk2
    exact hdig k (by omega) (by omega)

theorem integrate_addon_loop_frame (pass : ean_pass_t) :
    ∀ (n : Nat) (ean : ean_decoder_t),
      (integrate_addon_loop pass n ean).s4 = ean.s4 ∧
      (integrate_addon_loop pass n ean).pass = ean.pass := by
  intro n
  induction n with
  | zero =>
    intro ean
    exact ⟨rfl, rfl⟩
  | succ i ih =>
    intro ean
    rw [integrate_addon_loop]
    obtain ⟨h1, h2⟩ := ih { (if ean.addon ≠ 0 ∧ ean.buf (i + 13) ≠ ((pass.raw i &&& 0xf : Nat) : Int)
      then reset_parts ean else ean) with
      buf := store (if ean.addon ≠ 0 ∧ ean.buf (i + 13) ≠ ((pass.raw i &&& 0xf : Nat) : Int)
        then reset_parts ean else ean).buf (i + 13) ((pass.raw i &&& 0xf : Nat) : Int) }
    rw [h1, h2]
    split_ifs <;> exact ⟨rfl, rfl⟩

theorem integrate_left_loop_frame (pass : ean_pass_t) (n i : Nat) (ean : ean_decoder_t)
    (h : n ≤ i + 1) :
    (integrate_left_loop pass n i ean).s4 = ean.s4 ∧
    (integrate_left_loop pass n i ean).pass = ean.pass := by
  rw [integrate_left_loop_eq pass n i ean h]
  simp only []
  split_ifs <;> exact ⟨rfl, rfl⟩

theorem integrate_right_loop_frame (pass : ean_pass_t) (i j : Nat) (ean : ean_decoder_t)
    (h : i ≤ j) :
    (integrate_right_loop pass i j ean).s4 = ean.s4 ∧
    (integrate_right_loop pass i j ean).pass = ean.pass := by
  rw [integrate_right_loop_eq pass i j ean h]
  simp only []
  split_ifs <;> exact ⟨rfl, rfl⟩

theorem integrate_store_frame (H : decoder_h) (ean : ean_decoder_t) (pass : ean_pass_t)
    (part : Nat) :
    (integrate_store H ean pass part).s4 = ean.s4 ∧
    (integrate_store H ean pass part).pass = ean.pass := by
  unfold integrate_store
  by_cases h1 : part &&& H.ZEBRA_ADDON ≠ 0
  · rw [if_pos h1]
    exact integrate_addon_loop_frame pass _ ean
  · rw [if_neg h1]
    simp only []
    generalize hE : (if (ean.left ≠ 0 ∧ part &&& H.ZEBRA_SYMBOL ≠ ean.left) ∨
        (ean.right ≠ 0 ∧ part &&& H.ZEBRA_SYMBOL ≠ ean.right) then reset_parts ean else ean) = E
    have hE' : E.s4 = ean.s4 ∧ E.pass = ean.pass := by
      rw [← hE]
      split_ifs <;> exact ⟨rfl, rfl⟩
    by_cases h4 : part &&& EAN_RIGHT ≠ 0
    · rw [if_pos h4]
      obtain ⟨a, b⟩ := integrate_right_loop_frame pass
        (if part &&& H.ZEBRA_SYMBOL = ZEBRA_EAN13 then 6 else 4)
        (if part &&& H.ZEBRA_SYMBOL = ZEBRA_EAN13 then 12 else 7) E (by split_ifs <;> omega)
      exact ⟨a.trans hE'.1, b.trans hE'.2⟩
    · rw [if_neg h4]
      obtain ⟨a, b⟩ := integrate_left_loop_frame pass
        ((if part = ZEBRA_EAN13 then 6 else 3) + 1)
        (if part = ZEBRA_EAN13 then 6 else 4) E (by split_ifs <;> omega)
      exact ⟨a.trans hE'.1, b.trans hE'.2⟩

theorem zebra_decode_ean_body_cases (H : decoder_h) (pass_idx i : Nat) (dcode : zebra_decoder_t)
    (sym : Nat) (d' : zebra_decoder_t) (s' : Nat)
    (h : zebra_decode_ean_body H pass_idx i dcode sym = .ok (d', s')) :
    (¬ ((dcode.ean.pass i).state ≥ 0 ∨ i = pass_idx) ∧ d' = dcode ∧ s' = sym) ∨
    (((dcode.ean.pass i).state ≥ 0 ∨ i = pass_idx) ∧
      ∃ p part, decode_pass H dcode (dcode.ean.pass i) = .ok (p, part) ∧
        ((part = 0 ∧ d' = with_pass dcode i p ∧ s' = sym) ∨
         (part ≠ 0 ∧ ∃ e sym1, integrate_partial H (with_pass dcode i p).ean p part = .ok (e, sym1) ∧
           ((sym1 = 0 ∧ d' = with_ean (with_pass dcode i p) e ∧ s' = 0) ∨
            (sym1 ≠ 0 ∧ ¬ sym1 > ZEBRA_PARTIAL ∧
              d' = with_ean (with_pass dcode i p) (reset_passes e) ∧ s' = sym1) ∨
            (sym1 > ZEBRA_PARTIAL ∧ dcode.lock = true ∧
              d' = with_ean (with_pass dcode i p) (reset_passes e) ∧ s' = ZEBRA_PARTIAL) ∨
            (sym1 > ZEBRA_PARTIAL ∧ dcode.lock = false ∧
              postprocess H (with_ean (with_pass dcode i p) (reset_passes e)) sym1 = .ok d' ∧
              s' = sym1))))) := by
  unfold zebra_decode_ean_body at h
  by_cases hact : (dcode.ean.pass i).state ≥ 0 ∨ i = pass_idx
  · rw [if_pos hact] at h
    refine Or.inr ⟨hact, ?_⟩
    split at h
    · exact absurd h (by simp)
    · rename_i p part hdp
      refine ⟨p, part, hdp, ?_⟩
      simp only [] at h
      by_cases hpart : part ≠ 0
      · rw [if_pos hpart] at h
        refine Or.inr ⟨hpart, ?_⟩
        split at h
        · exact absurd h (by simp)
        · rename_i e sym1 hip
          refine ⟨e, sym1, hip, ?_⟩
          by_cases hs0 : sym1 ≠ 0
          · rw [if_pos hs0] at h
            by_cases hgt : sym1 > ZEBRA_PARTIAL
            · rw [if_pos hgt] at h
              by_cases hlock : dcode.lock = true
              · have hl : ¬ ¬ get_lock { dcode with ean := reset_passes e } = true := by
                  simp [get_lock, hlock]
                rw [if_neg hl] at h
                simp only [Except.ok.injEq, Prod.mk.injEq] at h
                exact Or.inr (Or.inr (Or.inl ⟨hgt, hlock, h.1.symm, h.2.symm⟩))
              · have hl : ¬ get_lock { dcode with ean := reset_passes e } = true := by
                  simp [get_lock, hlock]
                rw [if_pos hl] at h
                split at h
                · exact absurd h (by simp)
                · rename_i d2 hpp
                  simp only [Except.ok.injEq, Prod.mk.injEq] at h
                  refine Or.inr (Or.inr (Or.inr ⟨hgt, by simpa using hlock, ?_, h.2.symm⟩))
                  rw [← h.1]
                  exact hpp
            · rw [if_neg hgt] at h
              simp only [Except.ok.injEq, Prod.mk.injEq] at h
              exact Or.inr (Or.inl ⟨hs0, hgt, h.1.symm, h.2.symm⟩)
          · rw [if_neg hs0] at h
            simp only [Except.ok.injEq, Prod.mk.injEq] at h
            have : sym1 = 0 := by
              by_contra hh
              exact hs0 hh
            exact Or.inl ⟨this, h.1.symm, by rw [← h.2, this]⟩
      · rw [if_neg hpart] at h
        simp only [Except.ok.injEq, Prod.mk.injEq] at h
        have : part = 0 := by
          by_contra hh
          exact hpart hh
        exact Or.inl ⟨this, h.1.symm, h.2.symm⟩
  · rw [if_neg hact] at h
    simp only [Except.ok.injEq, Prod.mk.injEq] at h
    exact Or.inl ⟨hact, h.1.symm, h.2.symm⟩

theorem zebra_decode_ean_loop_induct (H : decoder_h) (pass_idx : Nat)
    (P : Nat → zebra_decoder_t → Nat → Prop)
    (hbody : ∀ i d s d' s', P i d s → zebra_decode_ean_body H pass_idx i d s = .ok (d', s') →
      P (i + 1) d' s') :
    ∀ (k i : Nat) (d : zebra_decoder_t) (s : Nat) (d' : zebra_decoder_t) (s' : Nat),
      P i d s → zebra_decode_ean_loop H pass_idx k i d s = .ok (d', s') → P (i + k) d' s' := by
  intro k
  induction k with
  | zero =>
    intro i d s d' s' hP h
    rw [zebra_decode_ean_loop] at h
    simp only [Except.ok.injEq, Prod.mk.injEq] at h
    rw [← h.1, ← h.2]
    exact hP
  | succ k ih =>
    intro i d s d' s' hP h
    rw [zebra_decode_ean_loop] at h
    split at h
    · exact absurd h (by simp)
    · rename_i d1 s1 hb
      have := ih (i + 1) d1 s1 d' s' (hbody i d s d1 s1 hP hb) h
      rw [show i + (k + 1) = i + 1 + k by omega]
      exact this

/-- The fields of the decoder that no pass changes. -/
theorem postprocess_frame (H : decoder_h) (dcode : zebra_decoder_t) (sym : Nat)
    (d' : zebra_decoder_t) (h : postprocess H dcode sym = .ok d') :
    d'.ean = dcode.ean ∧ d'.width = dcode.width ∧ d'.color = dcode.color ∧
    d'.lock = dcode.lock ∧ d'.idx = dcode.idx := by
  unfold postprocess at h
  simp only [] at h
  split at h
  · exact absurd h (by simp)
  · split at h
    · exact absurd h (by simp)
    · simp only [Except.ok.injEq] at h
      rw [← h]
      exact ⟨rfl, rfl, rfl, rfl, rfl⟩

theorem zebra_decode_ean_body_frame (H : decoder_h) (pass_idx i : Nat) (dcode : zebra_decoder_t)
    (sym : Nat) (d' : zebra_decoder_t) (s' : Nat)
    (h : zebra_decode_ean_body H pass_idx i dcode sym = .ok (d', s')) :
    d'.ean.s4 = dcode.ean.s4 ∧ d'.width = dcode.width ∧ d'.color = dcode.color ∧
    d'.lock = dcode.lock ∧ d'.idx = dcode.idx := by
  rcases zebra_decode_ean_body_cases H pass_idx i dcode sym d' s' h with
    ⟨_, hd, _⟩ | ⟨_, p, part, _, ⟨_, hd, _⟩ | ⟨_, e, sym1, hip, hc⟩⟩
  · rw [hd]
    exact ⟨rfl, rfl, rfl, rfl, rfl⟩
  · rw [hd]
    exact ⟨rfl, rfl, rfl, rfl, rfl⟩
  · have he : e.s4 = dcode.ean.s4 := by
      rw [(integrate_partial_ok H _ p part e sym1 hip).1]
      exact (integrate_store_frame H _ p part).1
    rcases hc with ⟨_, hd, _⟩ | ⟨_, _, hd, _⟩ | ⟨_, _, hd, _⟩ | ⟨_, _, hpp, _⟩
    · rw [hd]
      exact ⟨he, rfl, rfl, rfl, rfl⟩
    · rw [hd]
      exact ⟨he, rfl, rfl, rfl, rfl⟩
    · rw [hd]
      exact ⟨he, rfl, rfl, rfl, rfl⟩
    · obtain ⟨h1, h2, h3, h4, h5⟩ := postprocess_frame H _ sym1 d' hpp
      rw [h1, h2, h3, h4, h5]
      exact ⟨he, rfl, rfl, rfl, rfl⟩

theorem zebra_decode_ean_loop_frame (H : decoder_h) (pass_idx k i : Nat) (d : zebra_decoder_t)
    (s : Nat) (d' : zebra_decoder_t) (s' : Nat)
    (h : zebra_decode_ean_loop H pass_idx k i d s = .ok (d', s')) :
    d'.ean.s4 = d.ean.s4 ∧ d'.width = d.width ∧ d'.color = d.color ∧
    d'.lock = d.lock ∧ d'.idx = d.idx := by
  refine zebra_decode_ean_loop_induct H pass_idx
    (fun _ x _ => x.ean.s4 = d.ean.s4 ∧ x.width = d.width ∧ x.color = d.color ∧
      x.lock = d.lock ∧ x.idx = d.idx) ?_ k i d s d' s' ⟨rfl, rfl, rfl, rfl, rfl⟩ h
  intro j x t x' t' hP hb
  obtain ⟨h1, h2, h3, h4, h5⟩ := zebra_decode_ean_body_frame H pass_idx j x t x' t' hb
  rw [h1, h2, h3, h4, h5]
  exact hP

theorem update_s4_window (dcode : zebra_decoder_t)
    (h : dcode.ean.s4 = w32 (get_width dcode 1 + get_width dcode 2 + get_width dcode 3 +
      get_width dcode 4)) :
    (update_s4 dcode).ean.s4 = window_sum dcode := by
  unfold update_s4 window_sum
  simp only []
  rw [h]
  have h0 : get_width dcode 0 < 4294967296 := Nat.mod_lt _ (by norm_num)
  have h4 : get_width dcode 4 < 4294967296 := Nat.mod_lt _ (by norm_num)
  generalize get_width dcode 0 = a at *
  generalize get_width dcode 1 = b at *
  generalize get_width dcode 2 = c at *
  generalize get_width dcode 3 = d at *
  generalize get_width dcode 4 = e at *
  unfold w32
  omega

theorem half_inv_digits (e : ean_decoder_t) (S : Nat) (hS : S = ZEBRA_EAN13 ∨ S = ZEBRA_EAN8)
    (hl : e.left = S) (hr : e.right = S) (hh : half_inv e) :
    ∀ i < S, 0 ≤ e.buf i ∧ e.buf i ≤ 9 := by
  intro i hi
  have hne : S ≠ ZEBRA_NONE := by
    rcases hS with rfl | rfl <;> decide
  have h1 := hh.1 (by rw [hl]; exact hne)
  have h2 := hh.2 (by rw [hr]; exact hne)
  rw [hl] at h1
  rw [hr] at h2
  rcases hS with rfl | rfl
  · by_cases h7 : i < 7
    · exact h1 i h7
    · exact h2 i (show 7 ≤ i by omega) (show i < 7 + 6 by
        have : i < 13 := hi
        omega)
  · by_cases h4 : i < 4
    · exact h1 i h4
    · exact h2 i (show 4 ≤ i by omega) (show i < 4 + 4 by
        have : i < 8 := hi
        omega)

theorem integrate_finish_cases (e : ean_decoder_t) (S : Nat)
    (hS : S = ZEBRA_EAN13 ∨ S = ZEBRA_EAN8) (side : Nat)
    (hside : side = EAN_LEFT ∨ side = EAN_RIGHT)
    (h1 : half_label side e = S) (h2 : other_label side e = 0 ∨ other_label side e = S)
    (hh : half_inv e) :
    ∃ sym, integrate_finish e = .ok sym ∧
      (sym > ZEBRA_PARTIAL → sym = S ||| e.addon ∧ ∀ i < S, 0 ≤ e.buf i ∧ e.buf i ≤ 9) := by
  have hne : ¬ (EAN_LEFT = EAN_RIGHT) := by decide
  have hlr : (e.left = S ∧ (e.right = 0 ∨ e.right = S)) ∨
      (e.right = S ∧ (e.left = 0 ∨ e.left = S)) := by
    rcases hside with rfl | rfl
    · simp only [half_label, other_label, if_neg hne] at h1 h2
      exact Or.inl ⟨h1, h2⟩
    · simp only [half_label, other_label, if_true] at h1 h2
      exact Or.inr ⟨h1, h2⟩
  have hpartial : e.left &&& e.right = 0 →
      ∃ sym, integrate_finish e = .ok sym ∧
        (sym > ZEBRA_PARTIAL → sym = S ||| e.addon ∧ ∀ i < S, 0 ≤ e.buf i ∧ e.buf i ≤ 9) := by
    intro h0
    exact ⟨ZEBRA_PARTIAL, integrate_finish_partial e h0, fun h => absurd h (by decide)⟩
  have hfull : e.left = S → e.right = S →
      ∃ sym, integrate_finish e = .ok sym ∧
        (sym > ZEBRA_PARTIAL → sym = S ||| e.addon ∧ ∀ i < S, 0 ≤ e.buf i ∧ e.buf i ≤ 9) := by
    intro hl hr
    have hd := half_inv_digits e S hS hl hr hh
    refine ⟨_, integrate_finish_complete e S hS hl hr hd, ?_⟩
    split_ifs
    · intro _
      exact ⟨rfl, hd⟩
    · intro h
      exact absurd h (by decide)
  rcases hlr with ⟨ha, hb | hb⟩ | ⟨ha, hb | hb⟩
  · exact hpartial (by rw [hb, Nat.and_zero])
  · exact hfull ha hb
  · exact hpartial (by rw [hb, Nat.zero_and])
  · exact hfull hb ha

theorem is_half_tag_cases (part : Nat) (h : is_half_tag part) :
    ∃ S side, (S = ZEBRA_EAN13 ∨ S = ZEBRA_EAN8) ∧ (side = EAN_LEFT ∨ side = EAN_RIGHT) ∧
      part = S ||| side := by
  rcases h with h | h | h | h
  · exact ⟨_, _, Or.inr rfl, Or.inl rfl, h⟩
  · exact ⟨_, _, Or.inr rfl, Or.inr rfl, h⟩
  · exact ⟨_, _, Or.inl rfl, Or.inl rfl, h⟩
  · exact ⟨_, _, Or.inl rfl, Or.inr rfl, h⟩

theorem integrate_store_inv (H : decoder_h) (hH : masks_ok H) (ean : ean_decoder_t)
    (pass : ean_pass_t) (part : Nat) (hb : buf_inv ean) (hh : half_inv ean) (hraw : raw_ok pass)
    (ht : is_half_tag part) (h0 : part = ZEBRA_EAN13 ||| EAN_LEFT → pass.raw 0 &&& 0xf ≤ 9) :
    buf_inv (integrate_store H ean pass part) ∧ half_inv (integrate_store H ean pass part) ∧
    ((integrate_store H ean pass part).addon = ean.addon ∨
      (integrate_store H ean pass part).addon = 0) := by
  rcases ht with h | h | h | h <;> subst h
  · refine ⟨(integrate_store_left8_inv H hH ean pass hb hh hraw).1,
      (integrate_store_left8_inv H hH ean pass hb hh hraw).2, ?_⟩
    rw [integrate_store_left8 H hH ean pass]
    simp only []
    split_ifs
    · exact Or.inr rfl
    · exact Or.inl rfl
  · refine ⟨(integrate_store_right8_inv H hH ean pass hb hh hraw).1,
      (integrate_store_right8_inv H hH ean pass hb hh hraw).2, ?_⟩
    rw [integrate_store_right8 H hH ean pass]
    simp only []
    split_ifs
    · exact Or.inr rfl
    · exact Or.inl rfl
  · refine ⟨(integrate_store_left13_inv H hH ean pass hb hh hraw (h0 rfl)).1,
      (integrate_store_left13_inv H hH ean pass hb hh hraw (h0 rfl)).2, ?_⟩
    rw [integrate_store_left13 H hH ean pass]
    simp only []
    split_ifs
    · exact Or.inr rfl
    · exact Or.inl rfl
  · refine ⟨(integrate_store_right13_inv H hH ean pass hb hh hraw).1,
      (integrate_store_right13_inv H hH ean pass hb hh hraw).2, ?_⟩
    rw [integrate_store_right13 H hH ean pass]
    simp only []
    split_ifs
    · exact Or.inr rfl
    · exact Or.inl rfl

theorem integrate_partial_total (H : decoder_h) (hH : masks_ok H) (ean : ean_decoder_t)
    (pass : ean_pass_t) (part : Nat) (hb : buf_inv ean) (hh : half_inv ean) (hraw : raw_ok pass)
    (ht : is_half_tag part) (h0 : part = ZEBRA_EAN13 ||| EAN_LEFT → pass.raw 0 &&& 0xf ≤ 9) :
    ∃ sym, integrate_partial H ean pass part = .ok (integrate_store H ean pass part, sym) ∧
      (sym > ZEBRA_PARTIAL → ∃ S, (S = ZEBRA_EAN13 ∨ S = ZEBRA_EAN8) ∧
        sym = S ||| (integrate_store H ean pass part).addon ∧
        ∀ i < S, 0 ≤ (integrate_store H ean pass part).buf i ∧
          (integrate_store H ean pass part).buf i ≤ 9) := by
  obtain ⟨S, side, hS, hside, rfl⟩ := is_half_tag_cases part ht
  obtain ⟨h1, h2⟩ := integrate_store_labels H hH S hS side hside ean pass
  obtain ⟨_, hh', _⟩ := integrate_store_inv H hH ean pass _ hb hh hraw ht h0
  obtain ⟨sym, hf, hs⟩ := integrate_finish_cases _ S hS side hside h1 h2 hh'
  exact ⟨sym, integrate_partial_of_finish H ean pass _ sym hf, fun h => ⟨S, hS, hs h⟩⟩

theorem postprocess_main_loop_fault (ean : ean_decoder_t) :
    ∀ (k i : Nat) (out : Nat → Nat),
      postprocess_main_loop ean k i out ≠ .error fault.assert_check_parity := by
  intro k
  induction k with
  | zero =>
    intro i out
    simp [postprocess_main_loop]
  | succ k ih =>
    intro i out
    rw [postprocess_main_loop]
    split_ifs
    · exact ih _ _
    · simp
    · simp

theorem postprocess_addon_loop_fault (ean : ean_decoder_t) :
    ∀ (k i j : Nat) (out : Nat → Nat),
      postprocess_addon_loop ean k i j out ≠ .error fault.assert_check_parity := by
  intro k
  induction k with
  | zero =>
    intro i j out
    simp [postprocess_addon_loop]
  | succ k ih =>
    intro i j out
    rw [postprocess_addon_loop]
    split_ifs
    · exact ih _ _ _
    · simp

theorem postprocess_fault (H : decoder_h) (dcode : zebra_decoder_t) (sym : Nat) :
    postprocess H dcode sym ≠ .error fault.assert_check_parity := by
  unfold postprocess
  simp only []
  have hmain : (if sym &&& H.ZEBRA_SYMBOL > ZEBRA_PARTIAL
      then postprocess_main_loop dcode.ean ((sym &&& H.ZEBRA_SYMBOL) - 1) 0 dcode.buf
      else .ok (0, dcode.buf)) ≠ .error fault.assert_check_parity := by
    split_ifs
    · exact postprocess_main_loop_fault _ _ _ _
    · simp
  generalize (if sym &&& H.ZEBRA_SYMBOL > ZEBRA_PARTIAL
      then postprocess_main_loop dcode.ean ((sym &&& H.ZEBRA_SYMBOL) - 1) 0 dcode.buf
      else .ok (0, dcode.buf)) = m at hmain
  cases m with
  | error f =>
    simp only [ne_eq, Except.error.injEq] at hmain ⊢
    exact hmain
  | ok r =>
    obtain ⟨i, out⟩ := r
    simp only []
    have hadd : (if sym &&& H.ZEBRA_ADDON ≠ 0 then postprocess_addon_loop dcode.ean 5 13 i out
        else .ok (i, out)) ≠ .error fault.assert_check_parity := by
      split_ifs
      · exact postprocess_addon_loop_fault _ _ _ _ _
      · simp
    generalize (if sym &&& H.ZEBRA_ADDON ≠ 0 then postprocess_addon_loop dcode.ean 5 13 i out
        else .ok (i, out)) = a at hadd
    cases a with
    | error f =>
      simp only [ne_eq, Except.error.injEq] at hadd ⊢
      exact hadd
    | ok r => simp

theorem reset_passes_raw (ean : ean_decoder_t) (q : Nat) :
    ((reset_passes ean).pass q).raw = (ean.pass q).raw := by
  unfold reset_passes
  simp only [store_apply]
  split_ifs <;> simp_all

theorem decoder_inv_reset (dcode : zebra_decoder_t) (e : ean_decoder_t)
    (hb : buf_inv e) (hr : raw_inv e) (hh : half_inv e) :
    decoder_inv (with_ean dcode (reset_passes e)) := by
  refine ⟨hb, ?_, hh⟩
  intro q hq i h1 h6
  show ((reset_passes e).pass q).raw i &&& 0xf ≤ 9
  rw [reset_passes_raw]
  exact hr q hq i h1 h6

theorem zebra_decode_ean_body_inv (H : decoder_h) (hH : masks_ok H) (pass_idx i : Nat)
    (hi : i < 4) (dcode : zebra_decoder_t) (sym : Nat) (hinv : decoder_inv dcode)
    (d' : zebra_decoder_t) (s' : Nat)
    (h : zebra_decode_ean_body H pass_idx i dcode sym = .ok (d', s')) :
    decoder_inv d' ∧ (dcode.ean.addon = 0 → d'.ean.addon = 0) := by
  obtain ⟨hb, hr, hh⟩ := hinv
  rcases zebra_decode_ean_body_cases H pass_idx i dcode sym d' s' h with
    ⟨_, hd, _⟩ | ⟨_, p, part, hdp, hc⟩
  · rw [hd]
    exact ⟨⟨hb, hr, hh⟩, fun h => h⟩
  · obtain ⟨hp1, hp2, _⟩ := decode_pass_spec H dcode _ _ hdp
    have hpraw : raw_ok p := hp1 (hr i hi)
    have hr1 : raw_inv (with_pass dcode i p).ean := by
      intro q hq
      show raw_ok (store dcode.ean.pass i p q)
      rw [store_apply]
      split_ifs
      · exact hpraw
      · exact hr q hq
    rcases hc with ⟨_, hd, _⟩ | ⟨hpart, e, sym1, hip, hc⟩
    · rw [hd]
      exact ⟨⟨hb, hr1, hh⟩, fun h => h⟩
    · have hp2' : is_half_tag part ∧
          (part = ZEBRA_EAN13 ||| EAN_LEFT → p.raw 0 &&& 0xf ≤ 9) := by
        rcases hp2 with hp2 | hp2
        · exact absurd hp2 hpart
        · exact hp2
      obtain ⟨he, _⟩ := integrate_partial_ok H _ p part e sym1 hip
      obtain ⟨hb', hh', ha'⟩ := integrate_store_inv H hH (with_pass dcode i p).ean p part
        hb hh hpraw hp2'.1 hp2'.2
      rw [← he] at hb' hh' ha'
      have hr' : raw_inv e := by
        rw [he]
        intro q hq
        rw [(integrate_store_frame H _ p part).2]
        exact hr1 q hq
      have hadd : dcode.ean.addon = 0 → e.addon = 0 := by
        intro h0
        rcases ha' with ha' | ha'
        · rw [ha']
          exact h0
        · exact ha'
      rcases hc with ⟨_, hd, _⟩ | ⟨_, _, hd, _⟩ | ⟨_, _, hd, _⟩ | ⟨_, _, hpp, _⟩
      · rw [hd]
        exact ⟨⟨hb', hr', hh'⟩, hadd⟩
      · rw [hd]
        exact ⟨decoder_inv_reset _ e hb' hr' hh', hadd⟩
      · rw [hd]
        exact ⟨decoder_inv_reset _ e hb' hr' hh', hadd⟩
      · obtain ⟨h1, _⟩ := postprocess_frame H _ sym1 d' hpp
        have := decoder_inv_reset (with_pass dcode i p) e hb' hr' hh'
        unfold decoder_inv at this ⊢
        rw [h1]
        exact ⟨this, hadd⟩

theorem zebra_decode_ean_body_total (H : decoder_h) (hH : masks_ok H) (pass_idx i : Nat)
    (hi : i < 4) (dcode : zebra_decoder_t) (sym : Nat) (hinv : decoder_inv dcode) :
    zebra_decode_ean_body H pass_idx i dcode sym ≠ .error fault.assert_check_parity ∧
    (decode_e_ok H → state_consts_ok H → dcode.ean.addon = 0 →
      ∃ r, zebra_decode_ean_body H pass_idx i dcode sym = .ok r) := by
  obtain ⟨hb, hr, hh⟩ := hinv
  unfold zebra_decode_ean_body
  by_cases hact : (dcode.ean.pass i).state ≥ 0 ∨ i = pass_idx
  · rw [if_pos hact]
    obtain ⟨hf1, hf2⟩ := decode_pass_fault H dcode (dcode.ean.pass i)
    cases hdp : decode_pass H dcode (dcode.ean.pass i) with
    | error f =>
      simp only []
      refine ⟨?_, fun hE hK _ => ?_⟩
      · rw [hdp] at hf1
        intro hc
        apply hf1
        simp only [Except.error.injEq] at hc ⊢
        exact hc
      · obtain ⟨r, hr'⟩ := hf2 hE hK
        rw [hdp] at hr'
        exact absurd hr' (by simp)
    | ok r =>
      obtain ⟨p, part⟩ := r
      simp only []
      obtain ⟨hp1, hp2, _⟩ := decode_pass_spec H dcode _ _ hdp
      have hpraw : raw_ok p := hp1 (hr i hi)
      by_cases hpart : part ≠ 0
      · rw [if_pos hpart]
        have hp2' : is_half_tag part ∧
            (part = ZEBRA_EAN13 ||| EAN_LEFT → p.raw 0 &&& 0xf ≤ 9) := by
          rcases hp2 with hp2 | hp2
          · exact absurd hp2 hpart
          · exact hp2
        obtain ⟨sym1, hip, hs1⟩ := integrate_partial_total H hH (with_pass dcode i p).ean p part
          hb hh hpraw hp2'.1 hp2'.2
        obtain ⟨_, _, ha'⟩ := integrate_store_inv H hH (with_pass dcode i p).ean p part
          hb hh hpraw hp2'.1 hp2'.2
        have hip' : integrate_partial H
            { dcode.ean with pass := store dcode.ean.pass i p } p part
            = .ok (integrate_store H (with_pass dcode i p).ean p part, sym1) := hip
        rw [hip']
        simp only []
        by_cases hs0 : sym1 ≠ 0
        · rw [if_pos hs0]
          by_cases hgt : sym1 > ZEBRA_PARTIAL
          · rw [if_pos hgt]
            by_cases hlock : dcode.lock = true
            · have hl : ¬ ¬ get_lock { dcode with
                  ean := reset_passes (integrate_store H (with_pass dcode i p).ean p part) }
                  = true := by
                simp [get_lock, hlock]
              rw [if_neg hl]
              exact ⟨by simp, fun _ _ _ => ⟨_, rfl⟩⟩
            · have hl : ¬ get_lock { dcode with
                  ean := reset_passes (integrate_store H (with_pass dcode i p).ean p part) }
                  = true := by
                simp [get_lock, hlock]
              rw [if_pos hl]
              cases hpp : postprocess H { dcode with
                  ean := reset_passes (integrate_store H (with_pass dcode i p).ean p part) }
                  sym1 with
              | error f =>
                simp only []
                refine ⟨?_, fun _ _ hadd => ?_⟩
                · have := postprocess_fault H { dcode with
                    ean := reset_passes (integrate_store H (with_pass dcode i p).ean p part) } sym1
                  rw [hpp] at this
                  intro hc
                  apply this
                  simp only [Except.error.injEq] at hc ⊢
                  exact hc
                · exfalso
                  obtain ⟨S, hS, hsym, hdig⟩ := hs1 hgt
                  have ha0 : (integrate_store H (with_pass dcode i p).ean p part).addon = 0 := by
                    rcases ha' with ha' | ha'
                    · rw [ha']
                      exact hadd
                    · exact ha'
                  rw [ha0, Nat.or_zero] at hsym
                  rw [hsym, postprocess_main H hH S hS _ (fun k hk => (hdig k (by omega)).1)]
                    at hpp
                  exact absurd hpp (by simp)
              | ok d2 => exact ⟨by simp, fun _ _ _ => ⟨_, rfl⟩⟩
          · rw [if_neg hgt]
            exact ⟨by simp, fun _ _ _ => ⟨_, rfl⟩⟩
        · rw [if_neg hs0]
          exact ⟨by simp, fun _ _ _ => ⟨_, rfl⟩⟩
      · rw [if_neg hpart]
        exact ⟨by simp, fun _ _ _ => ⟨_, rfl⟩⟩
  · rw [if_neg hact]
    exact ⟨by simp, fun _ _ _ => ⟨_, rfl⟩⟩

theorem zebra_decode_ean_loop_inv (H : decoder_h) (hH : masks_ok H) (pass_idx : Nat) :
    ∀ (k i : Nat) (d : zebra_decoder_t) (s : Nat), i + k ≤ 4 → decoder_inv d →
      (∀ d' s', zebra_decode_ean_loop H pass_idx k i d s = .ok (d', s') →
        decoder_inv d' ∧ (d.ean.addon = 0 → d'.ean.addon = 0)) ∧
      zebra_decode_ean_loop H pass_idx k i d s ≠ .error fault.assert_check_parity ∧
      (decode_e_ok H → state_consts_ok H → d.ean.addon = 0 →
        ∃ r, zebra_decode_ean_loop H pass_idx k i d s = .ok r) := by
  intro k
  induction k with
  | zero =>
    intro i d s _ hinv
    rw [zebra_decode_ean_loop]
    refine ⟨fun d' s' h => ?_, by simp, fun _ _ _ => ⟨_, rfl⟩⟩
    simp only [Except.ok.injEq, Prod.mk.injEq] at h
    rw [← h.1]
    exact ⟨hinv, fun h => h⟩
  | succ k ih =>
    intro i d s hik hinv
    rw [zebra_decode_ean_loop]
    obtain ⟨hf, ht⟩ := zebra_decode_ean_body_total H hH pass_idx i (by omega) d s hinv
    cases hb : zebra_decode_ean_body H pass_idx i d s with
    | error f =>
      simp only []
      refine ⟨fun d' s' h => absurd h (by simp), ?_, fun hE hK ha => ?_⟩
      · rw [hb] at hf
        exact hf
      · obtain ⟨r, hr⟩ := ht hE hK ha
        rw [hb] at hr
        exact absurd hr (by simp)
    | ok r =>
      obtain ⟨d1, s1⟩ := r
      simp only []
      obtain ⟨hinv1, ha1⟩ := zebra_decode_ean_body_inv H hH pass_idx i (by omega) d s hinv d1 s1 hb
      obtain ⟨h1, h2, h3⟩ := ih (i + 1) d1 s1 (by omega) hinv1
      refine ⟨fun d' s' h => ?_, h2, fun hE hK ha => h3 hE hK (ha1 ha)⟩
      obtain ⟨hd, had⟩ := h1 d' s' h
      exact ⟨hd, fun ha => had (ha1 ha)⟩

theorem zebra_decode_ean_inv (H : decoder_h) (hH : masks_ok H) (dcode : zebra_decoder_t)
    (hinv : decoder_inv dcode) :
    (∀ r, zebra_decode_ean H dcode = .ok r →
      decoder_inv r.1 ∧ (dcode.ean.addon = 0 → r.1.ean.addon = 0)) ∧
    zebra_decode_ean H dcode ≠ .error fault.assert_check_parity ∧
    (decode_e_ok H → state_consts_ok H → dcode.ean.addon = 0 →
      ∃ r, zebra_decode_ean H dcode = .ok r) := by
  have hinv' : decoder_inv (update_s4 dcode) := hinv
  obtain ⟨h1, h2, h3⟩ := zebra_decode_ean_loop_inv H hH ((dcode.idx &&& 3) % 256) 4 0
    (update_s4 dcode) ZEBRA_NONE (by omega) hinv'
  refine ⟨fun r hr => ?_, h2, h3⟩
  obtain ⟨d', s'⟩ := r
  exact h1 d' s' hr

/-- C10: starting from any state in which every `buf` entry is `-1` or a digit,
every `raw[1..6]` byte of every pass has a low nibble of at most 9, and a label
other than `NONE` on a half implies that the half's `buf` slots hold digits,
`zebra_decode_ean` preserves these three facts on every edge, and no assertion
of `ean_check_parity` fails in it; the call returns when moreover the ratio
decoder keeps its contract, the add-on marker has a character index in range,
and no add-on is recorded. -/
theorem C10_digit_buffer_invariant (H : decoder_h) (hH : masks_ok H) (dcode : zebra_decoder_t)
    (hinv : decoder_inv dcode) :
    (∀ r, zebra_decode_ean H dcode = .ok r → decoder_inv r.1) ∧
    zebra_decode_ean H dcode ≠ .error fault.assert_check_parity ∧
    (decode_e_ok H → state_consts_ok H → dcode.ean.addon = ZEBRA_NONE →
      ∃ r, zebra_decode_ean H dcode = .ok r ∧ decoder_inv r.1 ∧ r.1.ean.addon = ZEBRA_NONE) := by
  obtain ⟨h1, h2, h3⟩ := zebra_decode_ean_inv H hH dcode hinv
  refine ⟨fun r hr => (h1 r hr).1, h2, fun hE hK ha => ?_⟩
  obtain ⟨r, hr⟩ := h3 hE hK ha
  exact ⟨r, hr, (h1 r hr).1, (h1 r hr).2 ha⟩

theorem push_edge_window (dcode : zebra_decoder_t) (w : Nat)
    (h : dcode.ean.s4 = window_sum dcode) :
    (push_edge dcode w).ean.s4 = w32 (get_width (push_edge dcode w) 1 +
      get_width (push_edge dcode w) 2 + get_width (push_edge dcode w) 3 +
      get_width (push_edge dcode w) 4) := by
  show dcode.ean.s4 = _
  rw [h]
  rfl

theorem zebra_decode_ean_window (H : decoder_h) (dcode : zebra_decoder_t)
    (h : dcode.ean.s4 = w32 (get_width dcode 1 + get_width dcode 2 + get_width dcode 3 +
      get_width dcode 4))
    (k : Nat) (r : zebra_decoder_t × Nat) (hr : zebra_decode_ean_upto H dcode k = .ok r) :
    r.1.ean.s4 = window_sum dcode ∧ r.1.width = dcode.width ∧ r.1.ean.s4 = window_sum r.1 := by
  obtain ⟨d', s'⟩ := r
  obtain ⟨h1, h2, _⟩ := zebra_decode_ean_loop_frame H _ k 0 (update_s4 dcode) ZEBRA_NONE d' s' hr
  have hw : d'.width = dcode.width := h2
  have hs : d'.ean.s4 = window_sum dcode := by
    rw [h1]
    exact update_s4_window dcode h
  refine ⟨hs, hw, ?_⟩
  rw [hs]
  unfold window_sum get_width
  rw [hw]

theorem run_edges_window (H : decoder_h) :
    ∀ (ws : List Nat) (d0 d : zebra_decoder_t), d0.ean.s4 = window_sum d0 →
      run_edges H d0 ws = .ok d → d.ean.s4 = window_sum d := by
  intro ws
  induction ws with
  | nil =>
    intro d0 d h0 hr
    rw [run_edges] at hr
    simp only [Except.ok.injEq] at hr
    rw [← hr]
    exact h0
  | cons w ws ih =>
    intro d0 d h0 hr
    rw [run_edges] at hr
    split at hr
    · exact absurd hr (by simp)
    · rename_i d1 s1 h1
      exact ih d1 d (zebra_decode_ean_window H (push_edge d0 w) (push_edge_window d0 w h0) 4
        (d1, s1) h1).2.2 hr

theorem run_edges_total (H : decoder_h) (hH : masks_ok H) (hE : decode_e_ok H)
    (hK : state_consts_ok H) :
    ∀ (ws : List Nat) (d0 : zebra_decoder_t), decoder_inv d0 → d0.ean.addon = 0 →
      ∃ d, run_edges H d0 ws = .ok d := by
  intro ws
  induction ws with
  | nil =>
    intro d0 _ _
    exact ⟨d0, rfl⟩
  | cons w ws ih =>
    intro d0 hinv ha
    rw [run_edges]
    have hinv' : decoder_inv (push_edge d0 w) := hinv
    obtain ⟨h1, _, h3⟩ := zebra_decode_ean_inv H hH (push_edge d0 w) hinv'
    obtain ⟨r, hr⟩ := h3 hE hK ha
    obtain ⟨d1, s1⟩ := r
    rw [hr]
    exact ih d1 (h1 _ hr).1 ((h1 _ hr).2 ha)

/-- C8: if before an edge `s4` equals the sum of the four widths that were then
most recent (now `width(1)..width(4)`), then after the update at the head of
`zebra_decode_ean`, after every pass of its loop, and when it returns,
`s4 = width(0) + width(1) + width(2) + width(3)` modulo the word size, the
window being untouched; hence from a zeroed window with `s4 = 0` the equality
holds after every edge of a run.  The calls return on well-formed decoders. -/
theorem C8_s4_invariant (H : decoder_h) (dcode : zebra_decoder_t)
    (h : dcode.ean.s4 = w32 (get_width dcode 1 + get_width dcode 2 + get_width dcode 3 +
      get_width dcode 4)) :
    (update_s4 dcode).ean.s4 = window_sum dcode ∧
    (∀ k r, zebra_decode_ean_upto H dcode k = .ok r →
      r.1.ean.s4 = window_sum dcode ∧ r.1.width = dcode.width) ∧
    (∀ r, zebra_decode_ean H dcode = .ok r →
      r.1.ean.s4 = window_sum r.1 ∧ r.1.width = dcode.width) ∧
    (∀ (ws : List Nat) (d0 d : zebra_decoder_t), (∀ k, d0.width k = 0) → d0.ean.s4 = 0 →
      run_edges H d0 ws = .ok d → d.ean.s4 = window_sum d) ∧
    (masks_ok H → decode_e_ok H → state_consts_ok H →
      (decoder_inv dcode → dcode.ean.addon = ZEBRA_NONE →
        ∃ r, zebra_decode_ean H dcode = .ok r) ∧
      (∀ (ws : List Nat) (d0 : zebra_decoder_t), decoder_inv d0 → d0.ean.addon = ZEBRA_NONE →
        ∃ d, run_edges H d0 ws = .ok d)) := by
  refine ⟨update_s4_window dcode h, fun k r hr => ?_, fun r hr => ?_, ?_, fun hH hE hK => ?_⟩
  · exact ⟨(zebra_decode_ean_window H dcode h k r hr).1, (zebra_decode_ean_window H dcode h k r hr).2.1⟩
  · exact ⟨(zebra_decode_ean_window H dcode h 4 r hr).2.2, (zebra_decode_ean_window H dcode h 4 r hr).2.1⟩
  · intro ws d0 d hz hs hr
    refine run_edges_window H ws d0 d ?_ hr
    rw [hs]
    unfold window_sum get_width
    simp only [hz]
    rfl
  · exact ⟨fun hinv ha => (zebra_decode_ean_inv H hH dcode hinv).2.2 hE hK ha,
      run_edges_total H hH hE hK⟩

theorem zebra_decode_ean_loop_split (H : decoder_h) (pass_idx : Nat) :
    ∀ (a b i : Nat) (d : zebra_decoder_t) (s : Nat),
      zebra_decode_ean_loop H pass_idx (a + b) i d s =
        match zebra_decode_ean_loop H pass_idx a i d s with
        | .error f => .error f
        | .ok (d1, s1) => zebra_decode_ean_loop H pass_idx b (i + a) d1 s1 := by
  intro a
  induction a with
  | zero =>
    intro b i d s
    simp only [Nat.zero_add, zebra_decode_ean_loop, Nat.add_zero]
  | succ a ih =>
    intro b i d s
    rw [show a + 1 + b = (a + b) + 1 by omega, zebra_decode_ean_loop, zebra_decode_ean_loop]
    cases zebra_decode_ean_body H pass_idx i d s with
    | error f => rfl
    | ok r =>
      obtain ⟨d1, s1⟩ := r
      simp only []
      rw [ih b (i + 1) d1 s1, show i + 1 + a = i + (a + 1) by omega]

theorem pass_outcome_some (H : decoder_h) (dcode : zebra_decoder_t) (i sym1 : Nat)
    (h : pass_outcome H dcode i = some sym1) :
    ∃ d s p part e, zebra_decode_ean_upto H dcode i = .ok (d, s) ∧
      ((d.ean.pass i).state ≥ 0 ∨ i = (dcode.idx &&& 3) % 256) ∧
      decode_pass H d (d.ean.pass i) = .ok (p, part) ∧ part ≠ 0 ∧
      integrate_partial H (with_pass d i p).ean p part = .ok (e, sym1) := by
  unfold pass_outcome at h
  split at h
  · exact absurd h (by simp)
  · rename_i d s hu
    split_ifs at h with hact
    split at h
    · exact absurd h (by simp)
    · rename_i p part hdp
      split_ifs at h with hpart
      split at h
      · exact absurd h (by simp)
      · rename_i e s1 hip
        simp only [Option.some.injEq] at h
        subst h
        exact ⟨d, s, p, part, e, hu, hact, hdp, hpart, hip⟩

theorem zebra_decode_ean_body_success (H : decoder_h) (pass_idx i : Nat) (d : zebra_decoder_t)
    (s : Nat) (p : ean_pass_t) (part : Nat) (e : ean_decoder_t) (sym1 : Nat)
    (hact : (d.ean.pass i).state ≥ 0 ∨ i = pass_idx)
    (hdp : decode_pass H d (d.ean.pass i) = .ok (p, part)) (hpart : part ≠ 0)
    (hip : integrate_partial H (with_pass d i p).ean p part = .ok (e, sym1)) (hs : sym1 ≠ 0)
    (d1 : zebra_decoder_t) (s1 : Nat)
    (hb : zebra_decode_ean_body H pass_idx i d s = .ok (d1, s1)) :
    d1.ean = reset_passes e ∧ (d.lock = true → d1.buf = d.buf) ∧
    (s1 = sym1 ∨ (sym1 > ZEBRA_PARTIAL ∧ d.lock = true ∧ s1 = ZEBRA_PARTIAL)) := by
  rcases zebra_decode_ean_body_cases H pass_idx i d s d1 s1 hb with
    ⟨hn, _, _⟩ | ⟨_, p', part', hdp', hc⟩
  · exact absurd hact hn
  · rw [hdp] at hdp'
    simp only [Except.ok.injEq, Prod.mk.injEq] at hdp'
    obtain ⟨rfl, rfl⟩ := hdp'
    rcases hc with ⟨h0, _, _⟩ | ⟨_, e', sym', hip', hc⟩
    · exact absurd h0 hpart
    · rw [hip] at hip'
      simp only [Except.ok.injEq, Prod.mk.injEq] at hip'
      obtain ⟨rfl, rfl⟩ := hip'
      rcases hc with ⟨h0, _, _⟩ | ⟨_, _, hd, hs1⟩ | ⟨hgt, hl, hd, hs1⟩ | ⟨_, hl, hpp, hs1⟩
      · exact absurd h0 hs
      · rw [hd]
        exact ⟨rfl, fun _ => rfl, Or.inl hs1⟩
      · rw [hd]
        exact ⟨rfl, fun _ => rfl, Or.inr ⟨hgt, hl, hs1⟩⟩
      · obtain ⟨h1, _⟩ := postprocess_frame H _ sym1 d1 hpp
        refine ⟨h1, fun hl' => ?_, Or.inl hs1⟩
        rw [hl] at hl'
        exact absurd hl' (by simp)

theorem reset_passes_state (ean : ean_decoder_t) (q : Nat) (hq : q < 4) :
    ((reset_passes ean).pass q).state = -1 := by
  unfold reset_passes
  simp only [store_apply]
  interval_cases q <;> simp

theorem zebra_decode_ean_loop_induct_lt (H : decoder_h) (pass_idx N : Nat)
    (P : Nat → zebra_decoder_t → Nat → Prop)
    (hbody : ∀ i d s d' s', i < N → P i d s →
      zebra_decode_ean_body H pass_idx i d s = .ok (d', s') → P (i + 1) d' s') :
    ∀ (k i : Nat) (d : zebra_decoder_t) (s : Nat) (d' : zebra_decoder_t) (s' : Nat),
      i + k ≤ N → P i d s → zebra_decode_ean_loop H pass_idx k i d s = .ok (d', s') →
      P (i + k) d' s' := by
  intro k
  induction k with
  | zero =>
    intro i d s d' s' _ hP h
    rw [zebra_decode_ean_loop] at h
    simp only [Except.ok.injEq, Prod.mk.injEq] at h
    rw [← h.1, ← h.2]
    exact hP
  | succ k ih =>
    intro i d s d' s' hik hP h
    rw [zebra_decode_ean_loop] at h
    split at h
    · exact absurd h (by simp)
    · rename_i d1 s1 hb
      have := ih (i + 1) d1 s1 d' s' (by omega) (hbody i d s d1 s1 (by omega) hP hb) h
      rw [show i + (k + 1) = i + 1 + k by omega]
      exact this

theorem zebra_decode_ean_tail (H : decoder_h) (hK : state_consts_ok H) (pass_idx i0 : Nat)
    (s0 : Nat) (b0 : Nat → Nat) :
    ∀ (k j : Nat) (d : zebra_decoder_t) (s : Nat) (d' : zebra_decoder_t) (s' : Nat),
      j + k ≤ 4 →
      (i0 < j ∧ s = s0 ∧ d.buf = b0 ∧ ∀ q < 4, (d.ean.pass q).state = -1 ∨
        (q = pass_idx ∧ i0 < q ∧ q < j ∧
          ((d.ean.pass q).state = 0 ∨ (d.ean.pass q).state = s8 (u8 H.STATE_ADDON)))) →
      zebra_decode_ean_loop H pass_idx k j d s = .ok (d', s') →
      (i0 < j + k ∧ s' = s0 ∧ d'.buf = b0 ∧ ∀ q < 4, (d'.ean.pass q).state = -1 ∨
        (q = pass_idx ∧ i0 < q ∧ q < j + k ∧
          ((d'.ean.pass q).state = 0 ∨ (d'.ean.pass q).state = s8 (u8 H.STATE_ADDON)))) := by
  refine zebra_decode_ean_loop_induct_lt H pass_idx 4
    (fun j d s => i0 < j ∧ s = s0 ∧ d.buf = b0 ∧ ∀ q < 4, (d.ean.pass q).state = -1 ∨
        (q = pass_idx ∧ i0 < q ∧ q < j ∧
          ((d.ean.pass q).state = 0 ∨ (d.ean.pass q).state = s8 (u8 H.STATE_ADDON)))) ?_
  intro j d s d1 s1 hj4 ⟨hj, hs, hbuf, hst⟩ hb
  have hweak : ∀ q < 4, (d.ean.pass q).state = -1 ∨
      (q = pass_idx ∧ i0 < q ∧ q < j + 1 ∧
        ((d.ean.pass q).state = 0 ∨ (d.ean.pass q).state = s8 (u8 H.STATE_ADDON))) := by
    intro q hq
    rcases hst q hq with h | ⟨h1, h2, h3, h4⟩
    · exact Or.inl h
    · exact Or.inr ⟨h1, h2, by omega, h4⟩
  rcases zebra_decode_ean_body_cases H pass_idx j d s d1 s1 hb with
    ⟨_, hd, hs1⟩ | ⟨hact, p, part, hdp, hc⟩
  · rw [hd, hs1]
    exact ⟨by omega, hs, hbuf, hweak⟩
  · have hjst : (d.ean.pass j).state = -1 := by
      rcases hst j hj4 with h | ⟨_, _, h3, _⟩
      · exact h
      · omega
    have hjp : j = pass_idx := by
      rcases hact with h | h
      · rw [hjst] at h
        exact absurd h (by decide)
      · exact h
    obtain ⟨hp0, hpst⟩ := decode_pass_idle H hK d _ hjst _ hdp
    rcases hc with ⟨_, hd, hs1⟩ | ⟨hpart, _⟩
    · rw [hd, hs1]
      refine ⟨by omega, hs, hbuf, ?_⟩
      intro q hq
      show (store d.ean.pass j p q).state = -1 ∨ (q = pass_idx ∧ i0 < q ∧ q < j + 1 ∧
        ((store d.ean.pass j p q).state = 0 ∨
          (store d.ean.pass j p q).state = s8 (u8 H.STATE_ADDON)))
      rw [store_apply]
      by_cases hqj : q = j
      · rw [if_pos hqj]
        rcases hpst with h | h | h
        · exact Or.inl h
        · exact Or.inr ⟨by omega, by omega, by omega, Or.inl h⟩
        · exact Or.inr ⟨by omega, by omega, by omega, Or.inr h⟩
      · rw [if_neg hqj]
        exact hweak q hq
    · exact absurd hp0 hpart
theorem zebra_decode_ean_upto_succ (H : decoder_h) (dcode : zebra_decoder_t) (i : Nat)
    (d : zebra_decoder_t) (s : Nat) (hu : zebra_decode_ean_upto H dcode i = .ok (d, s)) :
    zebra_decode_ean_upto H dcode (i + 1)
      = zebra_decode_ean_body H ((dcode.idx &&& 3) % 256) i d s := by
  unfold zebra_decode_ean_upto at hu ⊢
  rw [zebra_decode_ean_loop_split H _ i 1 0, hu]
  simp only [Nat.zero_add]
  rw [zebra_decode_ean_loop]
  cases zebra_decode_ean_body H ((dcode.idx &&& 3) % 256) i d s with
  | error f => rfl
  | ok r =>
    obtain ⟨d1, s1⟩ := r
    simp only []
    rw [zebra_decode_ean_loop]

theorem zebra_decode_ean_from (H : decoder_h) (dcode : zebra_decoder_t) (j : Nat) (hj : j ≤ 4)
    (d : zebra_decoder_t) (s : Nat) (hu : zebra_decode_ean_upto H dcode j = .ok (d, s)) :
    zebra_decode_ean H dcode
      = zebra_decode_ean_loop H ((dcode.idx &&& 3) % 256) (4 - j) j d s := by
  unfold zebra_decode_ean_upto at hu
  unfold zebra_decode_ean
  simp only []
  rw [show 4 = j + (4 - j) by omega, zebra_decode_ean_loop_split H _ j (4 - j) 0, hu]
  simp only [Nat.zero_add]
  rw [show j + (4 - j) - j = 4 - j by omega]

theorem zebra_decode_ean_after_success (H : decoder_h) (hK : state_consts_ok H)
    (dcode : zebra_decoder_t) (i sym1 : Nat) (hi : i < 4)
    (ho : pass_outcome H dcode i = some sym1) (hs : sym1 ≠ 0) :
    (∀ r1, zebra_decode_ean_upto H dcode (i + 1) = .ok r1 →
      ∀ q < 4, (r1.1.ean.pass q).state = -1) ∧
    (∀ r, zebra_decode_ean H dcode = .ok r →
      (r.2 = sym1 ∨ (sym1 > ZEBRA_PARTIAL ∧ dcode.lock = true ∧ r.2 = ZEBRA_PARTIAL)) ∧
      ∀ q < 4, (r.1.ean.pass q).state = -1 ∨
        (q = (dcode.idx &&& 3) % 256 ∧ i < q ∧
          ((r.1.ean.pass q).state = 0 ∨ (r.1.ean.pass q).state = s8 (u8 H.STATE_ADDON)))) := by
  obtain ⟨d, s, p, part, e, hu, hact, hdp, hpart, hip⟩ := pass_outcome_some H dcode i sym1 ho
  have hlock : d.lock = dcode.lock :=
    (zebra_decode_ean_loop_frame H _ i 0 (update_s4 dcode) ZEBRA_NONE d s hu).2.2.2.1
  have hsucc := zebra_decode_ean_upto_succ H dcode i d s hu
  have hall : ∀ d1 s1, zebra_decode_ean_body H ((dcode.idx &&& 3) % 256) i d s = .ok (d1, s1) →
      (∀ q < 4, (d1.ean.pass q).state = -1) ∧
      (s1 = sym1 ∨ (sym1 > ZEBRA_PARTIAL ∧ dcode.lock = true ∧ s1 = ZEBRA_PARTIAL)) := by
    intro d1 s1 hb
    obtain ⟨h1, _, h3⟩ := zebra_decode_ean_body_success H _ i d s p part e sym1 hact hdp hpart
      hip hs d1 s1 hb
    refine ⟨fun q hq => ?_, ?_⟩
    · rw [h1]
      exact reset_passes_state e q hq
    · rw [← hlock]
      exact h3
  refine ⟨fun r1 hr1 => ?_, fun r hr => ?_⟩
  · obtain ⟨d1, s1⟩ := r1
    rw [hsucc] at hr1
    exact (hall d1 s1 hr1).1
  · obtain ⟨d', s'⟩ := r
    cases hb : zebra_decode_ean_body H ((dcode.idx &&& 3) % 256) i d s with
    | error f =>
      rw [hb] at hsucc
      have h4 : zebra_decode_ean H dcode = .error f := by
        unfold zebra_decode_ean_upto at hsucc
        unfold zebra_decode_ean
        simp only []
        rw [show 4 = (i + 1) + (3 - i) by omega, zebra_decode_ean_loop_split H _ (i + 1) (3 - i) 0,
          hsucc]
      rw [h4] at hr
      exact absurd hr (by simp)
    | ok r1 =>
      obtain ⟨d1, s1⟩ := r1
      rw [hb] at hsucc
      obtain ⟨hst, hs1⟩ := hall d1 s1 hb
      rw [zebra_decode_ean_from H dcode (i + 1) (by omega) d1 s1 hsucc] at hr
      obtain ⟨_, h2, _, h4⟩ := zebra_decode_ean_tail H hK ((dcode.idx &&& 3) % 256) i s1 d1.buf
        (4 - (i + 1)) (i + 1) d1 s1 d' s' (by omega)
        ⟨by omega, rfl, rfl, fun q hq => Or.inl (hst q hq)⟩ hr
      refine ⟨?_, fun q hq => ?_⟩
      · show s' = sym1 ∨ _
        rw [h2]
        exact hs1
      · rcases h4 q hq with h | ⟨ha, hb', _, hd⟩
        · exact Or.inl h
        · exact Or.inr ⟨ha, hb', hd⟩

theorem zebra_decode_ean_locked (H : decoder_h) (dcode : zebra_decoder_t)
    (hlock : dcode.lock = true) (r : zebra_decoder_t × Nat)
    (hr : zebra_decode_ean H dcode = .ok r) :
    (r.2 = ZEBRA_NONE ∨ r.2 = ZEBRA_PARTIAL) ∧ r.1.buf = dcode.buf := by
  obtain ⟨d', s'⟩ := r
  have := zebra_decode_ean_loop_induct H ((dcode.idx &&& 3) % 256)
    (fun _ d s => (s = ZEBRA_NONE ∨ s = ZEBRA_PARTIAL) ∧ d.buf = dcode.buf ∧ d.lock = true) ?_
    4 0 (update_s4 dcode) ZEBRA_NONE d' s' ⟨Or.inl rfl, rfl, hlock⟩ hr
  · exact ⟨this.1, this.2.1⟩
  · intro j d s d1 s1 ⟨hs, hbuf, hl⟩ hb
    rcases zebra_decode_ean_body_cases H _ j d s d1 s1 hb with
      ⟨_, hd, hs1⟩ | ⟨_, p, part, _, ⟨_, hd, hs1⟩ | ⟨_, e, sym1, _, hc⟩⟩
    · rw [hd, hs1]
      exact ⟨hs, hbuf, hl⟩
    · rw [hd, hs1]
      exact ⟨hs, hbuf, hl⟩
    · rcases hc with ⟨_, hd, hs1⟩ | ⟨h0, hgt, hd, hs1⟩ | ⟨_, _, hd, hs1⟩ | ⟨_, hl', _, _⟩
      · rw [hd, hs1]
        exact ⟨Or.inl rfl, hbuf, hl⟩
      · rw [hd, hs1]
        refine ⟨Or.inr ?_, hbuf, hl⟩
        unfold ZEBRA_PARTIAL at hgt ⊢
        omega
      · rw [hd, hs1]
        exact ⟨Or.inr rfl, hbuf, hl⟩
      · rw [hl] at hl'
        exact absurd hl' (by simp)

/-- C4: for every decoder state in which the host lock is set,
`zebra_decode_ean` returns only `NONE` or `PARTIAL` and leaves the host output
buffer unchanged; whenever some pass completes a checksum-valid symbol on that
edge (its partial integrates to a symbol type above `PARTIAL`), the locked call
returns `PARTIAL`.  The call returns on well-formed decoders. -/
theorem C4_locked_decode (H : decoder_h) (dcode : zebra_decoder_t)
    (hlock : get_lock dcode = true) :
    (∀ r, zebra_decode_ean H dcode = .ok r →
      (r.2 = ZEBRA_NONE ∨ r.2 = ZEBRA_PARTIAL) ∧ ¬ r.2 > ZEBRA_PARTIAL ∧ r.1.buf = dcode.buf) ∧
    (state_consts_ok H → ∀ i < 4, ∀ sym1, pass_outcome H dcode i = some sym1 →
      sym1 > ZEBRA_PARTIAL → ∀ r, zebra_decode_ean H dcode = .ok r → r.2 = ZEBRA_PARTIAL) ∧
    (masks_ok H → decode_e_ok H → state_consts_ok H → decoder_inv dcode →
      dcode.ean.addon = ZEBRA_NONE → ∃ r, zebra_decode_ean H dcode = .ok r) := by
  refine ⟨fun r hr => ?_, fun hK i hi sym1 ho hgt r hr => ?_, fun hH hE hK hinv ha => ?_⟩
  · obtain ⟨h1, h2⟩ := zebra_decode_ean_locked H dcode hlock r hr
    refine ⟨h1, ?_, h2⟩
    rcases h1 with h1 | h1 <;> rw [h1] <;> decide
  · have hs : sym1 ≠ 0 := by
      unfold ZEBRA_PARTIAL at hgt
      omega
    rcases ((zebra_decode_ean_after_success H hK dcode i sym1 hi ho hs).2 r hr).1 with
      h | ⟨_, _, h⟩
    · obtain ⟨h1, _⟩ := zebra_decode_ean_locked H dcode hlock r hr
      rw [h] at h1
      unfold ZEBRA_PARTIAL ZEBRA_NONE at *
      omega
    · exact h
  · exact (zebra_decode_ean_inv H hH dcode hinv).2.2 hE hK ha

/-- C7 (as amended): if pass `i` completes successfully during
`zebra_decode_ean` (its partial integrates to a result other than `NONE`), then
right after that pass's iteration all four pass states equal `-1`, the call
returns `PARTIAL` or a symbol tag, and when it returns every pass other than
`pass[pass_idx]` has state `-1`; `pass[pass_idx]` has state `-1` as well unless
`pass_idx > i`, in which case that pass is stepped after the reset on the same
edge and is left at `-1` or at a start state (`0` or the add-on marker). -/
theorem C7_passes_reset (H : decoder_h) (hK : state_consts_ok H) (dcode : zebra_decoder_t)
    (i : Nat) (hi : i < 4) (sym1 : Nat) (ho : pass_outcome H dcode i = some sym1)
    (hs : sym1 ≠ ZEBRA_NONE) :
    (∀ r1, zebra_decode_ean_upto H dcode (i + 1) = .ok r1 →
      ∀ q < 4, (r1.1.ean.pass q).state = -1) ∧
    (∀ r, zebra_decode_ean H dcode = .ok r →
      r.2 ≠ ZEBRA_NONE ∧
      (∀ q < 4, q ≠ (dcode.idx &&& 3) % 256 → (r.1.ean.pass q).state = -1) ∧
      ((dcode.idx &&& 3) % 256 ≤ i → ∀ q < 4, (r.1.ean.pass q).state = -1) ∧
      ∀ q < 4, (r.1.ean.pass q).state = -1 ∨ (r.1.ean.pass q).state = 0 ∨
        (r.1.ean.pass q).state = s8 (u8 H.STATE_ADDON)) ∧
    (masks_ok H → decode_e_ok H → decoder_inv dcode → dcode.ean.addon = ZEBRA_NONE →
      ∃ r, zebra_decode_ean H dcode = .ok r) := by
  obtain ⟨h1, h2⟩ := zebra_decode_ean_after_success H hK dcode i sym1 hi ho hs
  refine ⟨h1, fun r hr => ?_, fun hH hE hinv ha =>
    (zebra_decode_ean_inv H hH dcode hinv).2.2 hE hK ha⟩
  obtain ⟨hsym, hst⟩ := h2 r hr
  refine ⟨?_, fun q hq hne => ?_, fun hle q hq => ?_, fun q hq => ?_⟩
  · rcases hsym with h | ⟨_, _, h⟩
    · rw [h]
      exact hs
    · rw [h]
      decide
  · rcases hst q hq with h | ⟨h, _⟩
    · exact h
    · exact absurd h hne
  · rcases hst q hq with h | ⟨h, h', _⟩
    · exact h
    · omega
  · rcases hst q hq with h | ⟨_, _, h | h⟩
    · exact Or.inl h
    · exact Or.inr (Or.inl h)
    · exact Or.inr (Or.inr h)

/-- The ratio decoder of the specification keeps its contract. -/
theorem model_h_decode_e_ok : decode_e_ok model_h := by
  intro e s n
  show spec_decode_e e s n = -1 ∨ (0 ≤ spec_decode_e e s n ∧ spec_decode_e e s n ≤ 3)
  unfold spec_decode_e
  split_ifs <;> simp

/-- On the interleaved state with the left half of 4006381333931 stored, pass 0
completes the symbol: unlocked, the call returns `EAN13` and writes the output;
locked, it returns `PARTIAL` and leaves the output buffer as it was. -/
theorem interleaved_lock_example :
    pass_outcome model_h (interleaved_dcode true 13 [4, 0, 0, 6, 3, 8, 1]) 0 = some ZEBRA_EAN13 ∧
    sym_and_states (zebra_decode_ean model_h (interleaved_dcode true 13 [4, 0, 0, 6, 3, 8, 1]))
      = some (ZEBRA_PARTIAL, [-1, -1, -1, 0]) ∧
    sym_and_states (zebra_decode_ean model_h (interleaved_dcode false 13 [4, 0, 0, 6, 3, 8, 1]))
      = some (ZEBRA_EAN13, [-1, -1, -1, 0]) ∧
    output_bytes ((zebra_decode_ean model_h
        (interleaved_dcode false 13 [4, 0, 0, 6, 3, 8, 1])).map Prod.fst) 14
      = some [52, 48, 48, 54, 51, 56, 49, 51, 51, 51, 57, 51, 0, 255] := by
  decide

/-- Witness of C4 on the locked interleaved state. -/
theorem C4_locked_decode_witness :
    get_lock (interleaved_dcode true 13 [4, 0, 0, 6, 3, 8, 1]) = true ∧
    ((∀ r, zebra_decode_ean model_h (interleaved_dcode true 13 [4, 0, 0, 6, 3, 8, 1]) = .ok r →
        (r.2 = ZEBRA_NONE ∨ r.2 = ZEBRA_PARTIAL) ∧ ¬ r.2 > ZEBRA_PARTIAL ∧
        r.1.buf = (interleaved_dcode true 13 [4, 0, 0, 6, 3, 8, 1]).buf) ∧
      (state_consts_ok model_h → ∀ i < 4, ∀ sym1,
        pass_outcome model_h (interleaved_dcode true 13 [4, 0, 0, 6, 3, 8, 1]) i = some sym1 →
        sym1 > ZEBRA_PARTIAL →
        ∀ r, zebra_decode_ean model_h (interleaved_dcode true 13 [4, 0, 0, 6, 3, 8, 1]) = .ok r →
          r.2 = ZEBRA_PARTIAL) ∧
      (masks_ok model_h → decode_e_ok model_h → state_consts_ok model_h →
        decoder_inv (interleaved_dcode true 13 [4, 0, 0, 6, 3, 8, 1]) →
        (interleaved_dcode true 13 [4, 0, 0, 6, 3, 8, 1]).ean.addon = ZEBRA_NONE →
        ∃ r, zebra_decode_ean model_h (interleaved_dcode true 13 [4, 0, 0, 6, 3, 8, 1]) = .ok r)) :=
  ⟨rfl, C4_locked_decode model_h (interleaved_dcode true 13 [4, 0, 0, 6, 3, 8, 1]) rfl⟩

/-- Witness of C7 (as amended) on the interleaved state: pass 0 completes a
right half, `pass_idx` is 3. -/
theorem C7_passes_reset_witness :
    (state_consts_ok model_h ∧ 0 < 4 ∧
      pass_outcome model_h (interleaved_dcode false 0 []) 0 = some ZEBRA_PARTIAL ∧
      ZEBRA_PARTIAL ≠ ZEBRA_NONE) ∧
    ((∀ r1, zebra_decode_ean_upto model_h (interleaved_dcode false 0 []) (0 + 1) = .ok r1 →
        ∀ q < 4, (r1.1.ean.pass q).state = -1) ∧
      (∀ r, zebra_decode_ean model_h (interleaved_dcode false 0 []) = .ok r →
        r.2 ≠ ZEBRA_NONE ∧
        (∀ q < 4, q ≠ ((interleaved_dcode false 0 []).idx &&& 3) % 256 →
          (r.1.ean.pass q).state = -1) ∧
        (((interleaved_dcode false 0 []).idx &&& 3) % 256 ≤ 0 →
          ∀ q < 4, (r.1.ean.pass q).state = -1) ∧
        ∀ q < 4, (r.1.ean.pass q).state = -1 ∨ (r.1.ean.pass q).state = 0 ∨
          (r.1.ean.pass q).state = s8 (u8 model_h.STATE_ADDON)) ∧
      (masks_ok model_h → decode_e_ok model_h → decoder_inv (interleaved_dcode false 0 []) →
        (interleaved_dcode false 0 []).ean.addon = ZEBRA_NONE →
        ∃ r, zebra_decode_ean model_h (interleaved_dcode false 0 []) = .ok r)) :=
  ⟨⟨by decide, by decide, by decide, by decide⟩,
   C7_passes_reset model_h (by decide) (interleaved_dcode false 0 []) 0 (by decide)
     ZEBRA_PARTIAL (by decide) (by decide)⟩

/-- C7 fails as stated: on the interleaved state pass 0 completes a right half
(its partial integrates to `PARTIAL`, which the call returns), and when
`zebra_decode_ean` returns, pass 3, stepped after the reset because it is
`pass_idx`, is at state `0`: the four states are `-1, -1, -1, 0`. -/
theorem C7_passes_reset_counterexample :
    pass_outcome model_h (interleaved_dcode false 0 []) 0 = some ZEBRA_PARTIAL ∧
    sym_and_states (zebra_decode_ean model_h (interleaved_dcode false 0 []))
      = some (ZEBRA_PARTIAL, [-1, -1, -1, 0]) ∧
    sym_and_states (zebra_decode_ean model_h (interleaved_dcode false 0 []))
      ≠ some (ZEBRA_PARTIAL, [-1, -1, -1, -1]) := by
  decide

/-- Witness of C8 on the interleaved state, where `s4 = 28 = 4 + 4 + 16 + 4`. -/
theorem C8_s4_invariant_witness :
    (interleaved_dcode false 0 []).ean.s4
      = w32 (get_width (interleaved_dcode false 0 []) 1 +
          get_width (interleaved_dcode false 0 []) 2 +
          get_width (interleaved_dcode false 0 []) 3 +
          get_width (interleaved_dcode false 0 []) 4) ∧
    ((update_s4 (interleaved_dcode false 0 [])).ean.s4
        = window_sum (interleaved_dcode false 0 []) ∧
      (∀ k r, zebra_decode_ean_upto model_h (interleaved_dcode false 0 []) k = .ok r →
        r.1.ean.s4 = window_sum (interleaved_dcode false 0 []) ∧
        r.1.width = (interleaved_dcode false 0 []).width) ∧
      (∀ r, zebra_decode_ean model_h (interleaved_dcode false 0 []) = .ok r →
        r.1.ean.s4 = window_sum r.1 ∧ r.1.width = (interleaved_dcode false 0 []).width) ∧
      (∀ (ws : List Nat) (d0 d : zebra_decoder_t), (∀ k, d0.width k = 0) → d0.ean.s4 = 0 →
        run_edges model_h d0 ws = .ok d → d.ean.s4 = window_sum d) ∧
      (masks_ok model_h → decode_e_ok model_h → state_consts_ok model_h →
        (decoder_inv (interleaved_dcode false 0 []) →
          (interleaved_dcode false 0 []).ean.addon = ZEBRA_NONE →
          ∃ r, zebra_decode_ean model_h (interleaved_dcode false 0 []) = .ok r) ∧
        (∀ (ws : List Nat) (d0 : zebra_decoder_t), decoder_inv d0 →
          d0.ean.addon = ZEBRA_NONE → ∃ d, run_edges model_h d0 ws = .ok d))) :=
  ⟨by decide, C8_s4_invariant model_h (interleaved_dcode false 0 []) (by decide)⟩

/-- Witness of C10 on the interleaved state with the left half of 4006381333931
stored. -/
theorem C10_digit_buffer_invariant_witness :
    (masks_ok model_h ∧ decoder_inv (interleaved_dcode false 13 [4, 0, 0, 6, 3, 8, 1])) ∧
    ((∀ r, zebra_decode_ean model_h (interleaved_dcode false 13 [4, 0, 0, 6, 3, 8, 1]) = .ok r →
        decoder_inv r.1) ∧
      zebra_decode_ean model_h (interleaved_dcode false 13 [4, 0, 0, 6, 3, 8, 1])
        ≠ .error fault.assert_check_parity ∧
      (decode_e_ok model_h → state_consts_ok model_h →
        (interleaved_dcode false 13 [4, 0, 0, 6, 3, 8, 1]).ean.addon = ZEBRA_NONE →
        ∃ r, zebra_decode_ean model_h (interleaved_dcode false 13 [4, 0, 0, 6, 3, 8, 1]) = .ok r ∧
          decoder_inv r.1 ∧ r.1.ean.addon = ZEBRA_NONE)) :=
  ⟨⟨by decide, by decide⟩,
   C10_digit_buffer_invariant model_h (by decide)
     (interleaved_dcode false 13 [4, 0, 0, 6, 3, 8, 1]) (by decide)⟩

theorem parity_bit_cases (x : Nat) :
    (x &&& 0x10 = 0 ∧ parity_bit x = 0) ∨ (x &&& 0x10 = 16 ∧ parity_bit x = 1) := by
  unfold parity_bit
  rcases and_0x10_cases x with h | h <;> rw [h]
  · exact Or.inl ⟨rfl, rfl⟩
  · exact Or.inr ⟨rfl, rfl⟩

theorem ean_part_end7_par_vector (pass : ean_pass_t) (rev : Nat) :
    ean_part_end7_par pass rev =
      if rev = 0 then parity_vector pass.raw 1 6
      else parity_vector (reverse_raw 6 pass.raw) 1 6 := by
  unfold ean_part_end7_par
  simp only [parity_vector, reverse_raw]
  norm_num
  rcases parity_bit_cases (pass.raw 1) with ⟨h1, b1⟩ | ⟨h1, b1⟩ <;>
  rcases parity_bit_cases (pass.raw 2) with ⟨h2, b2⟩ | ⟨h2, b2⟩ <;>
  rcases parity_bit_cases (pass.raw 3) with ⟨h3, b3⟩ | ⟨h3, b3⟩ <;>
  rcases parity_bit_cases (pass.raw 4) with ⟨h4, b4⟩ | ⟨h4, b4⟩ <;>
  rcases parity_bit_cases (pass.raw 5) with ⟨h5, b5⟩ | ⟨h5, b5⟩ <;>
  rcases parity_bit_cases (pass.raw 6) with ⟨h6, b6⟩ | ⟨h6, b6⟩ <;>
  rw [h1, h2, h3, h4, h5, h6, b1, b2, b3, b4, b5, b6] <;> split_ifs <;> decide

theorem ean_part_end7_tag (pass : ean_pass_t) (rev : Nat) :
    (ean_part_end7 pass rev).2 =
      if parity_nibble (ean_part_end7_par pass rev) = 0xf then ZEBRA_NONE
      else if ean_part_end7_par pass rev = 0 then ZEBRA_EAN13 ||| EAN_RIGHT
      else if ean_part_end7_par pass rev &&& 0x20 ≠ 0 then ZEBRA_EAN13 ||| EAN_LEFT
      else ZEBRA_NONE := by
  unfold ean_part_end7 parity_nibble
  simp only []
  split_ifs <;> rfl

theorem ean_part_end7_raw (pass : ean_pass_t) (rev : Nat) :
    (ean_part_end7 pass rev).1.raw =
      if parity_nibble (ean_part_end7_par pass rev) ≠ 0xf ∧
          decide (ean_part_end7_par pass rev = 0) = decide (rev = 0) then
        ean_part_end7_reverse 3 1
          (store pass.raw 0 (parity_nibble (ean_part_end7_par pass rev)))
      else store pass.raw 0 (parity_nibble (ean_part_end7_par pass rev)) := by
  unfold ean_part_end7 parity_nibble
  simp only []
  split_ifs with h1 h2 h3 h4 h5 h6 <;> first | rfl | (exfalso; tauto)

theorem parity_nibble_left (par : Nat) (hp : par < 64) (h20 : par &&& 0x20 ≠ 0)
    (hn : parity_nibble par ≠ 0xf) :
    ∃ d < 10, par = left_parity_pattern d ∧ parity_nibble par = d := by
  interval_cases par <;> first
    | exact absurd rfl h20
    | exact absurd rfl hn
    | exact ⟨0, by decide, by decide, by decide⟩
    | exact ⟨1, by decide, by decide, by decide⟩
    | exact ⟨2, by decide, by decide, by decide⟩
    | exact ⟨3, by decide, by decide, by decide⟩
    | exact ⟨4, by decide, by decide, by decide⟩
    | exact ⟨5, by decide, by decide, by decide⟩
    | exact ⟨6, by decide, by decide, by decide⟩
    | exact ⟨7, by decide, by decide, by decide⟩
    | exact ⟨8, by decide, by decide, by decide⟩
    | exact ⟨9, by decide, by decide, by decide⟩

theorem left_parity_pattern_spec (d : Nat) (hd : d < 10) :
    left_parity_pattern d < 64 ∧ left_parity_pattern d ≠ 0 ∧
    left_parity_pattern d &&& 0x20 ≠ 0 ∧ parity_nibble (left_parity_pattern d) = d := by
  interval_cases d <;> decide

/-- C12: for each digit `d` in `0..9`, when bit 4 of `raw[1..6]` spells (`A = 1`,
`B = 0`, `raw[1]` first) the standard left-half parity pattern of `d` and
`rev = 0`, `ean_part_end7` returns `EAN13|LEFT`, sets `raw[0] = d` and leaves
`raw[1..6]` in place; the ten patterns are the only parity vectors with the top
bit set for which `ean_part_end7` returns a tag other than `NONE` (and `raw[0]`
is then the digit of the pattern), and the map from patterns to leading digits
is one-to-one onto `0..9`. -/
theorem C12_leading_digit (d : Nat) (hd : d < 10) (pass : ean_pass_t)
    (hp : parity_vector pass.raw 1 6 = left_parity_pattern d) :
    ((ean_part_end7 pass 0).2 = ZEBRA_EAN13 ||| EAN_LEFT ∧
      (ean_part_end7 pass 0).1.raw 0 = d ∧
      ∀ i, 1 ≤ i → i ≤ 6 → (ean_part_end7 pass 0).1.raw i = pass.raw i) ∧
    (∀ (p : ean_pass_t) (rev : Nat), ean_part_end7_par p rev &&& 0x20 ≠ 0 →
      (ean_part_end7 p rev).2 ≠ ZEBRA_NONE →
      ∃ x < 10, ean_part_end7_par p rev = left_parity_pattern x ∧
        (ean_part_end7 p rev).1.raw 0 = x) ∧
    (∀ p : ean_pass_t, ean_part_end7_par p 0 = parity_vector p.raw 1 6) ∧
    (∀ x < 10, ∀ y < 10, left_parity_pattern x = left_parity_pattern y → x = y) ∧
    (∀ x < 10, left_parity_pattern x < 64 ∧ left_parity_pattern x &&& 0x20 ≠ 0) := by
  have hpar : ∀ p : ean_pass_t, ean_part_end7_par p 0 = parity_vector p.raw 1 6 := by
    intro p
    rw [ean_part_end7_par_vector, if_pos rfl]
  refine ⟨?_, fun p rev h20 hne => ?_, hpar, fun x hx y hy hxy => ?_, fun x hx => ?_⟩
  · obtain ⟨_, h0, h20, hn⟩ := left_parity_pattern_spec d hd
    have hnf : parity_nibble (left_parity_pattern d) ≠ 0xf := by
      rw [hn]
      omega
    refine ⟨?_, ?_, fun i h1 h6 => ?_⟩
    · rw [ean_part_end7_tag, hpar, hp, if_neg hnf, if_neg h0, if_pos h20]
    · rw [ean_part_end7_raw, hpar, hp, if_neg (by simp [h0]), store_apply, if_pos rfl, hn]
    · rw [ean_part_end7_raw, hpar, hp, if_neg (by simp [h0]), store_apply, if_neg (by omega)]
  · have hnf : parity_nibble (ean_part_end7_par p rev) ≠ 0xf := by
      intro hf
      apply hne
      rw [ean_part_end7_tag, if_pos hf]
    obtain ⟨x, hx, hpx, hnx⟩ := parity_nibble_left _ (ean_part_end7_par_lt p rev) h20 hnf
    refine ⟨x, hx, hpx, ?_⟩
    rw [ean_part_end7_raw]
    split_ifs
    · rw [ean_part_end7_reverse_apply, if_neg (by omega), store_apply, if_pos rfl, hnx]
    · rw [store_apply, if_pos rfl, hnx]
  · have h1 := (left_parity_pattern_spec x hx).2.2.2
    have h2 := (left_parity_pattern_spec y hy).2.2.2
    rw [← h1, ← h2, hxy]
  · exact ⟨(left_parity_pattern_spec x hx).1, (left_parity_pattern_spec x hx).2.2.1⟩

/-- Witness of C12 on the left half of 4006381333931 (pattern ABAABB, leading
digit 4). -/
theorem C12_leading_digit_witness :
    (4 < 10 ∧ parity_vector sample_left13.raw 1 6 = left_parity_pattern 4) ∧
    (ean_part_end7 sample_left13 0).2 = ZEBRA_EAN13 ||| EAN_LEFT ∧
    (ean_part_end7 sample_left13 0).1.raw 0 = 4 ∧
    ∀ i, 1 ≤ i → i ≤ 6 → (ean_part_end7 sample_left13 0).1.raw i = sample_left13.raw i :=
  ⟨⟨by decide, by decide⟩, (C12_leading_digit 4 (by decide) sample_left13 (by decide)).1⟩

/-- C13: for every raw buffer and every `rev`, `ean_part_end7` returns exactly
one of `NONE`, `EAN13|RIGHT`, `EAN13|LEFT` and never a `UPCE` tag: `EAN13|RIGHT`
if and only if the 6-bit parity vector is `0` (and then `raw[0] = 0`),
`EAN13|LEFT` if and only if the vector has its top bit `0x20` set and its table
nibble is not `0xf`, and `NONE` for every other vector, in particular for every
non-zero vector with the top bit clear, whatever its table nibble.  The vector
is the one spelled by bit 4 of `raw[1..6]` (in reverse order when `rev` is not
zero), and `raw[0]` receives its table nibble. -/
theorem C13_part_end7_tags (pass : ean_pass_t) (rev : Nat) :
    ((ean_part_end7 pass rev).2 = ZEBRA_NONE ∨
      (ean_part_end7 pass rev).2 = ZEBRA_EAN13 ||| EAN_RIGHT ∨
      (ean_part_end7 pass rev).2 = ZEBRA_EAN13 ||| EAN_LEFT) ∧
    (ean_part_end7 pass rev).2 ≠ ZEBRA_UPCE ∧
    (ean_part_end7 pass rev).2 ≠ ZEBRA_UPCE ||| EAN_RIGHT ∧
    ((ean_part_end7 pass rev).2 = ZEBRA_EAN13 ||| EAN_RIGHT ↔ ean_part_end7_par pass rev = 0) ∧
    (ean_part_end7_par pass rev = 0 → (ean_part_end7 pass rev).1.raw 0 = 0) ∧
    ((ean_part_end7 pass rev).2 = ZEBRA_EAN13 ||| EAN_LEFT ↔
      ean_part_end7_par pass rev &&& 0x20 ≠ 0 ∧
        parity_nibble (ean_part_end7_par pass rev) ≠ 0xf) ∧
    ((ean_part_end7 pass rev).2 = ZEBRA_NONE ↔
      ean_part_end7_par pass rev ≠ 0 ∧
        ¬ (ean_part_end7_par pass rev &&& 0x20 ≠ 0 ∧
          parity_nibble (ean_part_end7_par pass rev) ≠ 0xf)) ∧
    (ean_part_end7_par pass rev ≠ 0 → ean_part_end7_par pass rev &&& 0x20 = 0 →
      (ean_part_end7 pass rev).2 = ZEBRA_NONE) ∧
    ean_part_end7_par pass rev =
      (if rev = 0 then parity_vector pass.raw 1 6
        else parity_vector (reverse_raw 6 pass.raw) 1 6) ∧
    (ean_part_end7 pass rev).1.raw 0 = parity_nibble (ean_part_end7_par pass rev) := by
  have hlt := ean_part_end7_par_lt pass rev
  have hvec := ean_part_end7_par_vector pass rev
  have hraw0 : (ean_part_end7 pass rev).1.raw 0 = parity_nibble (ean_part_end7_par pass rev) := by
    rw [ean_part_end7_raw]
    split_ifs
    · rw [ean_part_end7_reverse_apply, if_neg (by omega), store_apply, if_pos rfl]
    · rw [store_apply, if_pos rfl]
  rw [hraw0, ean_part_end7_tag]
  refine ⟨?_, ?_, ?_, ?_, ?_, ?_, ?_, ?_, hvec, rfl⟩
  all_goals
    generalize ean_part_end7_par pass rev = par at hlt
    clear hvec hraw0
    interval_cases par <;> decide

theorem forall_1_4 (P : Nat → Prop) :
    (∀ i, 1 ≤ i → i ≤ 4 → P i) ↔ P 1 ∧ P 2 ∧ P 3 ∧ P 4 := by
  constructor
  · intro h
    exact ⟨h 1 (by omega) (by omega), h 2 (by omega) (by omega), h 3 (by omega) (by omega),
      h 4 (by omega) (by omega)⟩
  · rintro ⟨h1, h2, h3, h4⟩ i hi1 hi4
    interval_cases i <;> assumption

theorem ean_part_end4_par_vector (raw : Nat → Nat) :
    ((raw 1 &&& 0x10) >>> 1 ||| (raw 2 &&& 0x10) >>> 2 |||
      (raw 3 &&& 0x10) >>> 3 ||| (raw 4 &&& 0x10) >>> 4) % 256 = parity_vector raw 1 4 := by
  simp only [parity_vector]
  norm_num
  rcases parity_bit_cases (raw 1) with ⟨h1, b1⟩ | ⟨h1, b1⟩ <;>
  rcases parity_bit_cases (raw 2) with ⟨h2, b2⟩ | ⟨h2, b2⟩ <;>
  rcases parity_bit_cases (raw 3) with ⟨h3, b3⟩ | ⟨h3, b3⟩ <;>
  rcases parity_bit_cases (raw 4) with ⟨h4, b4⟩ | ⟨h4, b4⟩ <;>
  rw [h1, h2, h3, h4, b1, b2, b3, b4] <;> decide

theorem ean_part_end4_tag (pass : ean_pass_t) (rev : Nat) :
    (ean_part_end4 pass rev).2 =
      if parity_vector pass.raw 1 4 = 0 then ZEBRA_EAN8 ||| EAN_RIGHT
      else if parity_vector pass.raw 1 4 = 0xf then ZEBRA_EAN8 ||| EAN_LEFT
      else ZEBRA_NONE := by
  unfold ean_part_end4
  simp only []
  rw [ean_part_end4_par_vector]
  split_ifs <;> first | rfl | (exfalso; tauto)

theorem ean_part_end4_raw (pass : ean_pass_t) (rev : Nat) :
    (ean_part_end4 pass rev).1.raw =
      if (parity_vector pass.raw 1 4 = 0 ∧ rev = 0) ∨
          (parity_vector pass.raw 1 4 = 0xf ∧ rev ≠ 0) then reverse_raw 4 pass.raw
      else pass.raw := by
  have hrev : store (store (store (store pass.raw 1 (pass.raw 4)) 4 (pass.raw 1)) 2 (pass.raw 3))
      3 (pass.raw 2) = reverse_raw 4 pass.raw := by
    funext i
    simp only [store_apply, reverse_raw]
    by_cases h : 1 ≤ i ∧ i ≤ 4
    · obtain ⟨h1, h4⟩ := h
      interval_cases i <;> simp
    · rw [if_neg h, if_neg (by omega), if_neg (by omega), if_neg (by omega), if_neg (by omega)]
  unfold ean_part_end4
  simp only [hrev]
  rw [ean_part_end4_par_vector]
  by_cases h0 : parity_vector pass.raw 1 4 = 0 <;> by_cases hf : parity_vector pass.raw 1 4 = 0xf <;>
    by_cases hr : rev = 0 <;> simp [h0, hf, hr]

theorem parity_vector4_clear (raw : Nat → Nat) :
    parity_vector raw 1 4 = 0 ↔ ∀ i, 1 ≤ i → i ≤ 4 → raw i &&& 0x10 = 0 := by
  rw [forall_1_4]
  simp only [parity_vector]
  norm_num
  rcases parity_bit_cases (raw 1) with ⟨h1, b1⟩ | ⟨h1, b1⟩ <;>
  rcases parity_bit_cases (raw 2) with ⟨h2, b2⟩ | ⟨h2, b2⟩ <;>
  rcases parity_bit_cases (raw 3) with ⟨h3, b3⟩ | ⟨h3, b3⟩ <;>
  rcases parity_bit_cases (raw 4) with ⟨h4, b4⟩ | ⟨h4, b4⟩ <;>
  rw [h1, h2, h3, h4, b1, b2, b3, b4] <;> decide

theorem parity_vector4_set (raw : Nat → Nat) :
    parity_vector raw 1 4 = 0xf ↔ ∀ i, 1 ≤ i → i ≤ 4 → raw i &&& 0x10 ≠ 0 := by
  rw [forall_1_4]
  simp only [parity_vector]
  norm_num
  rcases parity_bit_cases (raw 1) with ⟨h1, b1⟩ | ⟨h1, b1⟩ <;>
  rcases parity_bit_cases (raw 2) with ⟨h2, b2⟩ | ⟨h2, b2⟩ <;>
  rcases parity_bit_cases (raw 3) with ⟨h3, b3⟩ | ⟨h3, b3⟩ <;>
  rcases parity_bit_cases (raw 4) with ⟨h4, b4⟩ | ⟨h4, b4⟩ <;>
  rw [h1, h2, h3, h4, b1, b2, b3, b4] <;> decide

theorem ean_part_end4_none (pass : ean_pass_t) (rev : Nat) :
    (ean_part_end4 pass rev).2 = ZEBRA_NONE → (ean_part_end4 pass rev).1 = pass := by
  unfold ean_part_end4
  simp only []
  split_ifs <;> intro hn <;> first
    | rfl
    | exact absurd hn (show ¬ (ZEBRA_EAN8 ||| EAN_RIGHT = ZEBRA_NONE) by decide)
    | exact absurd hn (show ¬ (ZEBRA_EAN8 ||| EAN_LEFT = ZEBRA_NONE) by decide)

/-- C14: for every raw buffer and every `rev`, `ean_part_end4` returns
`EAN8|RIGHT` if and only if bit 4 is clear in all of `raw[1..4]`, `EAN8|LEFT` if
and only if bit 4 is set in all of `raw[1..4]`, and `NONE` otherwise; when it
returns `NONE` the pass is unchanged, and otherwise `raw[1..4]` is reversed
(`raw[1]` with `raw[4]`, `raw[2]` with `raw[3]`) exactly when (all four bits are
set, the parity being `0xf`) is equivalent to (`rev` is not zero); `raw[0]`,
`raw[5]` and `raw[6]` are always unchanged. -/
theorem C14_part_end4 (pass : ean_pass_t) (rev : Nat) :
    ((ean_part_end4 pass rev).2 = ZEBRA_EAN8 ||| EAN_RIGHT ↔
      ∀ i, 1 ≤ i → i ≤ 4 → pass.raw i &&& 0x10 = 0) ∧
    ((ean_part_end4 pass rev).2 = ZEBRA_EAN8 ||| EAN_LEFT ↔
      ∀ i, 1 ≤ i → i ≤ 4 → pass.raw i &&& 0x10 ≠ 0) ∧
    ((ean_part_end4 pass rev).2 = ZEBRA_NONE ↔
      ¬ (∀ i, 1 ≤ i → i ≤ 4 → pass.raw i &&& 0x10 = 0) ∧
      ¬ (∀ i, 1 ≤ i → i ≤ 4 → pass.raw i &&& 0x10 ≠ 0)) ∧
    ((ean_part_end4 pass rev).2 = ZEBRA_NONE → (ean_part_end4 pass rev).1 = pass) ∧
    ((ean_part_end4 pass rev).2 ≠ ZEBRA_NONE →
      (((∀ i, 1 ≤ i → i ≤ 4 → pass.raw i &&& 0x10 ≠ 0) ↔ rev ≠ 0) →
        (ean_part_end4 pass rev).1.raw 1 = pass.raw 4 ∧
        (ean_part_end4 pass rev).1.raw 2 = pass.raw 3 ∧
        (ean_part_end4 pass rev).1.raw 3 = pass.raw 2 ∧
        (ean_part_end4 pass rev).1.raw 4 = pass.raw 1) ∧
      (¬ ((∀ i, 1 ≤ i → i ≤ 4 → pass.raw i &&& 0x10 ≠ 0) ↔ rev ≠ 0) →
        ∀ i, (ean_part_end4 pass rev).1.raw i = pass.raw i)) ∧
    (∀ i, i = 0 ∨ 5 ≤ i → (ean_part_end4 pass rev).1.raw i = pass.raw i) ∧
    (ean_part_end4 pass rev).1.state = pass.state := by
  have hnone := ean_part_end4_none pass rev
  rw [← parity_vector4_clear, ← parity_vector4_set, ean_part_end4_raw]
  rw [ean_part_end4_tag] at hnone ⊢
  refine ⟨?_, ?_, ?_, ?_, ?_, ?_, (ean_part_end4_spec pass rev).2.1⟩
  · by_cases h0 : parity_vector pass.raw 1 4 = 0 <;>
      by_cases hf : parity_vector pass.raw 1 4 = 0xf <;>
      simp [h0, hf, ZEBRA_EAN8, EAN_RIGHT, EAN_LEFT, ZEBRA_NONE]
  · by_cases h0 : parity_vector pass.raw 1 4 = 0 <;>
      by_cases hf : parity_vector pass.raw 1 4 = 0xf <;>
      simp [h0, hf, ZEBRA_EAN8, EAN_RIGHT, EAN_LEFT, ZEBRA_NONE]
  · by_cases h0 : parity_vector pass.raw 1 4 = 0 <;>
      by_cases hf : parity_vector pass.raw 1 4 = 0xf <;>
      simp [h0, hf, ZEBRA_EAN8, EAN_RIGHT, EAN_LEFT, ZEBRA_NONE]
  · exact hnone
  · intro hn
    have hv : parity_vector pass.raw 1 4 = 0 ∨ parity_vector pass.raw 1 4 = 0xf := by
      by_contra hc
      rw [not_or] at hc
      apply hn
      rw [if_neg hc.1, if_neg hc.2]
    constructor
    · intro hiff
      have hc : (parity_vector pass.raw 1 4 = 0 ∧ rev = 0) ∨
          (parity_vector pass.raw 1 4 = 0xf ∧ rev ≠ 0) := by
        rcases hv with hv | hv
        · left
          refine ⟨hv, ?_⟩
          by_contra hr
          have := hiff.2 hr
          rw [hv] at this
          exact absurd this (by decide)
        · exact Or.inr ⟨hv, hiff.1 hv⟩
      rw [if_pos hc]
      simp [reverse_raw]
    · intro hiff
      have hc : ¬ ((parity_vector pass.raw 1 4 = 0 ∧ rev = 0) ∨
          (parity_vector pass.raw 1 4 = 0xf ∧ rev ≠ 0)) := by
        rintro (⟨h0, hr⟩ | ⟨hf, hr⟩)
        · apply hiff
          rw [h0]
          simp [hr]
        · apply hiff
          simp [hf, hr]
      rw [if_neg hc]
      intro i
      rfl
  · intro i hi
    split_ifs
    · simp only [reverse_raw]
      rw [if_neg (by omega)]
    · rfl
theorem reverse_raw_twice (n : Nat) (raw : Nat → Nat) :
    reverse_raw n (reverse_raw n raw) = raw := by
  funext i
  simp only [reverse_raw]
  by_cases h : 1 ≤ i ∧ i ≤ n
  · rw [if_pos h, if_pos (by omega)]
    congr 1
    omega
  · rw [if_neg h, if_neg h]

theorem parity_vector_congr (a b : Nat → Nat) (first n : Nat)
    (h : ∀ i, first ≤ i → i < first + n → a i = b i) :
    parity_vector a first n = parity_vector b first n := by
  induction n with
  | zero => rfl
  | succ n ih =>
    simp only [parity_vector]
    rw [ih (fun i h1 h2 => h i h1 (by omega)), h (first + n) (by omega) (by omega)]

theorem parity_vector4_reverse (raw : Nat → Nat) :
    (parity_vector (reverse_raw 4 raw) 1 4 = 0 ↔ parity_vector raw 1 4 = 0) ∧
    (parity_vector (reverse_raw 4 raw) 1 4 = 0xf ↔ parity_vector raw 1 4 = 0xf) := by
  rw [parity_vector4_clear, parity_vector4_clear, parity_vector4_set, parity_vector4_set,
    forall_1_4, forall_1_4, forall_1_4, forall_1_4]
  simp only [reverse_raw]
  norm_num
  tauto

theorem ean_part_end7_reverse_eq (raw : Nat → Nat) :
    ean_part_end7_reverse 3 1 raw = reverse_raw 6 raw := by
  funext i
  rw [ean_part_end7_reverse_apply]
  rfl

theorem reverse_raw_store_zero (n : Nat) (raw : Nat → Nat) (v : Nat) :
    reverse_raw n (store raw 0 v) = store (reverse_raw n raw) 0 v := by
  funext i
  simp only [reverse_raw, store_apply]
  by_cases h : 1 ≤ i ∧ i ≤ n
  · rw [if_pos h, if_neg (by omega), if_neg (by omega), if_pos h]
  · rw [if_neg h, if_neg h]

/-- C15: scan-direction symmetry of half-symbol finalisation.  For passes `a`
and `b` whose bytes `raw[1..6]` are each other's reversal, `ean_part_end7` with
`rev = 0` on `a` and with `rev = 1` on `b` return the same tag and, whenever the
parity nibble is valid (not `0xf`), leave identical `raw[0..6]`; for passes `c`
and `d` whose bytes `raw[1..4]` are each other's reversal, `ean_part_end4` with
`rev = 0` on `c` and with `rev = 1` on `d` return the same tag and, when that
tag is not `NONE`, leave identical `raw[1..4]`. -/
theorem C15_scan_symmetry (a b c d : ean_pass_t)
    (hab : ∀ i, 1 ≤ i → i ≤ 6 → b.raw i = a.raw (7 - i))
    (hcd : ∀ i, 1 ≤ i → i ≤ 4 → d.raw i = c.raw (5 - i)) :
    ((ean_part_end7 a 0).2 = (ean_part_end7 b 1).2 ∧
      ean_part_end7_par a 0 = ean_part_end7_par b 1 ∧
      (parity_nibble (ean_part_end7_par a 0) ≠ 0xf →
        ∀ i ≤ 6, (ean_part_end7 a 0).1.raw i = (ean_part_end7 b 1).1.raw i)) ∧
    ((ean_part_end4 c 0).2 = (ean_part_end4 d 1).2 ∧
      ((ean_part_end4 c 0).2 ≠ ZEBRA_NONE →
        ∀ i, 1 ≤ i → i ≤ 4 → (ean_part_end4 c 0).1.raw i = (ean_part_end4 d 1).1.raw i)) := by
  have hpar : ean_part_end7_par a 0 = ean_part_end7_par b 1 := by
    rw [ean_part_end7_par_vector, ean_part_end7_par_vector, if_pos rfl, if_neg (by decide)]
    apply parity_vector_congr
    intro i h1 h2
    simp only [reverse_raw]
    rw [if_pos ⟨h1, by omega⟩, hab _ (by omega) (by omega)]
    congr 1
    omega
  have hb6 : ∀ i, 1 ≤ i → i ≤ 6 → b.raw i = reverse_raw 6 a.raw i := by
    intro i h1 h6
    simp only [reverse_raw]
    rw [if_pos ⟨h1, h6⟩, hab i h1 h6]
  have hd4 : ∀ i, 1 ≤ i → i ≤ 4 → d.raw i = reverse_raw 4 c.raw i := by
    intro i h1 h4
    simp only [reverse_raw]
    rw [if_pos ⟨h1, h4⟩, hcd i h1 h4]
  have hv4 : parity_vector d.raw 1 4 = parity_vector (reverse_raw 4 c.raw) 1 4 :=
    parity_vector_congr _ _ 1 4 (fun i h1 h2 => hd4 i h1 (by omega))
  refine ⟨⟨?_, hpar, fun hn i hi => ?_⟩, ?_, fun hn i h1 h4 => ?_⟩
  · rw [ean_part_end7_tag, ean_part_end7_tag, hpar]
  · rw [ean_part_end7_raw, ean_part_end7_raw, ← hpar, ean_part_end7_reverse_eq,
      ean_part_end7_reverse_eq, reverse_raw_store_zero, reverse_raw_store_zero]
    by_cases h0 : ean_part_end7_par a 0 = 0
    · rw [if_pos ⟨hn, by simp [h0]⟩, if_neg (by simp [h0])]
      simp only [store_apply]
      split_ifs with hi0
      · rfl
      · exact (hb6 i (by omega) hi).symm
    · rw [if_neg (by simp [h0]), if_pos ⟨hn, by simp [h0]⟩]
      simp only [store_apply]
      split_ifs with hi0
      · rfl
      · simp only [reverse_raw]
        rw [if_pos ⟨by omega, hi⟩, hab _ (by omega) (by omega)]
        congr 1
        omega
  · rw [ean_part_end4_tag, ean_part_end4_tag, hv4]
    by_cases h0 : parity_vector c.raw 1 4 = 0 <;>
      by_cases hf : parity_vector c.raw 1 4 = 0xf <;>
      simp [h0, hf, (parity_vector4_reverse c.raw).1, (parity_vector4_reverse c.raw).2]
  · rw [ean_part_end4_tag] at hn
    rw [ean_part_end4_raw, ean_part_end4_raw, hv4]
    by_cases h0 : parity_vector c.raw 1 4 = 0
    · have h0' := (parity_vector4_reverse c.raw).1.2 h0
      have hneg : ¬ ((parity_vector (reverse_raw 4 c.raw) 1 4 = 0 ∧ 1 = 0) ∨
          (parity_vector (reverse_raw 4 c.raw) 1 4 = 0xf ∧ 1 ≠ 0)) := by
        rintro (⟨_, h⟩ | ⟨h, _⟩)
        · exact absurd h (by decide)
        · rw [h0'] at h
          exact absurd h (by decide)
      rw [if_pos (Or.inl ⟨h0, rfl⟩), if_neg hneg]
      exact (hd4 i h1 h4).symm
    · have hf : parity_vector c.raw 1 4 = 0xf := by
        by_contra hf
        apply hn
        rw [if_neg h0, if_neg hf]
      have hf' := (parity_vector4_reverse c.raw).2.2 hf
      have hneg : ¬ ((parity_vector c.raw 1 4 = 0 ∧ 0 = 0) ∨
          (parity_vector c.raw 1 4 = 0xf ∧ 0 ≠ 0)) := by
        rintro (⟨h, _⟩ | ⟨_, h⟩)
        · exact h0 h
        · exact h rfl
      rw [if_neg hneg, if_pos (Or.inr ⟨hf', by decide⟩)]
      simp only [reverse_raw]
      rw [if_pos ⟨h1, h4⟩, hcd _ (by omega) (by omega)]
      congr 1
      omega

/-- Witness of C15: the left half of 4006381333931 read forwards and backwards,
and the left half of 96385074 read forwards and backwards. -/
theorem C15_scan_symmetry_witness :
    ((∀ i, 1 ≤ i → i ≤ 6 →
        (pass_of 0x15 [0, 0x01, 0x08, 0x13, 0x16, 0x00, 0x10]).raw i = sample_left13.raw (7 - i)) ∧
      (∀ i, 1 ≤ i → i ≤ 4 →
        (pass_of 0x0f [0, 0x18, 0x13, 0x16, 0x19]).raw i = sample_left8.raw (5 - i))) ∧
    (((ean_part_end7 sample_left13 0).2
          = (ean_part_end7 (pass_of 0x15 [0, 0x01, 0x08, 0x13, 0x16, 0x00, 0x10]) 1).2 ∧
        ean_part_end7_par sample_left13 0
          = ean_part_end7_par (pass_of 0x15 [0, 0x01, 0x08, 0x13, 0x16, 0x00, 0x10]) 1 ∧
        (parity_nibble (ean_part_end7_par sample_left13 0) ≠ 0xf →
          ∀ i ≤ 6, (ean_part_end7 sample_left13 0).1.raw i
            = (ean_part_end7 (pass_of 0x15 [0, 0x01, 0x08, 0x13, 0x16, 0x00, 0x10]) 1).1.raw i)) ∧
      ((ean_part_end4 sample_left8 0).2
          = (ean_part_end4 (pass_of 0x0f [0, 0x18, 0x13, 0x16, 0x19]) 1).2 ∧
        ((ean_part_end4 sample_left8 0).2 ≠ ZEBRA_NONE →
          ∀ i, 1 ≤ i → i ≤ 4 → (ean_part_end4 sample_left8 0).1.raw i
            = (ean_part_end4 (pass_of 0x0f [0, 0x18, 0x13, 0x16, 0x19]) 1).1.raw i))) :=
  ⟨⟨by decide, by decide⟩,
   C15_scan_symmetry sample_left13 (pass_of 0x15 [0, 0x01, 0x08, 0x13, 0x16, 0x00, 0x10])
     sample_left8 (pass_of 0x0f [0, 0x18, 0x13, 0x16, 0x19]) (by decide) (by decide)⟩

theorem decode4_eq (H : decoder_h) (dcode : zebra_decoder_t) :
    decode4 H dcode =
      if s8 (w32 (u32 (H.decode_e (decode4_e1 dcode) dcode.ean.s4 7) <<< 2) |||
          u32 (H.decode_e (decode4_e2 dcode) dcode.ean.s4 7)) < 0 then .ok (-1)
      else if decode4_resolve
          (s8 (w32 (u32 (H.decode_e (decode4_e1 dcode) dcode.ean.s4 7) <<< 2) |||
            u32 (H.decode_e (decode4_e2 dcode) dcode.ean.s4 7))).toNat
          (decode4_d2 dcode) dcode.ean.s4 < 0x14 then
        .ok ((decode4_resolve
          (s8 (w32 (u32 (H.decode_e (decode4_e1 dcode) dcode.ean.s4 7) <<< 2) |||
            u32 (H.decode_e (decode4_e2 dcode) dcode.ean.s4 7))).toNat
          (decode4_d2 dcode) dcode.ean.s4 : Nat) : Int)
      else .error fault.assert_decode4 := by
  unfold decode4 decode4_e1 decode4_e2 decode4_d2 decode4_resolve
  by_cases hb : get_color dcode = zebra_color_t.ZEBRA_BAR <;> simp [hb]

theorem decode4_code_value (a b : Int)
    (ha : a = -1 ∨ a = 0 ∨ a = 1 ∨ a = 2 ∨ a = 3) (hb : b = -1 ∨ b = 0 ∨ b = 1 ∨ b = 2 ∨ b = 3) :
    ((a < 0 ∨ b < 0) → s8 (w32 (u32 a <<< 2) ||| u32 b) < 0) ∧
    (¬ (a < 0 ∨ b < 0) → s8 (w32 (u32 a <<< 2) ||| u32 b) = 4 * a + b) := by
  rcases ha with rfl | rfl | rfl | rfl | rfl <;> rcases hb with rfl | rfl | rfl | rfl | rfl <;>
    decide

theorem decode4_resolve_lt (c d2 s4 : Nat) (hc : c < 16) : decode4_resolve c d2 s4 < 0x14 := by
  unfold decode4_resolve
  have halt := alt_code_lt c
  split_ifs <;> omega

theorem s8_neg_iff (n : Nat) : s8 n < 0 ↔ n.testBit 7 = true := by
  rw [Nat.testBit_to_div_mod]
  unfold s8
  simp only [decide_eq_true_eq]
  split_ifs <;> omega

theorem decode4_code_signed (a b : Int)
    (ha : (0 ≤ a ∧ a ≤ 3) ∨ (a < 0 ∧ 32 ≤ a % 64 ∧ 128 ≤ a % 256))
    (hb : (0 ≤ b ∧ b ≤ 3) ∨ (b < 0 ∧ 32 ≤ b % 64 ∧ 128 ≤ b % 256)) :
    ((a < 0 ∨ b < 0) → s8 (w32 (u32 a <<< 2) ||| u32 b) < 0) ∧
    (¬ (a < 0 ∨ b < 0) → s8 (w32 (u32 a <<< 2) ||| u32 b) = 4 * a + b) := by
  constructor
  · intro hneg
    rw [s8_neg_iff, Nat.testBit_or, Bool.or_eq_true]
    by_cases han : a < 0
    · left
      rw [Nat.testBit_to_div_mod]
      simp only [decide_eq_true_eq]
      unfold w32 u32
      rw [Nat.shiftLeft_eq]
      omega
    · right
      rw [Nat.testBit_to_div_mod]
      simp only [decide_eq_true_eq]
      unfold u32
      omega
  · intro hnn
    exact (decode4_code_value a b (by omega) (by omega)).2 hnn

/-- A ratio decoder whose invalid value is `-1` keeps the contract. -/
theorem decode_e_signed_ok_of_ok (H : decoder_h) (hE : decode_e_ok H) :
    decode_e_signed_ok H := by
  intro e s n
  rcases hE e s n with h | h
  · right
    rw [h]
    decide
  · exact Or.inl h

/-- A ratio decoder whose values all lie in `-32..3` keeps the contract. -/
theorem decode_e_signed_ok_of_range (H : decoder_h)
    (hE : ∀ e s n, -32 ≤ H.decode_e e s n ∧ H.decode_e e s n ≤ 3) : decode_e_signed_ok H := by
  intro e s n
  obtain ⟨h1, h2⟩ := hE e s n
  omega

theorem marked_h_signed_ok (v : Int)
    (hv : (0 ≤ v ∧ v ≤ 3) ∨ (v < 0 ∧ 32 ≤ v % 64 ∧ 128 ≤ v % 256)) :
    decode_e_signed_ok (marked_h v) := by
  intro e s n
  show (0 ≤ (if e = 2 then v else 0) ∧ (if e = 2 then v else 0) ≤ 3) ∨
    ((if e = 2 then v else 0) < 0 ∧ 32 ≤ (if e = 2 then v else 0) % 64 ∧
      128 ≤ (if e = 2 then v else 0) % 256)
  split_ifs
  · exact hv
  · exact Or.inl (by decide)

theorem decode4_of_codes (H : decoder_h) (hE : decode_e_signed_ok H) (dcode : zebra_decoder_t) :
    ((H.decode_e (decode4_e1 dcode) dcode.ean.s4 7 < 0 ∨
        H.decode_e (decode4_e2 dcode) dcode.ean.s4 7 < 0) ∧ decode4 H dcode = .ok (-1)) ∨
    (¬ (H.decode_e (decode4_e1 dcode) dcode.ean.s4 7 < 0 ∨
        H.decode_e (decode4_e2 dcode) dcode.ean.s4 7 < 0) ∧
      ∃ a b : Nat, a ≤ 3 ∧ b ≤ 3 ∧ H.decode_e (decode4_e1 dcode) dcode.ean.s4 7 = (a : Int) ∧
        H.decode_e (decode4_e2 dcode) dcode.ean.s4 7 = (b : Int) ∧
        decode4 H dcode
          = .ok ((decode4_resolve (4 * a + b) (decode4_d2 dcode) dcode.ean.s4 : Nat) : Int)) := by
  have h1 := hE (decode4_e1 dcode) dcode.ean.s4 7
  have h2 := hE (decode4_e2 dcode) dcode.ean.s4 7
  obtain ⟨hneg, hval⟩ := decode4_code_signed _ _ h1 h2
  rw [decode4_eq]
  by_cases hinv : H.decode_e (decode4_e1 dcode) dcode.ean.s4 7 < 0 ∨
      H.decode_e (decode4_e2 dcode) dcode.ean.s4 7 < 0
  · left
    refine ⟨hinv, ?_⟩
    rw [if_pos (hneg hinv)]
  · right
    refine ⟨hinv, ?_⟩
    have hcode := hval hinv
    rw [not_or] at hinv
    obtain ⟨a, ha⟩ := Int.eq_ofNat_of_zero_le (not_lt.mp hinv.1)
    obtain ⟨b, hb⟩ := Int.eq_ofNat_of_zero_le (not_lt.mp hinv.2)
    have ha3 : a ≤ 3 := by omega
    have hb3 : b ≤ 3 := by omega
    refine ⟨a, b, ha3, hb3, ha, hb, ?_⟩
    rw [hcode, ha, hb]
    have hnn : ¬ ((4 : Int) * (a : Int) + (b : Int) < 0) := by omega
    rw [if_neg hnn]
    have htn : ((4 : Int) * (a : Int) + (b : Int)).toNat = 4 * a + b := by omega
    rw [htn, if_pos (decode4_resolve_lt _ _ _ (by omega))]
theorem decode4_resolve_eq (c d2 s4 : Nat) (hc : c < 16) :
    decode4_resolve c d2 s4 =
      if c = 5 ∧ d2 > w32 (3 * s4) then 0x12
      else if c = 10 ∧ d2 > w32 (3 * s4) then 0x11
      else if c = 6 ∧ d2 > w32 (4 * s4) then 0x13
      else if c = 9 ∧ d2 > w32 (4 * s4) then 0x10
      else c := by
  have hamb : ∀ x < 16, ((1 <<< x) &&& 0x0660 ≠ 0 ↔ x = 5 ∨ x = 6 ∨ x = 9 ∨ x = 10) := by
    decide
  have hmid : ∀ x < 16, (if (1 <<< x) &&& 0x0420 ≠ 0 then 3 else 4)
      = if x = 5 ∨ x = 10 then 3 else 4 := by
    decide
  have halt : ∀ x < 16, ((x >>> 1) &&& 3) ||| 0x10
      = if x = 5 then 0x12 else if x = 10 then 0x11 else if x = 6 then 0x13
        else if x = 9 then 0x10 else ((x >>> 1) &&& 3) ||| 0x10 := by
    decide
  unfold decode4_resolve
  simp only [hamb c hc, hmid c hc]
  rw [halt c hc]
  interval_cases c <;> simp

theorem decode4_resolve_cases (c d2 s4 : Nat) (hc : c < 16) :
    (decode4_resolve c d2 s4 = 0x10 ↔ c = 9 ∧ d2 > w32 (4 * s4)) ∧
    (decode4_resolve c d2 s4 = 0x11 ↔ c = 10 ∧ d2 > w32 (3 * s4)) ∧
    (decode4_resolve c d2 s4 = 0x12 ↔ c = 5 ∧ d2 > w32 (3 * s4)) ∧
    (decode4_resolve c d2 s4 = 0x13 ↔ c = 6 ∧ d2 > w32 (4 * s4)) := by
  rw [decode4_resolve_eq c d2 s4 hc]
  refine ⟨?_, ?_, ?_, ?_⟩ <;> split_ifs <;> constructor <;> intro h <;> omega

/-- C17 (as amended): provided the ratio decoder returns either a value in `0..3`
or a negative value that stays negative in the packed `signed char` code (one
whose two's-complement bits 5 and 7 are set: every value in `-32..-1`, among
others), `decode4` returns `-1` exactly when at least one of its two edge pairs
is invalid, and otherwise returns a code in `0..19`, so its assertion
`code < 0x14` never fails and `digits[]` is read in bounds; the alternate codes
`0x10`, `0x11`, `0x12`, `0x13` are returned exactly for the preliminary codes 9,
10, 5, 6 (`E1E2` = 43, 44, 33, 34, the ratio values being the module counts less
2) when `7 * (sum of the two bar widths)` is greater than `mid * s4` in
`unsigned` arithmetic, with `mid = 3` for 33 and 44 and `mid = 4` for 34 and
43. -/
theorem C17_decode4_safety (H : decoder_h) (hE : decode_e_signed_ok H)
    (dcode : zebra_decoder_t) :
    (decode4 H dcode = .ok (-1) ↔
      (H.decode_e (decode4_e1 dcode) dcode.ean.s4 7 < 0 ∨
        H.decode_e (decode4_e2 dcode) dcode.ean.s4 7 < 0)) ∧
    (¬ (H.decode_e (decode4_e1 dcode) dcode.ean.s4 7 < 0 ∨
        H.decode_e (decode4_e2 dcode) dcode.ean.s4 7 < 0) →
      ∃ c : Nat, c < 0x14 ∧ decode4 H dcode = .ok (c : Int) ∧
        u8 (c : Int) < digits.length) ∧
    decode4 H dcode ≠ .error fault.assert_decode4 ∧
    (decode4 H dcode = .ok 0x10 ↔
      H.decode_e (decode4_e1 dcode) dcode.ean.s4 7 = 2 ∧
      H.decode_e (decode4_e2 dcode) dcode.ean.s4 7 = 1 ∧
      decode4_d2 dcode > w32 (4 * dcode.ean.s4)) ∧
    (decode4 H dcode = .ok 0x11 ↔
      H.decode_e (decode4_e1 dcode) dcode.ean.s4 7 = 2 ∧
      H.decode_e (decode4_e2 dcode) dcode.ean.s4 7 = 2 ∧
      decode4_d2 dcode > w32 (3 * dcode.ean.s4)) ∧
    (decode4 H dcode = .ok 0x12 ↔
      H.decode_e (decode4_e1 dcode) dcode.ean.s4 7 = 1 ∧
      H.decode_e (decode4_e2 dcode) dcode.ean.s4 7 = 1 ∧
      decode4_d2 dcode > w32 (3 * dcode.ean.s4)) ∧
    (decode4 H dcode = .ok 0x13 ↔
      H.decode_e (decode4_e1 dcode) dcode.ean.s4 7 = 1 ∧
      H.decode_e (decode4_e2 dcode) dcode.ean.s4 7 = 2 ∧
      decode4_d2 dcode > w32 (4 * dcode.ean.s4)) := by
  refine ⟨?_, ?_, ?_, ?_⟩
  · rcases decode4_of_codes H hE dcode with ⟨hinv, h4⟩ | ⟨hinv, a, b, _, _, _, _, h4⟩
    · exact ⟨fun _ => hinv, fun _ => h4⟩
    · rw [h4]
      constructor
      · intro h
        simp only [Except.ok.injEq] at h
        omega
      · intro h
        exact absurd h hinv
  · intro hinv
    rcases decode4_of_codes H hE dcode with ⟨hinv', _⟩ | ⟨_, a, b, ha, hb, _, _, h4⟩
    · exact absurd hinv' hinv
    · have hlt := decode4_resolve_lt (4 * a + b) (decode4_d2 dcode) dcode.ean.s4 (by omega)
      refine ⟨_, hlt, h4, ?_⟩
      have hlen : digits.length = 20 := rfl
      rw [hlen]
      unfold u8
      omega
  · rcases decode4_of_codes H hE dcode with ⟨_, h4⟩ | ⟨_, a, b, _, _, _, _, h4⟩ <;>
      rw [h4] <;> simp
  · rcases decode4_of_codes H hE dcode with ⟨hinv, h4⟩ | ⟨hinv, a, b, ha, hb, hea, heb, h4⟩
    · rw [h4]
      simp only [Except.ok.injEq]
      refine ⟨?_, ?_, ?_, ?_⟩ <;> constructor <;> intro h <;> omega
    · obtain ⟨r0, r1, r2, r3⟩ :=
        decode4_resolve_cases (4 * a + b) (decode4_d2 dcode) dcode.ean.s4 (by omega)
      rw [h4, hea, heb]
      simp only [Except.ok.injEq]
      refine ⟨?_, ?_, ?_, ?_⟩
      · rw [show ((0x10 : Int)) = ((0x10 : Nat) : Int) from rfl, Int.ofNat_inj, r0]
        constructor
        · rintro ⟨hc, hd⟩
          exact ⟨by omega, by omega, hd⟩
        · rintro ⟨h1, h2, hd⟩
          exact ⟨by omega, hd⟩
      · rw [show ((0x11 : Int)) = ((0x11 : Nat) : Int) from rfl, Int.ofNat_inj, r1]
        constructor
        · rintro ⟨hc, hd⟩
          exact ⟨by omega, by omega, hd⟩
        · rintro ⟨h1, h2, hd⟩
          exact ⟨by omega, hd⟩
      · rw [show ((0x12 : Int)) = ((0x12 : Nat) : Int) from rfl, Int.ofNat_inj, r2]
        constructor
        · rintro ⟨hc, hd⟩
          exact ⟨by omega, by omega, hd⟩
        · rintro ⟨h1, h2, hd⟩
          exact ⟨by omega, hd⟩
      · rw [show ((0x13 : Int)) = ((0x13 : Nat) : Int) from rfl, Int.ofNat_inj, r3]
        constructor
        · rintro ⟨hc, hd⟩
          exact ⟨by omega, by omega, hd⟩
        · rintro ⟨h1, h2, hd⟩
          exact ⟨by omega, hd⟩

/-- Witness of C17 (as amended): the set-A character 0 with a ratio decoder
that reports its first edge pair as invalid by the value `-32`; `decode4`
returns `-1`. -/
theorem C17_decode4_safety_witness :
    decode_e_signed_ok (marked_h (-32)) ∧
    (decode4 (marked_h (-32)) (guard_dcode zebra_color_t.ZEBRA_BAR) = .ok (-1) ↔
      ((marked_h (-32)).decode_e (decode4_e1 (guard_dcode zebra_color_t.ZEBRA_BAR))
          (guard_dcode zebra_color_t.ZEBRA_BAR).ean.s4 7 < 0 ∨
        (marked_h (-32)).decode_e (decode4_e2 (guard_dcode zebra_color_t.ZEBRA_BAR))
          (guard_dcode zebra_color_t.ZEBRA_BAR).ean.s4 7 < 0)) ∧
    decode4 (marked_h (-32)) (guard_dcode zebra_color_t.ZEBRA_BAR)
      ≠ .error fault.assert_decode4 ∧
    (marked_h (-32)).decode_e (decode4_e1 (guard_dcode zebra_color_t.ZEBRA_BAR))
      (guard_dcode zebra_color_t.ZEBRA_BAR).ean.s4 7 = -32 ∧
    decode4 (marked_h (-32)) (guard_dcode zebra_color_t.ZEBRA_BAR) = .ok (-1) ∧
    decode4 model_h (guard_dcode zebra_color_t.ZEBRA_BAR) = .ok 1 :=
  ⟨marked_h_signed_ok (-32) (by decide),
   (C17_decode4_safety (marked_h (-32)) (marked_h_signed_ok (-32) (by decide))
     (guard_dcode zebra_color_t.ZEBRA_BAR)).1,
   (C17_decode4_safety (marked_h (-32)) (marked_h_signed_ok (-32) (by decide))
     (guard_dcode zebra_color_t.ZEBRA_BAR)).2.2.1,
   by decide, by decide, by decide⟩

/-- C17 fails as stated: a ratio decoder may report an invalid edge pair by any
negative value.  With `-64` for the first edge pair (and `0` for the second) the
compacted code `(-64 << 2) | 0` is `0` as a `signed char`, and `decode4` returns
`0` instead of `-1`; with `-59` the code is `20`, and the assertion
`code < 0x14` fails.  The value `-33` is the one closest to zero for which the
claim fails (the code is `124`, and the assertion fails); with `-32` and with
`-1` the first edge pair is recognised as invalid. -/
theorem C17_decode4_counterexample :
    (∀ e s n, (marked_h (-64)).decode_e e s n < 0 ∨
      (0 ≤ (marked_h (-64)).decode_e e s n ∧ (marked_h (-64)).decode_e e s n ≤ 3)) ∧
    (marked_h (-64)).decode_e (decode4_e1 (guard_dcode zebra_color_t.ZEBRA_BAR))
      (guard_dcode zebra_color_t.ZEBRA_BAR).ean.s4 7 < 0 ∧
    decode4 (marked_h (-64)) (guard_dcode zebra_color_t.ZEBRA_BAR) = .ok 0 ∧
    (∀ e s n, (marked_h (-59)).decode_e e s n < 0 ∨
      (0 ≤ (marked_h (-59)).decode_e e s n ∧ (marked_h (-59)).decode_e e s n ≤ 3)) ∧
    decode4 (marked_h (-59)) (guard_dcode zebra_color_t.ZEBRA_BAR)
      = .error fault.assert_decode4 ∧
    decode4 (marked_h (-33)) (guard_dcode zebra_color_t.ZEBRA_BAR)
      = .error fault.assert_decode4 ∧
    decode4 (marked_h (-32)) (guard_dcode zebra_color_t.ZEBRA_BAR) = .ok (-1) ∧
    decode4 (marked_h (-1)) (guard_dcode zebra_color_t.ZEBRA_BAR) = .ok (-1) := by
  refine ⟨fun e s n => ?_, by decide, by decide, fun e s n => ?_, by decide, by decide,
    by decide, by decide⟩
  · show (if e = 2 then (-64 : Int) else 0) < 0 ∨
      (0 ≤ (if e = 2 then (-64 : Int) else 0) ∧ (if e = 2 then (-64 : Int) else 0) ≤ 3)
    split_ifs <;> decide
  · show (if e = 2 then (-59 : Int) else 0) < 0 ∨
      (0 ≤ (if e = 2 then (-59 : Int) else 0) ∧ (if e = 2 then (-59 : Int) else 0) ≤ 3)
    split_ifs <;> decide

/-- C18 (as amended): for every pass whose state reaches `0` on an edge (state
`-1` before the increment) with `s4` non-zero, if `aux_start` rejects the guard
(returns a negative value), `decode_pass` returns `NONE`, leaves the pass's raw
buffer unchanged, and leaves in the pass state the value `aux_start` returned:
the state is not `0` but negative, and it is `-1` whenever the add-on marker is
not negative as a `signed char`. -/
theorem C18_rejected_start (H : decoder_h) (dcode : zebra_decoder_t) (pass : ean_pass_t)
    (hst : pass.state = -1) (hs4 : dcode.ean.s4 ≠ 0) (hrej : aux_start H dcode < 0) :
    decode_pass H dcode pass = .ok ({ pass with state := aux_start H dcode }, ZEBRA_NONE) ∧
    (∀ r, decode_pass H dcode pass = .ok r →
      r.2 = ZEBRA_NONE ∧ r.1.raw = pass.raw ∧ r.1.state = aux_start H dcode ∧
      r.1.state < 0 ∧ r.1.state ≠ 0 ∧
      (aux_start H dcode = -1 → r.1.state = -1) ∧
      (0 ≤ s8 (u8 H.STATE_ADDON) → r.1.state = -1)) := by
  have hdp : decode_pass H dcode pass
      = .ok ({ pass with state := aux_start H dcode }, ZEBRA_NONE) := by
    unfold decode_pass
    simp only [hst, show s8 (u8 (-1 + 1)) = 0 by decide, state_idx_zero,
      show (u32 0 &&& 1) % 256 = 0 by decide]
    generalize aux_end H dcode (if (0 : Nat) ≠ 0 then 3 else 4) = ae
    rw [if_neg (by omega), if_pos (by decide), if_neg hs4, if_pos trivial, if_pos hrej]
    rfl
  refine ⟨hdp, fun r hr => ?_⟩
  rw [hdp] at hr
  simp only [Except.ok.injEq] at hr
  subst hr
  refine ⟨rfl, rfl, rfl, hrej, ?_, fun h => h, fun h => ?_⟩
  · show aux_start H dcode ≠ 0
    omega
  · show aux_start H dcode = -1
    rcases aux_start_cases H dcode with ha | ha | ha
    · exact ha
    · omega
    · rw [ha] at hrej
      omega

/-- Witness of C18 (as amended): a space edge after four wide runs, with the
ratio decoder of the specification. -/
theorem C18_rejected_start_witness :
    ((no_guard_dcode.ean.pass 0).state = -1 ∧ no_guard_dcode.ean.s4 ≠ 0 ∧
      aux_start model_h no_guard_dcode < 0) ∧
    decode_pass model_h no_guard_dcode (no_guard_dcode.ean.pass 0)
      = .ok ({ no_guard_dcode.ean.pass 0 with state := aux_start model_h no_guard_dcode },
          ZEBRA_NONE) :=
  ⟨⟨by decide, by decide, by decide⟩,
   (C18_rejected_start model_h no_guard_dcode (no_guard_dcode.ean.pass 0) (by decide) (by decide)
     (by decide)).1⟩

/-- C18 fails as stated: on a space edge after four wide runs, with `s4 = 4`, an
idle pass reaches state `0`, `aux_start` rejects, and `decode_pass` returns
`NONE` with the pass state at `-1`, not `0`. -/
theorem C18_rejected_start_counterexample :
    (no_guard_dcode.ean.pass 0).state = -1 ∧ no_guard_dcode.ean.s4 ≠ 0 ∧
    s8 (u8 ((no_guard_dcode.ean.pass 0).state + 1)) = 0 ∧
    aux_start model_h no_guard_dcode = -1 ∧
    (decode_pass model_h no_guard_dcode (no_guard_dcode.ean.pass 0)).map
      (fun r => (r.1.state, r.2)) = .ok (-1, ZEBRA_NONE) ∧
    (decode_pass model_h no_guard_dcode (no_guard_dcode.ean.pass 0)).map
      (fun r => r.1.state) ≠ .ok 0 := by
  decide

/-- C19 (as amended): with current colour `BAR` and `s4` non-zero, `aux_start`
returns a non-negative value (normal start `0` or the add-on marker) only if
`(14 * width(7) + 1) / s4 >= 3` in `unsigned` arithmetic, so only if the run at
offset 7 is at least about 1.5 modules wide (`3 * s4 <= 14 * width(7) + 1`), a
module being `s4 / 7`; it never accepts when `14 * width(7) + 1 < 3 * s4`. -/
theorem C19_quiet_zone (H : decoder_h) (dcode : zebra_decoder_t)
    (hbar : get_color dcode = zebra_color_t.ZEBRA_BAR) (hs4 : dcode.ean.s4 ≠ 0) :
    (0 ≤ aux_start H dcode → w32 (get_width dcode 7 * 14 + 1) / dcode.ean.s4 ≥ 3) ∧
    (0 ≤ aux_start H dcode → 3 * dcode.ean.s4 ≤ 14 * get_width dcode 7 + 1) ∧
    (14 * get_width dcode 7 + 1 < 3 * dcode.ean.s4 → aux_start H dcode = -1) ∧
    (aux_start H dcode ≠ -1 →
      aux_start H dcode = 0 ∨ aux_start H dcode = s8 (u8 H.STATE_ADDON)) := by
  have hq : aux_start H dcode ≠ -1 →
      w32 (get_width dcode 7 * 14 + 1) / dcode.ean.s4 ≥ 3 := by
    intro hne
    by_contra hlt
    apply hne
    unfold aux_start
    simp only []
    split_ifs <;> rfl
  have hle : w32 (get_width dcode 7 * 14 + 1) / dcode.ean.s4 ≥ 3 →
      3 * dcode.ean.s4 ≤ 14 * get_width dcode 7 + 1 := by
    intro h
    have hpos : 0 < dcode.ean.s4 := Nat.pos_of_ne_zero hs4
    have h1 : 3 * dcode.ean.s4 ≤ w32 (get_width dcode 7 * 14 + 1) :=
      (Nat.le_div_iff_mul_le hpos).mp h
    have h2 : w32 (get_width dcode 7 * 14 + 1) ≤ get_width dcode 7 * 14 + 1 :=
      Nat.mod_le _ _
    omega
  refine ⟨fun h => hq (by omega), fun h => hle (hq (by omega)), fun h => ?_, fun h => ?_⟩
  · by_contra hne
    have := hle (hq hne)
    omega
  · rcases aux_start_cases H dcode with ha | ha | ha
    · exact absurd ha h
    · exact Or.inl ha
    · exact Or.inr ha

/-- Witness of C19 (as amended): the start of a symbol of unit module width
after a run of width 2. -/
theorem C19_quiet_zone_witness :
    (get_color (guard_dcode zebra_color_t.ZEBRA_BAR) = zebra_color_t.ZEBRA_BAR ∧
      (guard_dcode zebra_color_t.ZEBRA_BAR).ean.s4 ≠ 0) ∧
    (0 ≤ aux_start model_h (guard_dcode zebra_color_t.ZEBRA_BAR) →
      w32 (get_width (guard_dcode zebra_color_t.ZEBRA_BAR) 7 * 14 + 1)
        / (guard_dcode zebra_color_t.ZEBRA_BAR).ean.s4 ≥ 3) ∧
    0 ≤ aux_start model_h (guard_dcode zebra_color_t.ZEBRA_BAR) :=
  ⟨⟨by decide, by decide⟩,
   (C19_quiet_zone model_h (guard_dcode zebra_color_t.ZEBRA_BAR) (by decide) (by decide)).1,
   by decide⟩

/-- C19 fails as stated: on a bar edge with `s4 = 7` (unit module width), the
guard widths 1 1 1 and a run of width 2 at offset 7, `aux_start` accepts a normal
start although the run is exactly 2 modules wide (`7 * 2 <= 2 * 7`). -/
theorem C19_quiet_zone_counterexample :
    get_color (guard_dcode zebra_color_t.ZEBRA_BAR) = zebra_color_t.ZEBRA_BAR ∧
    (guard_dcode zebra_color_t.ZEBRA_BAR).ean.s4 = 7 ∧
    get_width (guard_dcode zebra_color_t.ZEBRA_BAR) 7 = 2 ∧
    7 * get_width (guard_dcode zebra_color_t.ZEBRA_BAR) 7
      ≤ 2 * (guard_dcode zebra_color_t.ZEBRA_BAR).ean.s4 ∧
    aux_start model_h (guard_dcode zebra_color_t.ZEBRA_BAR) = 0 := by
  decide
theorem spec_weight_cases (i n : Nat) : spec_weight i n = 1 ∨ spec_weight i n = 3 := by
  unfold spec_weight
  split_ifs
  · exact Or.inr rfl
  · exact Or.inl rfl

theorem spec_weighted_sum_store (buf : Nat → Int) (n k : Nat) (x : Int) (hk : k < n) :
    spec_weighted_sum (store buf k x) n
      = spec_weighted_sum buf n + spec_weight k n * (x - buf k) := by
  unfold spec_weighted_sum
  have hterm : ∀ i ∈ Finset.range n, spec_weight i n * store buf k x i
      = spec_weight i n * buf i + (if i = k then spec_weight k n * (x - buf k) else 0) := by
    intro i _
    rw [store_apply]
    split_ifs with h
    · subst h
      ring
    · ring
  rw [Finset.sum_congr rfl hterm, Finset.sum_add_distrib, Finset.sum_ite_eq']
  rw [if_pos (Finset.mem_range.mpr hk)]

theorem spec_weighted_sum_store_last (buf : Nat → Int) (n k : Nat) (x : Int) (hk : n ≤ k) :
    spec_weighted_sum (store buf k x) n = spec_weighted_sum buf n := by
  unfold spec_weighted_sum
  apply Finset.sum_congr rfl
  intro i hi
  rw [store_apply, if_neg]
  have := Finset.mem_range.mp hi
  omega

/-- C20: for every `n ≤ 17` (in particular `n = 12` and `n = 7`) and every
accumulator with digits `0..9` in `buf[0..n]` for which `ean_check_parity(ean,
n)` returns `0`, replacing any single entry `buf[k]` with `k ≤ n` by a different
digit `0..9` makes `ean_check_parity(ean, n)` return `-1`. -/
theorem C20_single_digit_error (ean : ean_decoder_t) (n : Nat) (_hn : n ≤ 17)
    (hd : ∀ i ≤ n, 0 ≤ ean.buf i ∧ ean.buf i ≤ 9)
    (h0 : ean_check_parity ean n = .ok 0)
    (k : Nat) (hk : k ≤ n) (x : Int) (hx0 : 0 ≤ x) (hx9 : x ≤ 9) (hne : x ≠ ean.buf k) :
    ean_check_parity { ean with buf := store ean.buf k x } n = .ok (-1) := by
  have hd' : ∀ i ≤ n, 0 ≤ (store ean.buf k x) i ∧ (store ean.buf k x) i ≤ 9 := by
    intro i hi
    rw [store_apply]
    split_ifs
    · exact ⟨hx0, hx9⟩
    · exact hd i hi
  have h1 := (ean_check_parity_digits ean n hd).2
  have h2 := (ean_check_parity_digits { ean with buf := store ean.buf k x } n hd').2
  rw [h1] at h0
  have hchk : ean.buf n = spec_check_digit ean.buf n := by
    by_contra hc
    rw [if_neg hc] at h0
    exact absurd h0 (by simp)
  rw [h2]
  have hbad : ¬ ((store ean.buf k x) n = spec_check_digit (store ean.buf k x) n) := by
    unfold spec_check_digit at hchk ⊢
    obtain ⟨hb0, hb9⟩ := hd k hk
    obtain ⟨hn0, hn9⟩ := hd n (le_refl n)
    by_cases hkn : k < n
    · rw [spec_weighted_sum_store _ _ _ _ hkn, store_apply, if_neg (by omega)]
      generalize spec_weighted_sum ean.buf n = S at hchk
      rcases spec_weight_cases k n with hw | hw <;> rw [hw] <;> omega
    · have hkn' : k = n := by omega
      subst hkn'
      rw [spec_weighted_sum_store_last _ _ _ _ (le_refl k), store_apply, if_pos rfl]
      generalize spec_weighted_sum ean.buf k = S at hchk
      omega
  show (Except.ok (if (store ean.buf k x) n = spec_check_digit (store ean.buf k x) n then
    (0 : Int) else -1) : Except fault Int) = .ok (-1)
  rw [if_neg hbad]

/-- Witness of C20: 4006381333931 with its digit at position 5 read as 3. -/
theorem C20_single_digit_error_witness :
    (12 ≤ 17 ∧ (∀ i ≤ 12, 0 ≤ (ean_of 13 13 0 sample_ean13).buf i ∧
        (ean_of 13 13 0 sample_ean13).buf i ≤ 9) ∧
      ean_check_parity (ean_of 13 13 0 sample_ean13) 12 = .ok 0 ∧ 5 ≤ 12 ∧
      (0 : Int) ≤ 3 ∧ (3 : Int) ≤ 9 ∧ (3 : Int) ≠ (ean_of 13 13 0 sample_ean13).buf 5) ∧
    ean_check_parity
      { ean_of 13 13 0 sample_ean13 with buf := store (ean_of 13 13 0 sample_ean13).buf 5 3 } 12
      = .ok (-1) :=
  ⟨⟨by decide, by decide, by decide, by decide, by decide, by decide, by decide⟩,
   C20_single_digit_error (ean_of 13 13 0 sample_ean13) 12 (by decide) (by decide) (by decide)
     5 (by decide) 3 (by decide) (by decide) (by decide)⟩

theorem model_h_ideal : ideal_decode_e model_h := by
  intro e s m h2 h5 hs h
  show spec_decode_e e s 7 = (m : Int) - 2
  unfold spec_decode_e
  have h14 : 2 * e * 7 = 2 * m * s := by
    rw [show 2 * e * 7 = 2 * (7 * e) by ring, h]
    ring
  rw [h14, if_neg (by omega)]
  interval_cases m
  · rw [if_neg (by omega), if_pos (by omega)]
    rfl
  · rw [if_neg (by omega), if_neg (by omega), if_pos (by omega)]
    rfl
  · rw [if_neg (by omega), if_neg (by omega), if_neg (by omega), if_pos (by omega)]
    rfl
  · rw [if_neg (by omega), if_neg (by omega), if_neg (by omega), if_neg (by omega),
      if_pos (by omega)]
    rfl

theorem decode4_ideal (H : decoder_h) (hI : ideal_decode_e H) (dcode : zebra_decoder_t)
    (u : Nat) (hu : 1 ≤ u) (hb : 35 * u < 4294967296)
    (hbar : get_color dcode = zebra_color_t.ZEBRA_BAR) (hs4 : dcode.ean.s4 = 7 * u)
    (a0 a1 a2 a3 : Nat) (h0 : dcode.width 0 = u * a0) (h1 : dcode.width 1 = u * a1)
    (h2 : dcode.width 2 = u * a2) (_h3 : dcode.width 3 = u * a3)
    (hp0 : 1 ≤ a0) (hp1 : 1 ≤ a1) (hp2 : 1 ≤ a2) (hp3 : 1 ≤ a3) (hsum : a0 + a1 + a2 + a3 = 7)
    (h01 : a0 + a1 ≤ 5) (h12 : a1 + a2 ≤ 5) :
    decode4 H dcode = .ok ((decode4_resolve (4 * (a0 + a1 - 2) + (a1 + a2 - 2))
      (7 * u * (a0 + a2)) (7 * u) : Nat) : Int) := by
  have hw : ∀ a, a ≤ 7 → w32 (u * a) = u * a := by
    intro a ha
    unfold w32
    apply Nat.mod_eq_of_lt
    nlinarith
  have g0 : get_width dcode 0 = u * a0 := by
    unfold get_width
    rw [h0, hw a0 (by omega)]
  have g1 : get_width dcode 1 = u * a1 := by
    unfold get_width
    rw [h1, hw a1 (by omega)]
  have g2 : get_width dcode 2 = u * a2 := by
    unfold get_width
    rw [h2, hw a2 (by omega)]
  have e1 : decode4_e1 dcode = u * (a0 + a1) := by
    unfold decode4_e1
    rw [if_pos hbar, g0, g1, ← Nat.mul_add, hw _ (by omega)]
  have e2 : decode4_e2 dcode = u * (a1 + a2) := by
    unfold decode4_e2
    rw [g1, g2, ← Nat.mul_add, hw _ (by omega)]
  have d2 : decode4_d2 dcode = 7 * u * (a0 + a2) := by
    unfold decode4_d2
    rw [if_pos hbar, g0, g2, ← Nat.mul_add, hw _ (by omega)]
    unfold w32
    rw [Nat.mod_eq_of_lt (by nlinarith)]
    ring
  have v1 : H.decode_e (decode4_e1 dcode) dcode.ean.s4 7 = ((a0 + a1 : Nat) : Int) - 2 := by
    rw [e1, hs4]
    exact hI _ _ (a0 + a1) (by omega) h01 (by omega) (by ring)
  have v2 : H.decode_e (decode4_e2 dcode) dcode.ean.s4 7 = ((a1 + a2 : Nat) : Int) - 2 := by
    rw [e2, hs4]
    exact hI _ _ (a1 + a2) (by omega) h12 (by omega) (by ring)
  have hcode := (decode4_code_value (((a0 + a1 : Nat) : Int) - 2) (((a1 + a2 : Nat) : Int) - 2)
    (by omega) (by omega)).2 (by omega)
  rw [decode4_eq, v1, v2, hcode, d2, hs4]
  have hnn : ¬ (4 * (((a0 + a1 : Nat) : Int) - 2) + (((a1 + a2 : Nat) : Int) - 2) < 0) := by
    omega
  have htn : (4 * (((a0 + a1 : Nat) : Int) - 2) + (((a1 + a2 : Nat) : Int) - 2)).toNat
      = 4 * (a0 + a1 - 2) + (a1 + a2 - 2) := by
    omega
  rw [if_neg hnn, htn, if_pos (decode4_resolve_lt _ _ _ (by omega))]
theorem decode4_resolve_ideal (c k u : Nat) (hc : c < 16) (hu : 1 ≤ u)
    (hb : 35 * u < 4294967296) :
    decode4_resolve c (7 * u * k) (7 * u) =
      if c = 5 ∧ k > 3 then 0x12
      else if c = 10 ∧ k > 3 then 0x11
      else if c = 6 ∧ k > 4 then 0x13
      else if c = 9 ∧ k > 4 then 0x10
      else c := by
  have h3 : w32 (3 * (7 * u)) = 7 * u * 3 := by
    unfold w32
    rw [Nat.mod_eq_of_lt (by omega)]
    ring
  have h4 : w32 (4 * (7 * u)) = 7 * u * 4 := by
    unfold w32
    rw [Nat.mod_eq_of_lt (by omega)]
    ring
  rw [decode4_resolve_eq c _ _ hc, h3, h4]
  have hpos : 0 < 7 * u := by omega
  have e3 : (7 * u * k > 7 * u * 3) = (k > 3) := by
    apply propext
    exact Nat.mul_lt_mul_left hpos
  have e4 : (7 * u * k > 7 * u * 4) = (k > 4) := by
    apply propext
    exact Nat.mul_lt_mul_left hpos
  simp only [e3, e4]

theorem decode4_ideal_list (H : decoder_h) (hI : ideal_decode_e H) (dcode : zebra_decoder_t)
    (u : Nat) (hu : 1 ≤ u) (hb : 35 * u < 4294967296)
    (hbar : get_color dcode = zebra_color_t.ZEBRA_BAR) (hs4 : dcode.ean.s4 = 7 * u)
    (m : List Nat) (hm : is_character m)
    (hw : ∀ k < 4, dcode.width k = u * m.getD (3 - k) 0) :
    decode4 H dcode = .ok ((ideal_code (m.getD 3 0) (m.getD 2 0) (m.getD 1 0) : Nat) : Int) ∧
    ideal_code (m.getD 3 0) (m.getD 2 0) (m.getD 1 0) < 0x14 := by
  obtain ⟨p0, p1, p2, p3, hsum, h01, h12⟩ := hm
  have h := decode4_ideal H hI dcode u hu hb hbar hs4 (m.getD 3 0) (m.getD 2 0) (m.getD 1 0)
    (m.getD 0 0) (hw 0 (by omega)) (hw 1 (by omega)) (hw 2 (by omega)) (hw 3 (by omega))
    p3 p2 p1 p0 (by omega) h01 h12
  have hc : 4 * (m.getD 3 0 + m.getD 2 0 - 2) + (m.getD 2 0 + m.getD 1 0 - 2) < 16 := by omega
  have hlt := decode4_resolve_lt (4 * (m.getD 3 0 + m.getD 2 0 - 2) + (m.getD 2 0 + m.getD 1 0 - 2))
    (7 * u * (m.getD 3 0 + m.getD 1 0)) (7 * u) hc
  rw [decode4_resolve_ideal _ _ u hc hu hb] at h hlt
  exact ⟨h, hlt⟩

theorem set_a_widths_spec :
    ∀ d < 10, is_character (set_a_widths d) ∧ is_character (set_a_widths d).reverse ∧
      digits.getD (ideal_code ((set_a_widths d).getD 3 0) ((set_a_widths d).getD 2 0)
        ((set_a_widths d).getD 1 0)) 0 = 0x10 ||| d ∧
      digits.getD (ideal_code ((set_a_widths d).reverse.getD 3 0)
        ((set_a_widths d).reverse.getD 2 0) ((set_a_widths d).reverse.getD 1 0)) 0 = d := by
  decide

/-- C16 (as amended): assume the ratio decoder returns `m - 2` whenever the edge
pair is exactly `m` modules of a 7-module character (`7 * e = m * s`, `m` in
`2..5`).  Then for every digit `d` in `0..9` and every unit `u ≥ 1` with
`35 * u < 2 ^ 32` (so that `d2 * 7` and `mid * s4` do not wrap), with colour
`BAR`, `s4 = 7 * u` and the window holding, oldest first, `u` times the
canonical set-A module widths of `d`, `decode4` returns a code `c < 20` with
`digits[c] = 0x10 | d`; and with the mirrored set-B widths (the same four widths
in reverse order) it returns a code `c < 20` with `digits[c] = d`. -/
theorem C16_ideal_widths (H : decoder_h) (hI : ideal_decode_e H) (d : Nat) (hd : d < 10)
    (u : Nat) (hu : 1 ≤ u) (hb : 35 * u < 4294967296) (dcode : zebra_decoder_t)
    (hbar : get_color dcode = zebra_color_t.ZEBRA_BAR) (hs4 : dcode.ean.s4 = 7 * u) :
    ((∀ k < 4, dcode.width k = u * (set_a_widths d).getD (3 - k) 0) →
      ∃ c : Nat, c < 20 ∧ decode4 H dcode = .ok (c : Int) ∧ digits.getD c 0 = 0x10 ||| d) ∧
    ((∀ k < 4, dcode.width k = u * (set_a_widths d).reverse.getD (3 - k) 0) →
      ∃ c : Nat, c < 20 ∧ decode4 H dcode = .ok (c : Int) ∧ digits.getD c 0 = d) := by
  obtain ⟨ha, hr, hda, hdr⟩ := set_a_widths_spec d hd
  constructor
  · intro hw
    obtain ⟨h4, hlt⟩ := decode4_ideal_list H hI dcode u hu hb hbar hs4 _ ha hw
    exact ⟨_, hlt, h4, hda⟩
  · intro hw
    obtain ⟨h4, hlt⟩ := decode4_ideal_list H hI dcode u hu hb hbar hs4 _ hr hw
    exact ⟨_, hlt, h4, hdr⟩

/-- Witness of C16 (as amended): the digit 7 with a module of 3, decoded by the
ratio decoder of the specification. -/
theorem C16_ideal_widths_witness :
    (ideal_decode_e model_h ∧ 7 < 10 ∧ 1 ≤ 3 ∧ 35 * 3 < 4294967296 ∧
      get_color (char_dcode zebra_color_t.ZEBRA_BAR 3 (set_a_widths 7))
        = zebra_color_t.ZEBRA_BAR ∧
      (char_dcode zebra_color_t.ZEBRA_BAR 3 (set_a_widths 7)).ean.s4 = 7 * 3 ∧
      ∀ k < 4, (char_dcode zebra_color_t.ZEBRA_BAR 3 (set_a_widths 7)).width k
        = 3 * (set_a_widths 7).getD (3 - k) 0) ∧
    (∃ c : Nat, c < 20 ∧
      decode4 model_h (char_dcode zebra_color_t.ZEBRA_BAR 3 (set_a_widths 7)) = .ok (c : Int) ∧
      digits.getD c 0 = 0x10 ||| 7) ∧
    decode4 model_h (char_dcode zebra_color_t.ZEBRA_BAR 3 (set_a_widths 7)) = .ok 0x13 :=
  ⟨⟨model_h_ideal, by decide, by decide, by decide, by decide, by decide, by decide⟩,
   (C16_ideal_widths model_h model_h_ideal 7 (by decide) 3 (by decide) (by decide)
     (char_dcode zebra_color_t.ZEBRA_BAR 3 (set_a_widths 7)) (by decide) (by decide)).1
     (by decide),
   by decide⟩

/-- C16 fails as stated for large units: with `u = 122713352` (`s4 = 7 * u` and
every width still fit an `unsigned`) and the set-A widths 1 3 1 2 of the digit
7, `d2 * 7 = 35 * u` wraps to `24`, the alternate code is not selected, and
`decode4` returns the code `6` with `digits[6] = 0x11`, the digit 1. -/
theorem C16_ideal_widths_counterexample :
    ideal_decode_e model_h ∧
    get_color (char_dcode zebra_color_t.ZEBRA_BAR 122713352 (set_a_widths 7))
      = zebra_color_t.ZEBRA_BAR ∧
    (char_dcode zebra_color_t.ZEBRA_BAR 122713352 (set_a_widths 7)).ean.s4 = 7 * 122713352 ∧
    7 * 122713352 < 4294967296 ∧
    (∀ k < 4, (char_dcode zebra_color_t.ZEBRA_BAR 122713352 (set_a_widths 7)).width k
      = 122713352 * (set_a_widths 7).getD (3 - k) 0) ∧
    decode4_d2 (char_dcode zebra_color_t.ZEBRA_BAR 122713352 (set_a_widths 7)) = 24 ∧
    decode4 model_h (char_dcode zebra_color_t.ZEBRA_BAR 122713352 (set_a_widths 7)) = .ok 6 ∧
    digits.getD 6 0 = 0x11 ∧ digits.getD 6 0 ≠ 0x10 ||| 7 :=
  ⟨model_h_ideal, by decide, by decide, by decide, by decide, by decide, by decide, by decide,
   by decide⟩
theorem integrate_store_addon (H : decoder_h) (hH : masks_ok H) (ean : ean_decoder_t)
    (pass : ean_pass_t) (part : Nat) (ht : is_half_tag part) :
    (integrate_store H ean pass part).addon = ean.addon ∨
      (integrate_store H ean pass part).addon = 0 := by
  rcases ht with h | h | h | h <;> subst h
  · rw [integrate_store_left8 H hH ean pass]
    simp only []
    split_ifs
    · exact Or.inr rfl
    · exact Or.inl rfl
  · rw [integrate_store_right8 H hH ean pass]
    simp only []
    split_ifs
    · exact Or.inr rfl
    · exact Or.inl rfl
  · rw [integrate_store_left13 H hH ean pass]
    simp only []
    split_ifs
    · exact Or.inr rfl
    · exact Or.inl rfl
  · rw [integrate_store_right13 H hH ean pass]
    simp only []
    split_ifs
    · exact Or.inr rfl
    · exact Or.inl rfl

theorem integrate_store_no_addon (H : decoder_h) (hH : masks_ok H) (ean : ean_decoder_t)
    (pass : ean_pass_t) (part : Nat) (ht : is_half_tag part) (ha : ean.addon = ZEBRA_NONE) :
    no_addon (integrate_store H ean pass part) := by
  constructor
  · obtain ⟨S, side, hS, hside, rfl⟩ := is_half_tag_cases part ht
    obtain ⟨h1, h2⟩ := integrate_store_labels H hH S hS side hside ean pass
    exact (labels_consistent_of_halves S hS side hside _ h1 h2).1
  · rcases integrate_store_addon H hH ean pass part ht with h | h
    · rw [h, ha]
    · exact h

theorem integrate_finish_plain (e : ean_decoder_t) (hn : no_addon e) (sym : Nat)
    (h : integrate_finish e = .ok sym) : plain_sym sym := by
  obtain ⟨⟨hl, hr, _⟩, ha⟩ := hn
  have hand : e.left &&& e.right = 0 ∨ e.left &&& e.right = 8 ∨ e.left &&& e.right = 13 := by
    rcases hl with hl | hl | hl <;> rcases hr with hr | hr | hr <;> rw [hl, hr] <;> decide
  unfold integrate_finish at h
  simp only [ha] at h
  split at h
  · exact absurd h (by simp)
  · split at h
    · exact absurd h (by simp)
    · simp only [Except.ok.injEq] at h
      rw [← h]
      unfold plain_sym ZEBRA_NONE ZEBRA_PARTIAL ZEBRA_EAN8 ZEBRA_EAN13
      rcases hand with h0 | h0 | h0 <;> rw [h0] <;> split_ifs <;> simp_all
theorem no_addon_reset_passes (e : ean_decoder_t) (h : no_addon e) : no_addon (reset_passes e) :=
  h

theorem zebra_decode_ean_body_plain (H : decoder_h) (hH : masks_ok H) (pass_idx i : Nat)
    (d : zebra_decoder_t) (sym : Nat) (hn : no_addon d.ean) (hs : plain_sym sym)
    (d' : zebra_decoder_t) (s' : Nat)
    (h : zebra_decode_ean_body H pass_idx i d sym = .ok (d', s')) :
    no_addon d'.ean ∧ plain_sym s' := by
  rcases zebra_decode_ean_body_cases H pass_idx i d sym d' s' h with
    ⟨_, hd, hs'⟩ | ⟨_, p, part, hdp, ⟨_, hd, hs'⟩ | ⟨hpart, e, sym1, hip, hc⟩⟩
  · rw [hd, hs']
    exact ⟨hn, hs⟩
  · rw [hd, hs']
    exact ⟨hn, hs⟩
  · obtain ⟨_, hp2, _⟩ := decode_pass_spec H d _ _ hdp
    have ht : is_half_tag part := by
      rcases hp2 with h0 | ⟨ht, _⟩
      · exact absurd h0 hpart
      · exact ht
    obtain ⟨he, hf⟩ := integrate_partial_ok H _ p part e sym1 hip
    have hne : no_addon e := by
      rw [he]
      exact integrate_store_no_addon H hH _ p part ht hn.2
    have hps : plain_sym sym1 := by
      rw [← he] at hf
      exact integrate_finish_plain e hne sym1 hf
    rcases hc with ⟨_, hd, hs'⟩ | ⟨_, _, hd, hs'⟩ | ⟨_, _, hd, hs'⟩ | ⟨_, _, hpp, hs'⟩
    · rw [hd, hs']
      exact ⟨hne, Or.inl rfl⟩
    · rw [hd, hs']
      exact ⟨hne, hps⟩
    · rw [hd, hs']
      exact ⟨hne, Or.inr (Or.inl rfl)⟩
    · rw [(postprocess_frame H _ sym1 d' hpp).1, hs']
      exact ⟨hne, hps⟩

theorem zebra_decode_ean_plain (H : decoder_h) (hH : masks_ok H) (d : zebra_decoder_t)
    (hn : no_addon d.ean) (r : zebra_decoder_t × Nat) (h : zebra_decode_ean H d = .ok r) :
    no_addon r.1.ean ∧ plain_sym r.2 := by
  obtain ⟨d', s'⟩ := r
  have := zebra_decode_ean_loop_induct H ((d.idx &&& 3) % 256)
    (fun _ x s => no_addon x.ean ∧ plain_sym s)
    (fun j x t x' t' hP hb => zebra_decode_ean_body_plain H hH _ j x t hP.1 hP.2 x' t' hb)
    4 0 (update_s4 d) ZEBRA_NONE d' s' ⟨hn, Or.inl rfl⟩ h
  exact this

theorem run_edges_syms_plain (H : decoder_h) (hH : masks_ok H) :
    ∀ (ws : List Nat) (d0 : zebra_decoder_t), no_addon d0.ean →
      ∀ r ∈ run_edges_syms H d0 ws, no_addon r.1.ean ∧ plain_sym r.2 := by
  intro ws
  induction ws with
  | nil =>
    intro d0 _ r hr
    rw [run_edges_syms] at hr
    exact absurd hr (List.not_mem_nil r)
  | cons w ws ih =>
    intro d0 hn r hr
    rw [run_edges_syms] at hr
    split at hr
    · exact absurd hr (List.not_mem_nil r)
    · rename_i d1 s1 h1
      have hstep := zebra_decode_ean_plain H hH (push_edge d0 w) hn (d1, s1) h1
      rcases List.mem_cons.mp hr with hr | hr
      · rw [hr]
        exact hstep
      · exact ih d1 hstep.1 r hr

theorem plain_sym_not_addon (sym : Nat) (h : plain_sym sym) :
    sym ≠ ZEBRA_EAN13 ||| ZEBRA_ADDON2 ∧ sym ≠ ZEBRA_EAN13 ||| ZEBRA_ADDON5 ∧
    sym ≠ ZEBRA_EAN8 ||| ZEBRA_ADDON2 ∧ sym ≠ ZEBRA_EAN8 ||| ZEBRA_ADDON5 ∧
    sym &&& ZEBRA_ADDON2 = 0 ∧ sym &&& ZEBRA_ADDON5 = 0 := by
  rcases h with h | h | h | h <;> rw [h] <;> decide

theorem no_addon_initial : no_addon initial_dcode.ean := by
  decide

set_option maxRecDepth 100000 in
theorem ean13_addon_run :
    (call_outputs model_h initial_dcode (ean13_edges ++ addon_edges) 16).length = 75 ∧
    (call_outputs model_h initial_dcode (ean13_edges ++ addon_edges) 16).get? 59
      = some (ZEBRA_EAN13,
          [52, 48, 48, 54, 51, 56, 49, 51, 51, 51, 57, 51, 0, 255, 255, 255]) ∧
    (call_outputs model_h initial_dcode (ean13_edges ++ addon_edges) 16).map Prod.fst
      = List.replicate 31 0 ++ [ZEBRA_PARTIAL] ++ List.replicate 27 0 ++ [ZEBRA_EAN13]
        ++ List.replicate 15 0 ∧
    (call_states model_h initial_dcode (ean13_edges ++ addon_edges)).get? 67
      = some [s8 (u8 model_h.STATE_ADDON), -1, -1, -1] := by
  decide
/-- C11 (as amended): no add-on is ever emitted.  From every decoder state whose
labels are consistent and whose `addon` label is `NONE` (in particular the
initial state), on every edge sequence, every call of `zebra_decode_ean` returns
`NONE`, `PARTIAL`, `EAN8` or `EAN13`, never a tag with an add-on flag, and leaves
`addon = NONE`: no pass returns an add-on partial.  On the edge sequence of the
EAN-13 symbol 4006381333931 followed by the 2-digit add-on "12", fed edge by edge
from the initial state with the ratio decoder of the specification, all 75
calls return; the 32nd returns `PARTIAL` (left half), the 60th returns `EAN13`
with the output buffer holding "400638133393" followed by NUL, every other call
returns `NONE`, and the add-on guard only seeds a pass with the add-on marker
(after the 68th call). -/
theorem C11_addon_emission (H : decoder_h) (hH : masks_ok H) (d0 : zebra_decoder_t)
    (hn : no_addon d0.ean) (ws : List Nat) :
    (∀ r ∈ run_edges_syms H d0 ws,
      plain_sym r.2 ∧ r.2 ≠ ZEBRA_EAN13 ||| ZEBRA_ADDON2 ∧ r.2 ≠ ZEBRA_EAN13 ||| ZEBRA_ADDON5 ∧
      r.1.ean.addon = ZEBRA_NONE) ∧
    ((call_outputs model_h initial_dcode (ean13_edges ++ addon_edges) 16).length = 75 ∧
      (call_outputs model_h initial_dcode (ean13_edges ++ addon_edges) 16).get? 59
        = some (ZEBRA_EAN13,
            [52, 48, 48, 54, 51, 56, 49, 51, 51, 51, 57, 51, 0, 255, 255, 255]) ∧
      (call_outputs model_h initial_dcode (ean13_edges ++ addon_edges) 16).map Prod.fst
        = List.replicate 31 0 ++ [ZEBRA_PARTIAL] ++ List.replicate 27 0 ++ [ZEBRA_EAN13]
          ++ List.replicate 15 0 ∧
      (call_states model_h initial_dcode (ean13_edges ++ addon_edges)).get? 67
        = some [s8 (u8 model_h.STATE_ADDON), -1, -1, -1]) := by
  refine ⟨fun r hr => ?_, ean13_addon_run⟩
  obtain ⟨h1, h2⟩ := run_edges_syms_plain H hH ws d0 hn r hr
  obtain ⟨n1, n2, _⟩ := plain_sym_not_addon r.2 h2
  exact ⟨h2, n1, n2, h1.2⟩

/-- Witness of C11 (as amended) on the initial state and the edge sequence of
the symbol with its add-on. -/
theorem C11_addon_emission_witness :
    (masks_ok model_h ∧ no_addon initial_dcode.ean) ∧
    (∀ r ∈ run_edges_syms model_h initial_dcode (ean13_edges ++ addon_edges),
      plain_sym r.2 ∧ r.2 ≠ ZEBRA_EAN13 ||| ZEBRA_ADDON2 ∧ r.2 ≠ ZEBRA_EAN13 ||| ZEBRA_ADDON5 ∧
      r.1.ean.addon = ZEBRA_NONE) :=
  ⟨⟨by decide, by decide⟩,
   (C11_addon_emission model_h (by decide) initial_dcode (by decide)
     (ean13_edges ++ addon_edges)).1⟩

/-- C11 fails as stated: for every header whose masks separate the symbol tags
from the add-on flags (such as the header of the specification's tag table), no
edge sequence fed from the initial decoder state makes any call return
`EAN13|ADDON2`, whatever the output buffer holds; and on the EAN-13 symbol
followed by the add-on "12" the symbol is returned as plain `EAN13` with the
output "400638133393" followed by NUL. -/
theorem C11_addon_emission_counterexample :
    masks_ok model_h ∧
    (∀ H : decoder_h, masks_ok H →
      ¬ ∃ ws : List Nat, ∃ r ∈ run_edges_syms H initial_dcode ws,
        r.2 = ZEBRA_EAN13 ||| ZEBRA_ADDON2) ∧
    (¬ ∃ ws : List Nat, ∃ r ∈ run_edges_syms model_h initial_dcode ws,
        r.2 = ZEBRA_EAN13 ||| ZEBRA_ADDON2 ∧
        (List.range 16).map r.1.buf
          = [52, 48, 48, 54, 51, 56, 49, 51, 51, 51, 57, 51, 49, 49, 50, 0]) ∧
    (call_outputs model_h initial_dcode (ean13_edges ++ addon_edges) 16).get? 59
      = some (ZEBRA_EAN13,
          [52, 48, 48, 54, 51, 56, 49, 51, 51, 51, 57, 51, 0, 255, 255, 255]) := by
  have hall : ∀ H : decoder_h, masks_ok H →
      ¬ ∃ ws : List Nat, ∃ r ∈ run_edges_syms H initial_dcode ws,
        r.2 = ZEBRA_EAN13 ||| ZEBRA_ADDON2 := by
    rintro H hH ⟨ws, r, hr, hsym⟩
    obtain ⟨_, h2⟩ := run_edges_syms_plain H hH ws initial_dcode no_addon_initial r hr
    exact (plain_sym_not_addon r.2 h2).1 hsym
  refine ⟨by decide, hall, ?_, ean13_addon_run.2.1⟩
  rintro ⟨ws, r, hr, hsym, _⟩
  exact hall model_h (by decide) ⟨ws, r, hr, hsym⟩

end Ean
